import Mathlib

/-!
TrillTransformation: pitch-name codec, ornament pattern generator, transformation engine and
sequence encoder

A shallow embedding of `TrillTransformation.cpp`.

Conventions of the embedding.

* A C++ `int` is a Lean `Int`.  `/` and `%` on `int` truncate toward zero, so they are
  `Int.tdiv` and `Int.tmod`.  Pitch arithmetic (`pi + 2`, `pi - 2`, ...) is not wrapped: signed
  overflow is undefined behaviour in C++, and the pitches the program computes are small.
* A `std::string` is a Lean `String`, read character by character (the program only handles
  ASCII text).  `size_t` arithmetic is taken modulo `2 ^ 64`.
* A function that may throw returns `Except Exn _`; the two exception classes that occur are
  `std::invalid_argument` and `std::out_of_range`.
* A read of a C array returns `Option`: `none` stands for a read outside the array.
* A handler that appends to the vector it receives by reference takes the vector and returns
  the extended vector.
-/

set_option linter.unusedVariables false

namespace TrillTransformation

/-! ## Exceptions, strings and the standard library functions used -/

/-- The exception classes thrown by the program and by the library calls it makes. -/
inductive Exn where
  | invalid_argument (what : String)
  | out_of_range (what : String)
  deriving DecidableEq

/-- The width of `size_t`. -/
def SIZE_WIDTH : Nat := 64

/-- Subtraction on `size_t`: unsigned, wrapping. -/
def sizeSub (a b : Nat) : Nat := (2 ^ SIZE_WIDTH + a - b % 2 ^ SIZE_WIDTH) % 2 ^ SIZE_WIDTH

/-- The value `std::string::npos`. -/
def npos : Nat := 2 ^ SIZE_WIDTH - 1

/-- `std::string::substr(pos, n)`: throws `std::out_of_range` when `pos > size()`, otherwise
the characters from `pos`, at most `n` of them. -/
def substr (s : String) (pos : Nat) (n : Nat) : Except Exn String :=
  if pos > s.length then
    .error (.out_of_range "basic_string::substr")
  else
    .ok ⟨(s.data.drop pos).take n⟩

/-- `isspace` in the C locale. -/
def isspace (c : Char) : Bool :=
  decide (c = ' ' ∨ c = '\t' ∨ c = '\n' ∨ c = '\x0b' ∨ c = '\x0c' ∨ c = '\r')

/-- The value of a run of decimal digits. -/
def digitsValue (ds : List Char) : Int :=
  ds.foldl (fun acc c => 10 * acc + ((c.toNat : Int) - 48)) 0

/-- The optional sign in front of a number: whether it is a minus, and the rest of the text. -/
def readSign : List Char → Bool × List Char
  | '-' :: r => (true, r)
  | '+' :: r => (false, r)
  | s => (false, s)

/-- `std::stoi(str)`, base 10: skips leading white space, reads an optional sign and the
longest run of decimal digits; throws `std::invalid_argument` when there is no digit and
`std::out_of_range` when the value does not fit an `int`. -/
def stoi (str : String) : Except Exn Int :=
  let signed := readSign (str.data.dropWhile isspace)
  let ds := signed.2.takeWhile Char.isDigit
  if ds = [] then
    .error (.invalid_argument "stoi")
  else
    let v : Int := if signed.1 then - digitsValue ds else digitsValue ds
    if v < -(2 ^ 31) ∨ v > 2 ^ 31 - 1 then
      .error (.out_of_range "stoi")
    else
      .ok v

/-- `std::to_string(int)`. -/
def to_string (n : Int) : String := toString n

/-- A read `a[i]` of a C array with an `int` index: `none` when `i` is outside the array. -/
def arrayRead {α : Type} (a : List α) (i : Int) : Option α :=
  if 0 ≤ i then a[i.toNat]? else none

/-! ## PitchName codec -/

/-- The table `noteNames` of both codec functions. -/
def noteNames : List String :=
  "C" :: "C#" :: "D" :: "D#" :: "E" :: "F" :: "F#" :: "G" :: "G#" :: "A" :: "A#" :: "B" :: []

/-- `getNoteName`: the name of a MIDI note number. -/
def getNoteName (noteNumber : Int) : Option String :=
  let octave := noteNumber.tdiv 12 - 1
  let noteIndex := noteNumber.tmod 12
  match arrayRead noteNames noteIndex with
  | some name => some (name ++ to_string octave)
  | none => none

/-- `getNoteNumber`: the MIDI note number of a note name. -/
def getNoteNumber (noteName : String) : Except Exn Int := do
  let baseNote ← substr noteName 0 (sizeSub noteName.length 1)
  let octaveStr ← substr noteName (sizeSub noteName.length 1) npos
  let octave ← stoi octaveStr
  let noteIndex := noteNames.indexOf baseNote
  if noteIndex = noteNames.length then
    .error (.invalid_argument ("Invalid note name: " ++ noteName))
  else
    .ok ((octave + 1) * 12 + (noteIndex : Int))

/-! ## Pattern generator -/

/-- The enumeration `TimeMeter`. -/
inductive TimeMeter where
  | DUPLE
  | TRIPLE
  deriving DecidableEq

open TimeMeter

/-- The loop `for (int i = 0; i < n; ++i) EmbRet.push_back({i % 2 == 0 ? a : b, segment});`
found in the handlers. -/
def pushAlternating (EmbRet : List (Int × Int)) (n : Nat) (a b segment : Int) :
    List (Int × Int) :=
  (List.range n).foldl (fun acc i => acc ++ [(if i % 2 = 0 then a else b, segment)]) EmbRet

/-- `handleMeterShortReg`. -/
def handleMeterShortReg (EmbRet : List (Int × Int)) (p1 p2 p3 pi durPi : Int)
    (meter : TimeMeter) : List (Int × Int) :=
  match meter with
  | DUPLE =>
    let segment := durPi.tdiv 4
    EmbRet ++ [(p1, segment)] ++ [(p2, segment)] ++ [(p1, segment)]
      ++ [(p2, durPi - 3 * segment)]
  | TRIPLE =>
    let segment := durPi.tdiv 6
    pushAlternating EmbRet 5 p1 p2 segment ++ [(p2, durPi - 5 * segment)]

/-- `handleMeterNormalReg`. -/
def handleMeterNormalReg (EmbRet : List (Int × Int)) (p1 p2 p3 p4 p5 pi durPi : Int)
    (meter : TimeMeter) : List (Int × Int) :=
  let segment := durPi.tdiv 8
  match meter with
  | DUPLE => pushAlternating EmbRet 6 p1 p2 segment ++ [(p2, durPi - 6 * segment)]
  | TRIPLE => pushAlternating EmbRet 6 p1 p2 segment ++ [(p2, durPi - 6 * segment)]

/-- `handleMeterLongReg`. -/
def handleMeterLongReg (EmbRet : List (Int × Int)) (p1 p2 p3 p4 p5 p6 p7 pi durPi : Int)
    (meter : TimeMeter) : List (Int × Int) :=
  if meter = DUPLE ∨ meter = TRIPLE then
    let segment := durPi.tdiv 8
    pushAlternating EmbRet 7 p1 p2 segment ++ [(p2, durPi - 7 * segment)]
  else
    EmbRet

/-- `handleMeterDelayedNormal`. -/
def handleMeterDelayedNormal (EmbRet : List (Int × Int)) (p1 p2 p3 p4 p5 pi durPi : Int)
    (meter : TimeMeter) : List (Int × Int) :=
  match meter with
  | DUPLE =>
    let segmentA := durPi.tdiv 4
    let segmentB := durPi.tdiv 8
    EmbRet ++ [(p1, segmentA)] ++ [(p1, segmentB)] ++ [(p2, segmentB)] ++ [(p1, segmentB)]
      ++ [(p2, segmentB)] ++ [(p2, durPi - (segmentA + 4 * segmentB))]
  | TRIPLE =>
    let segmentA := durPi.tdiv 8
    pushAlternating (EmbRet ++ [(p1, segmentA * 2)]) 4 p2 p1 segmentA
      ++ [(p2, durPi - segmentA * 6)]

/-- `handleMeterDelayedLong`. -/
def handleMeterDelayedLong (EmbRet : List (Int × Int)) (p1 p2 p3 p4 p5 pi durPi : Int)
    (meter : TimeMeter) : List (Int × Int) :=
  if meter = DUPLE ∨ meter = TRIPLE then
    let segment := durPi.tdiv 8
    pushAlternating (EmbRet ++ [(p1, segment * 2)]) 5 p2 p1 segment
      ++ [(p2, durPi - 7 * segment)]
  else
    EmbRet

/-- `handleMeterAscendingShort`. -/
def handleMeterAscendingShort (EmbRet : List (Int × Int)) (p1 p2 p3 p4 p5 p6 durPi : Int)
    (meter : TimeMeter) : List (Int × Int) :=
  let segment := durPi.tdiv 8
  match meter with
  | DUPLE =>
    pushAlternating EmbRet 4 p1 p2 segment ++ [(p1, durPi.tdiv 4)]
      ++ [(p2, durPi - (4 * segment + durPi.tdiv 4))]
  | TRIPLE =>
    pushAlternating EmbRet 4 p1 p2 segment ++ [(p1, durPi.tdiv 6)]
      ++ [(p2, durPi - (4 * segment + durPi.tdiv 6))]

/-- `handleMeterAscendingNormal`. -/
def handleMeterAscendingNormal (EmbRet : List (Int × Int))
    (p1 p2 p3 p4 p5 p6 p7 p8 durPi : Int) (meter : TimeMeter) : List (Int × Int) :=
  match meter with
  | DUPLE =>
    let segment := durPi.tdiv 8
    pushAlternating EmbRet 7 p1 p2 segment ++ [(p2, durPi - 7 * segment)]
  | TRIPLE =>
    let segment := durPi.tdiv 8
    pushAlternating EmbRet 7 p1 p2 segment ++ [(p2, durPi - 7 * segment)]

/-- `handleMeterTerminalShort`. -/
def handleMeterTerminalShort (EmbRet : List (Int × Int)) (p1 p2 p3 pi durPi : Int)
    (meter : TimeMeter) : List (Int × Int) :=
  match meter with
  | DUPLE =>
    let segment := durPi.tdiv 4
    EmbRet ++ [(p1, segment)] ++ [(p2, segment)] ++ [(p1, segment)]
      ++ [(p2, durPi - 3 * segment)]
  | TRIPLE =>
    let segment := durPi.tdiv 6
    pushAlternating EmbRet 5 p1 p2 segment ++ [(p2, durPi - 5 * segment)]

/-- `handleMeterAscendingLong`. -/
def handleMeterAscendingLong (EmbRet : List (Int × Int))
    (p1 p2 p3 p4 p5 p6 p7 p8 p9 p10 p11 p12 durPi : Int) (meter : TimeMeter) :
    List (Int × Int) :=
  match meter with
  | DUPLE =>
    let segment := durPi.tdiv 16
    pushAlternating EmbRet 15 p1 p2 segment ++ [(p2, durPi - 15 * segment)]
  | TRIPLE =>
    let segment := durPi.tdiv 12
    pushAlternating EmbRet 11 p1 p2 segment ++ [(p2, durPi - 11 * segment)]

/-- `handleMeterTerminalNormal`. -/
def handleMeterTerminalNormal (EmbRet : List (Int × Int))
    (p1 p2 p3 pi p4 p5 p6 p7 durPi : Int) (meter : TimeMeter) : List (Int × Int) :=
  match meter with
  | DUPLE =>
    let segment := durPi.tdiv 8
    pushAlternating EmbRet 7 p1 p2 segment ++ [(p2, durPi - 7 * segment)]
  | TRIPLE =>
    let segment := durPi.tdiv 12
    pushAlternating EmbRet 11 p1 p2 segment ++ [(p2, durPi - 11 * segment)]

/-- `handleMeterTerminalLong`. -/
def handleMeterTerminalLong (EmbRet : List (Int × Int))
    (p1 p2 p3 p4 p5 p6 p7 p8 p9 p10 p11 p12 p13 p14 p15 p16 durPi : Int)
    (meter : TimeMeter) : List (Int × Int) :=
  match meter with
  | DUPLE =>
    let segment := durPi.tdiv 16
    pushAlternating EmbRet 15 p1 p2 segment ++ [(p2, durPi - 15 * segment)]
  | TRIPLE =>
    let segment := durPi.tdiv 12
    pushAlternating EmbRet 11 p1 p2 segment ++ [(p2, durPi - 11 * segment)]

/-- The dispatch of `applyTrill` on the variant code, after the two argument checks: the
`if ... else if ...` chain that fills the vector `EmbRet`, which is then returned. -/
def applyTrillDispatch (EmbRet : List (Int × Int)) (pi durPi : Int) (meter : TimeMeter)
    (variant : String) : List (Int × Int) :=
  if variant = "BTrRs1" then
    handleMeterShortReg EmbRet (pi + 2) pi (pi + 2) pi durPi meter
  else if variant = "BTrRs5" then
    handleMeterShortReg EmbRet (pi + 1) pi (pi + 1) pi durPi meter
  else if variant = "CTrRs1" then
    handleMeterShortReg EmbRet pi (pi + 2) pi (pi + 2) durPi meter
  else if variant = "CTrRs5" then
    handleMeterShortReg EmbRet pi (pi + 1) pi (pi + 1) durPi meter
  else if variant = "BTrRn1" then
    handleMeterNormalReg EmbRet (pi + 2) pi (pi + 2) pi (pi + 2) pi durPi meter
  else if variant = "BTrRn5" then
    handleMeterNormalReg EmbRet (pi + 1) pi (pi + 1) pi (pi + 1) pi durPi meter
  else if variant = "CTrRn1" then
    handleMeterNormalReg EmbRet pi (pi + 5) pi (pi + 5) pi (pi + 5) durPi meter
  else if variant = "CTrRn5" then
    handleMeterNormalReg EmbRet pi (pi + 1) pi (pi + 1) pi (pi + 1) durPi meter
  else if variant = "BTrRl1" then
    handleMeterLongReg EmbRet (pi + 2) pi (pi + 2) pi (pi + 2) pi (pi + 2) pi durPi meter
  else if variant = "BTrRl5" then
    handleMeterLongReg EmbRet (pi + 1) pi (pi + 1) pi (pi + 1) pi (pi + 1) pi durPi meter
  else if variant = "CTrRl1" then
    handleMeterLongReg EmbRet pi (pi + 2) pi (pi + 2) pi (pi + 2) pi (pi + 2) durPi meter
  else if variant = "CTrRl5" then
    handleMeterLongReg EmbRet pi (pi + 1) pi (pi + 1) pi (pi + 1) pi (pi + 1) durPi meter
  else if variant = "BTrDen1" then
    handleMeterDelayedNormal EmbRet (pi + 2) pi (pi + 2) pi (pi + 2) pi durPi meter
  else if variant = "BTrDen5" then
    handleMeterDelayedNormal EmbRet (pi + 1) pi (pi + 1) pi (pi + 1) pi durPi meter
  else if variant = "CTrDen1" then
    handleMeterDelayedNormal EmbRet pi (pi + 5) pi (pi + 5) pi (pi + 5) durPi meter
  else if variant = "CTrDen5" then
    handleMeterDelayedNormal EmbRet pi (pi + 1) pi (pi + 1) pi (pi + 1) durPi meter
  else if variant = "BTrDel1" then
    handleMeterDelayedLong EmbRet (pi + 2) pi (pi + 2) pi (pi + 2) pi durPi meter
  else if variant = "BTrDel5" then
    handleMeterDelayedLong EmbRet (pi + 1) pi (pi + 1) pi (pi + 1) pi durPi meter
  else if variant = "CTrDel1" then
    handleMeterDelayedLong EmbRet pi (pi + 2) pi (pi + 2) pi (pi + 2) durPi meter
  else if variant = "CTrDel5" then
    handleMeterDelayedLong EmbRet pi (pi + 1) pi (pi + 1) pi (pi + 1) durPi meter
  else if variant = "BTrAs1" then
    handleMeterAscendingShort EmbRet (pi - 2) pi (pi + 2) pi (pi + 2) pi durPi meter
  else if variant = "BTrAs5" then
    handleMeterAscendingShort EmbRet (pi - 1) pi (pi + 2) pi (pi + 2) pi durPi meter
  else if variant = "CTrAs1" then
    handleMeterAscendingShort EmbRet (pi - 2) pi (pi + 2) pi pi (pi + 2) durPi meter
  else if variant = "CTrAs5" then
    handleMeterAscendingShort EmbRet (pi - 1) pi (pi + 2) pi pi (pi + 2) durPi meter
  else if variant = "BTrAn1" then
    handleMeterAscendingNormal EmbRet (pi - 2) pi (pi + 2) pi (pi + 2) pi (pi + 2) pi durPi meter
  else if variant = "BTrAn5" then
    handleMeterAscendingNormal EmbRet (pi - 1) pi (pi + 2) pi (pi + 2) pi (pi + 2) pi durPi meter
  else if variant = "CTrAn1" then
    handleMeterAscendingNormal EmbRet (pi - 2) pi (pi + 2) pi pi (pi + 2) pi (pi + 2) durPi meter
  else if variant = "CTrAn5" then
    handleMeterAscendingNormal EmbRet (pi - 1) pi (pi + 2) pi pi (pi + 2) pi (pi + 2) durPi meter
  else if variant = "BTrAl1" then
    handleMeterAscendingLong EmbRet (pi - 2) pi (pi + 2) pi (pi + 2) pi (pi + 2) pi (pi + 2) pi (pi + 2) pi durPi meter
  else if variant = "BTrAl5" then
    handleMeterAscendingLong EmbRet (pi - 1) pi (pi + 2) pi (pi + 2) pi (pi + 2) pi (pi + 2) pi (pi + 2) pi durPi meter
  else if variant = "CTrAl1" then
    handleMeterAscendingLong EmbRet (pi - 2) pi (pi + 2) pi pi (pi + 2) pi (pi + 2) pi (pi + 2) pi (pi + 2) durPi meter
  else if variant = "CTrAl5" then
    handleMeterAscendingLong EmbRet (pi - 1) pi (pi + 2) pi pi (pi + 2) pi (pi + 2) pi (pi + 2) pi (pi + 2) durPi meter
  else if variant = "BTrDs1" then
    handleMeterAscendingShort EmbRet (pi + 2) pi (pi - 2) pi (pi + 2) pi durPi meter
  else if variant = "BTrDs5" then
    handleMeterAscendingShort EmbRet (pi + 1) pi (pi - 2) pi (pi + 2) pi durPi meter
  else if variant = "CTrDs1" then
    handleMeterAscendingShort EmbRet (pi + 2) pi (pi - 2) pi pi (pi + 2) durPi meter
  else if variant = "CTrDs5" then
    handleMeterAscendingShort EmbRet (pi + 1) pi (pi - 2) pi pi (pi + 2) durPi meter
  else if variant = "BTrDn1" then
    handleMeterAscendingNormal EmbRet (pi + 2) pi (pi - 2) pi (pi + 2) pi (pi + 2) pi durPi meter
  else if variant = "BTrDn5" then
    handleMeterAscendingNormal EmbRet (pi + 1) pi (pi - 2) pi (pi + 2) pi (pi + 2) pi durPi meter
  else if variant = "CTrDn1" then
    handleMeterAscendingNormal EmbRet (pi + 2) pi (pi - 2) pi pi (pi + 2) pi (pi + 2) durPi meter
  else if variant = "CTrDn5" then
    handleMeterAscendingNormal EmbRet (pi + 1) pi (pi - 2) pi pi (pi + 2) pi (pi + 2) durPi meter
  else if variant = "BTrDl1" then
    handleMeterAscendingLong EmbRet (pi + 2) pi (pi - 2) pi (pi + 2) pi (pi + 2) pi (pi + 2) pi (pi + 2) pi durPi meter
  else if variant = "BTrDl5" then
    handleMeterAscendingLong EmbRet (pi + 1) pi (pi - 2) pi (pi + 2) pi (pi + 2) pi (pi + 2) pi (pi + 2) pi durPi meter
  else if variant = "CTrDl1" then
    handleMeterAscendingLong EmbRet (pi + 2) pi (pi - 2) pi pi (pi + 2) pi (pi + 2) pi (pi + 2) pi (pi + 2) durPi meter
  else if variant = "CTrDl5" then
    handleMeterAscendingLong EmbRet (pi + 1) pi (pi - 2) pi pi (pi + 2) pi (pi + 2) pi (pi + 2) pi (pi + 2) durPi meter
  else if variant = "BTrTs1" then
    handleMeterTerminalShort EmbRet (pi + 2) pi (pi - 2) pi durPi meter
  else if variant = "BTrTs5" then
    handleMeterTerminalShort EmbRet (pi + 1) pi (pi - 2) pi durPi meter
  else if variant = "CTrTs1" then
    handleMeterTerminalShort EmbRet (pi + 2) pi (pi - 2) pi durPi meter
  else if variant = "CTrTs5" then
    handleMeterTerminalShort EmbRet (pi + 1) pi (pi - 2) pi durPi meter
  else if variant = "BTrTn1" then
    handleMeterTerminalNormal EmbRet (pi + 2) pi (pi + 2) pi (pi + 2) pi (pi - 2) pi durPi meter
  else if variant = "BTrTn5" then
    handleMeterTerminalNormal EmbRet (pi + 1) pi (pi + 1) pi (pi + 1) pi (pi - 2) pi durPi meter
  else if variant = "CTrTn1" then
    handleMeterTerminalNormal EmbRet pi (pi + 2) pi (pi + 2) pi (pi + 2) (pi - 2) pi durPi meter
  else if variant = "CTrTn5" then
    handleMeterTerminalNormal EmbRet pi (pi + 1) pi (pi + 1) pi (pi + 1) (pi - 2) pi durPi meter
  else if variant = "BTrTl1" then
    handleMeterTerminalLong EmbRet (pi + 2) pi (pi + 2) pi (pi + 2) pi (pi + 2) pi (pi + 2) pi (pi + 2) pi (pi + 2) pi (pi - 2) pi durPi meter
  else if variant = "BTrTl5" then
    handleMeterTerminalLong EmbRet (pi + 1) pi (pi + 1) pi (pi + 1) pi (pi + 1) pi (pi + 1) pi (pi + 1) pi (pi + 1) pi (pi - 2) pi durPi meter
  else if variant = "CTrTl1" then
    handleMeterTerminalLong EmbRet pi (pi + 2) pi (pi + 2) pi (pi + 2) pi (pi + 2) pi (pi + 2) pi (pi + 2) pi (pi + 2) (pi - 2) pi durPi meter
  else if variant = "CTrTl5" then
    handleMeterTerminalLong EmbRet pi (pi + 1) pi (pi + 1) pi (pi + 1) pi (pi + 1) pi (pi + 1) pi (pi + 1) pi (pi + 1) (pi - 2) pi durPi meter
  else
    EmbRet

/-- `applyTrill`: the main function of the trill transformation. -/
def applyTrill (pi durPi : Int) (meter : TimeMeter) (variant : String) :
    Except Exn (List (Int × Int)) :=
  if durPi ≤ 0 then
    .error (.invalid_argument "Duration (durPi) must be greater than 0")
  else if meter ≠ DUPLE ∧ meter ≠ TRIPLE then
    .error (.invalid_argument "Invalid TimeMeter")
  else
    .ok (applyTrillDispatch [] pi durPi meter variant)

/-! ## Variant catalog -/

/-- The structure `TrillVariant`. -/
structure TrillVariant where
  code : String
  description : String
  deriving DecidableEq

/-- The table `allVariants` of `generateRandomTrillVariantPool`: the complete catalog. -/
def allVariants : List TrillVariant := [
    ⟨"BTrRs1", "Baroque Short Regular Trill - Major 2nd"⟩,
    ⟨"BTrRs5", "Baroque Short Regular Trill - Minor 2nd"⟩,
    ⟨"CTrRs1", "Classical Short Regular Trill - Major 2nd"⟩,
    ⟨"CTrRs5", "Classical Short Regular Trill - Minor 2nd"⟩,
    ⟨"BTrRn1", "Baroque Normal Regular Trill - Major 2nd"⟩,
    ⟨"BTrRn5", "Baroque Normal Regular Trill - Minor 2nd"⟩,
    ⟨"CTrRn1", "Classical Normal Regular Trill - Major 2nd"⟩,
    ⟨"CTrRn5", "Classical Normal Regular Trill - Minor 2nd"⟩,
    ⟨"BTrRl1", "Baroque Long Regular Trill - Major 2nd"⟩,
    ⟨"BTrRl5", "Baroque Long Regular Trill - Minor 2nd"⟩,
    ⟨"CTrRl1", "Classical Long Regular Trill - Major 2nd"⟩,
    ⟨"CTrRl5", "Classical Long Regular Trill - Minor 2nd"⟩,
    ⟨"BTrDen1", "Baroque Delayed Normal Trill - Major 2nd"⟩,
    ⟨"BTrDen5", "Baroque Delayed Normal Trill - Minor 2nd"⟩,
    ⟨"CTrDen1", "Classical Delayed Normal Trill - Major 2nd"⟩,
    ⟨"CTrDen5", "Classical Delayed Normal Trill - Minor 2nd"⟩,
    ⟨"BTrDel1", "Baroque Delayed Long Trill - Major 2nd"⟩,
    ⟨"BTrDel5", "Baroque Delayed Long Trill - Minor 2nd"⟩,
    ⟨"CTrDel1", "Classical Delayed Long Trill - Major 2nd"⟩,
    ⟨"CTrDel5", "Classical Delayed Long Trill - Minor 2nd"⟩,
    ⟨"BTrAs1", "Baroque Ascending Short Trill - Major 2nd"⟩,
    ⟨"BTrAs5", "Baroque Ascending Short Trill - Minor 2nd"⟩,
    ⟨"CTrAs1", "Classical Ascending Short Trill - Major 2nd"⟩,
    ⟨"CTrAs5", "Classical Ascending Short Trill - Minor 2nd"⟩,
    ⟨"BTrAn1", "Baroque Ascending Normal Trill - Major 2nd"⟩,
    ⟨"BTrAn5", "Baroque Ascending Normal Trill - Minor 2nd"⟩,
    ⟨"CTrAn1", "Classical Ascending Normal Trill - Major 2nd"⟩,
    ⟨"CTrAn5", "Classical Ascending Normal Trill - Minor 2nd"⟩,
    ⟨"BTrAl1", "Baroque Ascending Long Trill - Major 2nd"⟩,
    ⟨"BTrAl5", "Baroque Ascending Long Trill - Minor 2nd"⟩,
    ⟨"CTrAl1", "Classical Ascending Long Trill - Major 2nd"⟩,
    ⟨"CTrAl5", "Classical Ascending Long Trill - Minor 2nd"⟩,
    ⟨"BTrDs1", "Baroque Descending Short Trill - Major 2nd"⟩,
    ⟨"BTrDs5", "Baroque Descending Short Trill - Minor 2nd"⟩,
    ⟨"CTrDs1", "Classical Descending Short Trill - Major 2nd"⟩,
    ⟨"CTrDs5", "Classical Descending Short Trill - Minor 2nd"⟩,
    ⟨"BTrDn1", "Baroque Descending Normal Trill - Major 2nd"⟩,
    ⟨"BTrDn5", "Baroque Descending Normal Trill - Minor 2nd"⟩,
    ⟨"CTrDn1", "Classical Descending Normal Trill - Major 2nd"⟩,
    ⟨"CTrDn5", "Classical Descending Normal Trill - Minor 2nd"⟩,
    ⟨"BTrDl1", "Baroque Descending Long Trill - Major 2nd"⟩,
    ⟨"BTrDl5", "Baroque Descending Long Trill - Minor 2nd"⟩,
    ⟨"CTrDl1", "Classical Descending Long Trill - Major 2nd"⟩,
    ⟨"CTrDl5", "Classical Descending Long Trill - Minor 2nd"⟩,
    ⟨"BTrTs1", "Baroque Terminal Short Trill - Major 2nd"⟩,
    ⟨"BTrTs5", "Baroque Terminal Short Trill - Minor 2nd"⟩,
    ⟨"CTrTs1", "Classical Terminal Short Trill - Major 2nd"⟩,
    ⟨"CTrTs5", "Classical Terminal Short Trill - Minor 2nd"⟩,
    ⟨"BTrTn1", "Baroque Terminal Normal Trill - Major 2nd"⟩,
    ⟨"BTrTn5", "Baroque Terminal Normal Trill - Minor 2nd"⟩,
    ⟨"CTrTn1", "Classical Terminal Normal Trill - Major 2nd"⟩,
    ⟨"CTrTn5", "Classical Terminal Normal Trill - Minor 2nd"⟩,
    ⟨"BTrTl1", "Baroque Terminal Long Trill - Major 2nd"⟩,
    ⟨"BTrTl5", "Baroque Terminal Long Trill - Minor 2nd"⟩,
    ⟨"CTrTl1", "Classical Terminal Long Trill - Major 2nd"⟩,
    ⟨"CTrTl5", "Classical Terminal Long Trill - Minor 2nd"⟩
  ]

/-- The variant codes of the catalog. -/
def catalogCodes : List String := allVariants.map TrillVariant.code

/-- Equality of results of functions that may throw is decidable. -/
instance instDecidableEqExcept {ε α : Type} [DecidableEq ε] [DecidableEq α] :
    DecidableEq (Except ε α)
  | .ok a, .ok b => if h : a = b then isTrue (by rw [h]) else isFalse (by simp [h])
  | .error a, .error b => if h : a = b then isTrue (by rw [h]) else isFalse (by simp [h])
  | .ok _, .error _ => isFalse (by simp)
  | .error _, .ok _ => isFalse (by simp)

/-! ## The shapes of the specification's table

The definitions of this section follow the words of the specification, not the code; the
handlers are compared with them below.  Division here is the floor division of `Int`. -/

/-- The uniform-subdivision shape: `k` entries of duration `d / div` whose pitches alternate
`p1, p2, p1, ...` starting with `p1`, followed by the final entry `(p2, d - k * (d / div))`. -/
def uniformShape (div : Int) (k : Nat) (p1 p2 d : Int) : List (Int × Int) :=
  (List.range k).map (fun i => (if i % 2 = 0 then p1 else p2, d / div))
    ++ [(p2, d - (k : Int) * (d / div))]

/-- A run of steps of one common duration on the given pitches. -/
def steps (pitches : List Int) (segment : Int) : List (Int × Int) :=
  pitches.map (fun q => (q, segment))

/-- The entries `body` followed by a final entry on `p2` holding what remains of `d`. -/
def withRemainder (body : List (Int × Int)) (p2 d : Int) : List (Int × Int) :=
  body ++ [(p2, d - (body.map Prod.snd).sum)]

/-! ## Families of variants -/

/-- The twelve descending codes, each with its ascending counterpart (the same code with
`D` replaced by `A`). -/
def descendingPairs : List (String × String) :=
  [("BTrDs1", "BTrAs1"), ("BTrDs5", "BTrAs5"), ("CTrDs1", "CTrAs1"), ("CTrDs5", "CTrAs5"),
   ("BTrDn1", "BTrAn1"), ("BTrDn5", "BTrAn5"), ("CTrDn1", "CTrAn1"), ("CTrDn5", "CTrAn5"),
   ("BTrDl1", "BTrAl1"), ("BTrDl5", "BTrAl5"), ("CTrDl1", "CTrAl1"), ("CTrDl5", "CTrAl5")]

/-- The mirror image of an ornament about the source pitch `p`: every pitch `q` becomes
`2 * p - q`, every sub-duration stays. -/
def mirror (p : Int) (orn : List (Int × Int)) : List (Int × Int) :=
  orn.map (fun e => (2 * p - e.1, e.2))

/-- The interval, in semitones, that the description of a catalog entry names. -/
def describedInterval (v : TrillVariant) : Option Int :=
  if "Major 2nd".data.isSuffixOf v.description.data then some 2
  else if "Minor 2nd".data.isSuffixOf v.description.data then some 1
  else none

/-! ## Sequence encoder: variable-length delta times

A byte (`char`) is the natural number below 256 with the same bit pattern. -/

/-- The loop `while (deltaTime > 0) { ... }` of the delta-time conversion in `convertToMidi`:
each round takes the low seven bits of `deltaTime` (`deltaTime & 0x7F`, then
`deltaTime >>= 7`), sets the bit `0x80` unless `vlq` is still empty, and pushes the byte.
The loop is entered with `deltaTime > 0` only, where `&` and `>>` are remainder and quotient.
The first argument bounds the number of rounds. -/
def vlqLoop : Nat → Int → List Nat → List Nat
  | 0, _, vlq => vlq
  | fuel + 1, deltaTime, vlq =>
    if deltaTime > 0 then
      let byte := (deltaTime % 128).toNat
      let shifted := deltaTime / 128
      let byte := if vlq ≠ [] then byte ||| 0x80 else byte
      vlqLoop fuel shifted (vlq ++ [byte])
    else
      vlq

/-- The conversion of a delta time to a variable-length quantity in `convertToMidi`: the
bytes of `vlq` as they are written.  A round of the loop at least halves `deltaTime`, so
`deltaTime` rounds are always enough. -/
def encodeVlq (deltaTime : Int) : List Nat :=
  if deltaTime = 0 then
    [0]
  else
    (vlqLoop deltaTime.toNat deltaTime []).reverse

/-- The standard decoder of a variable-length quantity, as the specification describes the
format: big-endian groups of seven bits, read up to and including the first byte whose
continuation bit `0x80` is clear.  It returns the value and the bytes left over. -/
def decodeVlqFrom (acc : Nat) : List Nat → Option (Nat × List Nat)
  | [] => none
  | b :: rest =>
    if b < 128 then some (acc * 128 + b, rest)
    else decodeVlqFrom (acc * 128 + (b - 128)) rest

/-- The standard decoder, started at the value 0. -/
def decodeVlq (bytes : List Nat) : Option (Nat × List Nat) := decodeVlqFrom 0 bytes

/-! ## Transformation engine

`processFile` reads its input file line by line and writes lines to its output file.  Here
the input file is the list of its lines and the output file is the list of the lines
written (each without its final newline).  A `double` is a rational number; at the
percentages 0 and 100 and the random values met below the comparisons give the same result
in floating-point arithmetic.  The two sources of randomness, `rand()` and the
`std::shuffle` inside `generateRandomTrillVariantPool`, are an `Oracle`: the sequence of
results the calls return, in the order of the calls.  The report `resultSummary`, with its
formatted floating-point percentage, and the file-name fields of `AppState` are left out. -/

/-- `e.what()`. -/
def Exn.what : Exn → String
  | .invalid_argument w => w
  | .out_of_range w => w

/-- The formatted extraction `stream >> int`: skips white space, reads an optional sign and
a run of decimal digits.  `none` is a stream with its failbit set: no digit, or a value
that does not fit an `int`.  Otherwise the value and the rest of the stream. -/
def readInt (s : List Char) : Option (Int × List Char) :=
  let signed := readSign (s.dropWhile isspace)
  let ds := signed.2.takeWhile Char.isDigit
  if ds = [] then
    none
  else
    let v : Int := if signed.1 then - digitsValue ds else digitsValue ds
    if v < -(2 ^ 31) ∨ v > 2 ^ 31 - 1 then
      none
    else
      some (v, signed.2.dropWhile Char.isDigit)

/-- The formatted extraction `stream >> std::string`: skips white space and reads up to the
next white space; fails when no character is left. -/
def readToken (s : List Char) : Option (String × List Char) :=
  let s1 := s.dropWhile isspace
  let tok := s1.takeWhile (fun c => !isspace c)
  if tok = [] then
    none
  else
    some (String.mk tok, s1.dropWhile (fun c => !isspace c))

/-- The extraction `ss >> track >> noteName >> duration` from a line: the three values and
the rest of the line, or `none` when one of the extractions fails. -/
def parseRow (line : String) : Option (Int × String × Int × List Char) :=
  match readInt line.data with
  | none => none
  | some (track, r1) =>
    match readToken r1 with
    | none => none
    | some (noteName, r2) =>
      match readInt r2 with
      | none => none
      | some (duration, r3) => some (track, noteName, duration, r3)

/-- The label of a row: the rest of the line (`std::getline(ss, label)`), without the
leading blanks and tabs (`erase(0, find_first_not_of(" \t"))`) and without the trailing
blanks, tabs, carriage returns and newlines (`erase(find_last_not_of(" \t\r\n") + 1)`). -/
def trimLabel (rest : List Char) : String :=
  let label := rest.takeWhile (fun c => c ≠ '\n')
  let label := label.dropWhile (fun c => c = ' ' ∨ c = '\t')
  String.mk
    (label.reverse.dropWhile (fun c => c = ' ' ∨ c = '\t' ∨ c = '\r' ∨ c = '\n')).reverse

/-- The labels that `processFile` takes as eligible for a transformation. -/
def eligibleLabels : List String :=
  ["RLN", "CS", "I3", "I8", "U2R", "BM", "SPU", "SPD", "CH", "CW", "CD", "HT", "FM", "RN",
   "LAD", "DN", "DNW", "SN", "LNSN", "SAN", "SMP", "DLP3"]

/-- Output of a text under `std::left << std::setw(width)`: padded with blanks on the right
up to `width` characters, never cut. -/
def setw (width : Nat) (s : String) : String :=
  s ++ String.mk (List.replicate (width - s.length) ' ')

/-- A row of the output table, as `processFile` writes it. -/
def renderRow (track : Int) (noteName : String) (duration : Int) (label variant : String) :
    String :=
  setw 11 (to_string track) ++ setw 11 noteName ++ setw 20 (to_string duration)
    ++ setw 20 label ++ setw 25 variant

/-- The two lines `processFile` writes first: the column titles and the dashes. -/
def headerRows : List String :=
  [setw 11 "Track" ++ setw 11 "Note" ++ setw 20 "Duration" ++ setw 20 "Label"
      ++ setw 25 "Trill_Variant",
   String.mk (List.replicate 81 '-')]

/-- The results of the random calls of a run. -/
structure Oracle where
  /-- The constant `RAND_MAX` of the platform. -/
  RAND_MAX : Nat
  /-- The result of the `n`-th call of `rand()`. -/
  rand : Nat → Nat
  /-- The vector `shuffledVariants` after the `n`-th `std::shuffle` of a copy of the
  catalog. -/
  shuffle : Nat → List TrillVariant

/-- What the C and C++ standards promise of the random calls: `rand()` returns a value from
0 to `RAND_MAX`, which is positive, and `std::shuffle` permutes. -/
structure Oracle.Valid (o : Oracle) : Prop where
  RAND_MAX_pos : 0 < o.RAND_MAX
  rand_le : ∀ n, o.rand n ≤ o.RAND_MAX
  shuffle_perm : ∀ n, (o.shuffle n).Perm allVariants

/-- `shouldTransformLabel`, on the value `r` that its call of `rand()` returns. -/
def shouldTransformLabel (RAND_MAX : Nat) (r : Nat) (transformationPercentage : ℚ) : Bool :=
  let randomValue : ℚ := ((r : ℚ) / (RAND_MAX : ℚ)) * 100
  decide (randomValue < transformationPercentage)

/-- `generateRandomTrillVariantPool`, on the vector `shuffledVariants` that its
`std::shuffle` leaves: the first `min(poolSize, size)` entries. -/
def generateRandomTrillVariantPool (shuffledVariants : List TrillVariant)
    (poolSize : Int) : List TrillVariant :=
  shuffledVariants.take (min poolSize (shuffledVariants.length : Int)).toNat

/-- The structure `AppState`, with the fields that `processFile` and `convertToMidi` use. -/
structure AppState where
  transformationPercentage : ℚ
  selectedVariants : List String
  processingComplete : Bool
  statusMessage : String
  totalEligibleNotes : Int
  transformedNotes : Int
  /-- The `std::map` from variant code to count, as the list of its entries in key order. -/
  variantUsageCount : List (String × Int)

/-- The statement `variantUsageCount[key]++` on the `std::map`. -/
def mapIncrement : List (String × Int) → String → List (String × Int)
  | [], key => [(key, 1)]
  | (k, v) :: rest, key =>
    if key = k then (k, v + 1) :: rest
    else if key < k then (key, 1) :: (k, v) :: rest
    else (k, v) :: mapIncrement rest key

/-- The progress of a run of `processFile`: the application state, the lines written to the
output file, and the numbers of calls of `rand()` and of `std::shuffle` made. -/
structure Run where
  state : AppState
  output : List String
  randCalls : Nat
  shuffleCalls : Nat

/-- The choice of `selectedVariant` in `processFile`: a random entry of the full pool when
`selectedVariants` is empty or is the single entry `RANDOM`, otherwise a random entry of
`selectedVariants`.  The index is a remainder modulo the size of the vector read, so the
unchecked read `v[i]` is in bounds as soon as the vector is not empty. -/
def selectVariant (o : Oracle) (r : Run) : String × Run :=
  if r.state.selectedVariants = [] ∨
      (r.state.selectedVariants.length = 1 ∧ r.state.selectedVariants[0]? = some "RANDOM") then
    let allVariants := generateRandomTrillVariantPool (o.shuffle r.shuffleCalls) 100
    let i := o.rand r.randCalls % allVariants.length
    ((allVariants.getD i ⟨"", ""⟩).code,
      { r with randCalls := r.randCalls + 1, shuffleCalls := r.shuffleCalls + 1 })
  else
    let i := o.rand r.randCalls % r.state.selectedVariants.length
    (r.state.selectedVariants.getD i "", { r with randCalls := r.randCalls + 1 })

/-- The handler `catch (const std::exception& e)` of `processFile`: the message is appended
to `statusMessage`, nothing is written. -/
def catchException (r : Run) (noteName : String) (e : Exn) : Run :=
  { r with state := { r.state with
      statusMessage := r.state.statusMessage ++ "Error processing note '" ++ noteName
        ++ "': " ++ e.what ++ "\n" } }

/-- The `try` block of `processFile` with its handler, for an eligible note that was chosen
for a transformation.  The names of the ornament pitches come from `getNoteName`, whose
table read is in bounds here (the pitches are at least 10). -/
def transformNote (o : Oracle) (r : Run) (track : Int) (noteName : String) (duration : Int)
    (label : String) : Run :=
  match getNoteNumber noteName with
  | .error e => catchException r noteName e
  | .ok noteIndex =>
    let sel := selectVariant o r
    let selectedVariant := sel.1
    let r1 := sel.2
    match applyTrill noteIndex duration DUPLE selectedVariant with
    | .error e => catchException r1 noteName e
    | .ok transformed =>
      { r1 with
        state := { r1.state with
          variantUsageCount := mapIncrement r1.state.variantUsageCount selectedVariant }
        output := r1.output ++ transformed.map (fun e =>
          renderRow track ((getNoteName e.1).getD "") e.2 label selectedVariant) }

/-- The body of the `while (std::getline(input, line))` loop of `processFile`. -/
def processLine (o : Oracle) (r : Run) (line : String) : Run :=
  match parseRow line with
  | none => { r with output := r.output ++ [line] }
  | some (track, noteName, duration, rest) =>
    let label := trimLabel rest
    if label ∈ eligibleLabels then
      let r1 := { r with state := { r.state with
        totalEligibleNotes := r.state.totalEligibleNotes + 1 } }
      let draw := o.rand r1.randCalls
      let r2 := { r1 with randCalls := r1.randCalls + 1 }
      if shouldTransformLabel o.RAND_MAX draw r2.state.transformationPercentage then
        let r3 := { r2 with state := { r2.state with
          transformedNotes := r2.state.transformedNotes + 1 } }
        transformNote o r3 track noteName duration label
      else
        { r2 with output := r2.output ++ [renderRow track noteName duration label "ORIGINAL"] }
    else
      { r with output := r.output ++ [renderRow track noteName duration label ""] }

/-- The loop of `processFile` over the lines of the input file. -/
def processLines (o : Oracle) (r : Run) (lines : List String) : Run :=
  lines.foldl (processLine o) r

/-- The run of `processFile` when its loop begins: the two header lines are written, the
statistics are reset, no random call has been made. -/
def startRun (state : AppState) : Run :=
  { state := { state with
      totalEligibleNotes := 0, transformedNotes := 0, variantUsageCount := [] }
    output := headerRows
    randCalls := 0
    shuffleCalls := 0 }

/-- `processFile`.  `input` is the list of the lines of the input file, or `none` when the
file cannot be opened; `outputOpens` tells whether the output file can be opened. -/
def processFile (o : Oracle) (input : Option (List String)) (outputOpens : Bool)
    (state : AppState) : Run :=
  match input, outputOpens with
  | some lines, true =>
    let r := processLines o (startRun state) lines
    { r with state := { r.state with
        statusMessage := "Processing complete!", processingComplete := true } }
  | _, _ =>
    { state := { state with statusMessage := "Error opening files." }
      output := []
      randCalls := 0
      shuffleCalls := 0 }

/-- An oracle for examples: `rand()` always returns `r`, and `std::shuffle` leaves the
catalog in its order. -/
def constOracle (RAND_MAX r : Nat) : Oracle :=
  { RAND_MAX := RAND_MAX, rand := fun _ => r, shuffle := fun _ => allVariants }

/-- The initial value of `AppState`, with a given percentage and selection. -/
def initialState (transformationPercentage : ℚ) (selectedVariants : List String) :
    AppState :=
  { transformationPercentage := transformationPercentage
    selectedVariants := selectedVariants
    processingComplete := false
    statusMessage := ""
    totalEligibleNotes := 0
    transformedNotes := 0
    variantUsageCount := [] }

/-! ## Sequence encoder: the timeline

`convertToMidi` reads the table that `processFile` wrote, here the list of its lines, and
collects the note-on and note-off events of each track.  A `std::map` with `int` keys is the
list of its entries in key order. -/

/-- The structure `MidiEvent`. -/
structure MidiEvent where
  track : Int
  noteNumber : Int
  startTime : Int
  duration : Int
  isNoteOn : Bool
  deriving DecidableEq

/-- The lookup `m.find(key)` in a `std::map` with `int` keys. -/
def mapFind {α : Type} : List (Int × α) → Int → Option α
  | [], _ => none
  | (k, v) :: rest, key => if key = k then some v else mapFind rest key

/-- The assignment `m[key] = value` in a `std::map` with `int` keys. -/
def mapSet {α : Type} : List (Int × α) → Int → α → List (Int × α)
  | [], key, value => [(key, value)]
  | (k, v) :: rest, key, value =>
    if key = k then (key, value) :: rest
    else if key < k then (key, value) :: (k, v) :: rest
    else (k, v) :: mapSet rest key value

/-- The test `line.find(pattern) != std::string::npos`. -/
def containsText (line pattern : String) : Bool :=
  line.data.tails.any (fun t => pattern.data.isPrefixOf t)

/-- The checks at the head of the loop of `convertToMidi`: the track, note name and
duration read from a line, or `none` for a line that is skipped (empty, starting with a
dash, holding the text `MIDI File Analyzed`, not of the form of a row, or a title row). -/
def readNoteLine (line : String) : Option (Int × String × Int) :=
  if line.data = [] ∨ line.data.head? = some '-' ∨ containsText line "MIDI File Analyzed" then
    none
  else
    match parseRow line with
    | none => none
    | some (track, noteName, duration, _) =>
      if noteName = "Note" ∨ noteName = "Track" then none
      else some (track, noteName, duration)

/-- What the reading loop of `convertToMidi` builds: the maps `trackEvents` and
`trackPositions`, and the status message. -/
structure Collected where
  trackEvents : List (Int × List MidiEvent)
  trackPositions : List (Int × Int)
  statusMessage : String

/-- The `try` block of the reading loop, once `getNoteNumber` has returned: a note-on event
at the position of the track, a note-off event `duration` later, and the position of the
track moved there. -/
def addNote (c : Collected) (track noteNumber duration : Int) : Collected :=
  let trackPosition := (mapFind c.trackPositions track).getD 0
  let noteOn : MidiEvent := ⟨track, noteNumber, trackPosition, duration, true⟩
  let noteOff : MidiEvent := ⟨track, noteNumber, trackPosition + duration, 0, false⟩
  { c with
    trackEvents := mapSet c.trackEvents track
      ((mapFind c.trackEvents track).getD [] ++ [noteOn] ++ [noteOff])
    trackPositions := mapSet c.trackPositions track (trackPosition + duration) }

/-- The body of the reading loop of `convertToMidi`. -/
def collectLine (c : Collected) (line : String) : Collected :=
  match readNoteLine line with
  | none => c
  | some (track, noteName, duration) =>
    match getNoteNumber noteName with
    | .ok noteNumber => addNote c track noteNumber duration
    | .error e =>
      { c with statusMessage := c.statusMessage ++ "Error processing note '" ++ noteName
          ++ "': " ++ e.what ++ "\n" }

/-- The reading part of `convertToMidi`: the first two lines of the file are skipped, the
others go through the loop. -/
def collectEvents (lines : List String) (statusMessage : String) : Collected :=
  (lines.drop 2).foldl collectLine ⟨[], [], statusMessage⟩

/-- The comparison that `convertToMidi` passes to `std::sort`: by time, a note-off before a
note-on at the same time. -/
def eventLess (a b : MidiEvent) : Bool :=
  decide (a.startTime < b.startTime) ||
    (decide (a.startTime = b.startTime) && !a.isNoteOn && b.isNoteOn)

/-- The order `a` not after `b` of the comparison `eventLess`. -/
def eventLe (a b : MidiEvent) : Prop := eventLess b a = false

/-- The order `eventLe` is decidable. -/
instance instDecidableRelEventLe : DecidableRel eventLe :=
  fun a b => inferInstanceAs (Decidable (eventLess b a = false))

/-- What `std::sort` promises of its result: a permutation of the events in which no event
comes before one that the comparison puts first. -/
def IsSortedEvents (events sorted : List MidiEvent) : Prop :=
  sorted.Perm events ∧ sorted.Pairwise eventLe

/-- One sorting procedure, by insertion, for `std::sort` with the comparison `eventLess`. -/
def sortEvents (events : List MidiEvent) : List MidiEvent :=
  events.insertionSort eventLe

/-- The delta times that the writing loop of `convertToMidi` computes from the sorted events:
`deltaTime = event.startTime - lastTime`, then `lastTime = event.startTime`. -/
def deltaTimes : Int → List MidiEvent → List Int
  | _, [] => []
  | lastTime, event :: rest => (event.startTime - lastTime) :: deltaTimes event.startTime rest

/-! ### The timeline of the specification -/

/-- The timeline of a track whose notes, in the order of arrival, have the given pitches and
durations, from the tick `start` on: for every note a note-on event at the sum of the
durations before it and a note-off event at the sum of the durations up to it. -/
def timeline (track : Int) : Int → List (Int × Int) → List MidiEvent
  | _, [] => []
  | start, (pitch, d) :: rest =>
    ⟨track, pitch, start, d, true⟩ :: ⟨track, pitch, start + d, 0, false⟩
      :: timeline track (start + d) rest

/-- The pitches and durations of the notes of one track among records of track, pitch and
duration. -/
def notesOfTrack (track : Int) (records : List (Int × Int × Int)) : List (Int × Int) :=
  (records.filter (fun rec => rec.1 = track)).map (fun rec => rec.2)

/-- The maps of `convertToMidi` hold the timeline of the records read: for every track the
events are the timeline of its notes, and the position is the sum of their durations. -/
def HoldsTimeline (c : Collected) (done : List (Int × Int × Int)) : Prop :=
  ∀ t, mapFind c.trackEvents t
        = (if notesOfTrack t done = [] then none
            else some (timeline t 0 (notesOfTrack t done))) ∧
      (mapFind c.trackPositions t).getD 0 = ((notesOfTrack t done).map Prod.snd).sum

/-- The maps of `convertToMidi` are monotone: the position of every track is not negative,
and the events of a track lie at ticks from 0 to the position of the track that do not
decrease in the order in which they were pushed. -/
def TicksMonotone (c : Collected) : Prop :=
  ∀ t, 0 ≤ (mapFind c.trackPositions t).getD 0 ∧
    ∀ evs, mapFind c.trackEvents t = some evs →
      (∀ e ∈ evs, 0 ≤ e.startTime ∧ e.startTime ≤ (mapFind c.trackPositions t).getD 0) ∧
      evs.Pairwise (fun a b => a.startTime ≤ b.startTime)

/-- The pairs of a Baroque and a Classical code of the same shape and interval in the
ascending, descending and terminal-short families. -/
def eraPairs : List (String × String) :=
  [("BTrAs1", "CTrAs1"), ("BTrAs5", "CTrAs5"), ("BTrAn1", "CTrAn1"), ("BTrAn5", "CTrAn5"),
   ("BTrAl1", "CTrAl1"), ("BTrAl5", "CTrAl5"), ("BTrDs1", "CTrDs1"), ("BTrDs5", "CTrDs5"),
   ("BTrDn1", "CTrDn1"), ("BTrDn5", "CTrDn5"), ("BTrDl1", "CTrDl1"), ("BTrDl5", "CTrDl5"),
   ("BTrTs1", "CTrTs1"), ("BTrTs5", "CTrTs5")]

/-- The sub-durations of an ornament on the duration `d` are sound: none is negative, the
last one is positive, and all are positive when `d` is at least 16. -/
def SoundDurations (d : Int) (orn : List (Int × Int)) : Prop :=
  (∀ e ∈ orn, 0 ≤ e.2) ∧ (∃ last, orn.getLast? = some last ∧ 0 < last.2) ∧
    (16 ≤ d → ∀ e ∈ orn, 0 < e.2)

/-! ### The statistics of a run, as the specification counts them -/

/-- A well-formed row with an eligible label. -/
def isEligibleRow (line : String) : Bool :=
  match parseRow line with
  | none => false
  | some (_, _, _, rest) => decide (trimLabel rest ∈ eligibleLabels)

/-- The sum of the counts in `variantUsageCount`. -/
def usageTotal (variantUsageCount : List (String × Int)) : Int :=
  (variantUsageCount.map Prod.snd).sum

/-- The note name and the duration of the row of a line, when the row is eligible and the
next value of `rand()` makes `shouldTransformLabel` choose it. -/
def chosenNote (o : Oracle) (r : Run) (line : String) : Option (String × Int) :=
  match parseRow line with
  | none => none
  | some (_, noteName, duration, rest) =>
    if trimLabel rest ∈ eligibleLabels ∧
        shouldTransformLabel o.RAND_MAX (o.rand r.randCalls)
          r.state.transformationPercentage = true then
      some (noteName, duration)
    else
      none

/-- The notes that a run of the loop of `processFile` chooses for a transformation, with
their names and durations. -/
def transformedRows (o : Oracle) : Run → List String → List (String × Int)
  | _, [] => []
  | r, line :: rest => (chosenNote o r line).toList ++ transformedRows o (processLine o r line) rest

/-! ### The bytes of the MIDI file

The output file of `convertToMidi` is the list of the bytes written, each a number below
256.  The writes are sequential, so `tellp()` is the number of bytes written so far; the one
`seekp` backwards overwrites the four bytes of a length field in place.  The sorting
procedure behind `std::sort` is an argument of the writer. -/

/-- The byte that `static_cast<char>(n)` stores: the low eight bits of `n`. -/
def toByte (n : Int) : Nat := (n % 256).toNat

/-- The bytes of a chunk type such as `"MTrk"`. -/
def asciiBytes (text : String) : List Nat := text.data.map Char.toNat

/-- `midiFile.seekp(pos)` followed by a `write` of `bytes`: the bytes of the file from `pos`
on are overwritten. -/
def seekWrite (file : List Nat) (pos : Nat) (bytes : List Nat) : List Nat :=
  file.take pos ++ bytes ++ file.drop (pos + bytes.length)

/-- The body of the loop `for (const auto& event : sortedEvents)`, on the file and
`lastTime`: the delta time as a variable-length quantity, then the three bytes of the note
event. -/
def writeEvent (w : List Nat × Int) (event : MidiEvent) : List Nat × Int :=
  let deltaTime := event.startTime - w.2
  let lastTime := event.startTime
  let file := w.1 ++ encodeVlq deltaTime
  if event.isNoteOn then
    (file ++ [0x90, toByte event.noteNumber, 0x64], lastTime)
  else
    (file ++ [0x80, toByte event.noteNumber, 0x00], lastTime)

/-- The body of the loop `for (const auto& [trackNum, events] : trackEvents)`: the events
are sorted, the chunk is written with four zero bytes for its length, and the length is
written over them at the end. -/
def writeTrack (sort : List MidiEvent → List MidiEvent) (file : List Nat)
    (events : List MidiEvent) : List Nat :=
  let sortedEvents := sort events
  let file := file ++ asciiBytes "MTrk"
  let trackLengthPos := file.length
  let file := file ++ [0, 0, 0, 0]
  let trackStartPos := file.length
  let lastTime : Int := 0
  let file := file ++ [0x00, 0xC0, 0x00]
  let file := (sortedEvents.foldl writeEvent (file, lastTime)).1
  let file := file ++ [0x00, 0xFF, 0x2F, 0x00]
  let trackEndPos := file.length
  let trackLength := trackEndPos - trackStartPos
  seekWrite file trackLengthPos
    [(trackLength >>> 24) &&& 0xFF, (trackLength >>> 16) &&& 0xFF,
      (trackLength >>> 8) &&& 0xFF, trackLength &&& 0xFF]

/-- The header chunk that `convertToMidi` writes for `numTracks` tracks. -/
def writeHeader (numTracks : Nat) : List Nat :=
  asciiBytes "MThd" ++ [0, 0, 0, 6] ++ [0, 1]
    ++ [(numTracks >>> 8) &&& 0xFF, numTracks &&& 0xFF] ++ [0x04, 0x00]

/-- The writing part of `convertToMidi`: the header, then one chunk for each entry of the map
`trackEvents`, in the order of the keys. -/
def writeMidi (sort : List MidiEvent → List MidiEvent)
    (trackEvents : List (Int × List MidiEvent)) : List Nat :=
  trackEvents.foldl (fun file entry => writeTrack sort file entry.2)
    (writeHeader trackEvents.length)

/-- `convertToMidi`.  `input` is the list of the lines of the input file, or `none` when the
file cannot be opened; `outputOpens` tells whether the output file can be opened.  The result
is the output file, when one is written, and the status message. -/
def convertToMidi (sort : List MidiEvent → List MidiEvent) (inputFile outputFile : String)
    (input : Option (List String)) (outputOpens : Bool) (statusMessage : String) :
    Option (List Nat) × String :=
  match input with
  | none => (none, statusMessage ++ "Error opening input file: " ++ inputFile ++ "\n")
  | some lines =>
    let c := collectEvents lines statusMessage
    if outputOpens then
      (some (writeMidi sort c.trackEvents),
        c.statusMessage ++ "MIDI file created successfully: " ++ outputFile ++ "\n")
    else
      (none, c.statusMessage ++ "Error opening output MIDI file: " ++ outputFile ++ "\n")

/-! ### The file format of the specification -/

/-- The number that a sequence of bytes stands for, big end first. -/
def beValue (bytes : List Nat) : Nat := bytes.foldl (fun acc b => acc * 256 + b) 0

/-- The bytes of one event of a track: the variable-length quantity of its delta time, then
`90 pitch 64` for a note-on and `80 pitch 00` for a note-off. -/
def eventBytes (deltaTime : Int) (event : MidiEvent) : List Nat :=
  encodeVlq deltaTime
    ++ (if event.isNoteOn then [0x90, toByte event.noteNumber, 0x64]
        else [0x80, toByte event.noteNumber, 0x00])

/-- The body of the chunk of a track with the given sorted events: the instrument-select
event, the events with their delta times, the end-of-track marker. -/
def trackBody (sorted : List MidiEvent) : List Nat :=
  [0x00, 0xC0, 0x00] ++ (List.zipWith eventBytes (deltaTimes 0 sorted) sorted).flatten
    ++ [0x00, 0xFF, 0x2F, 0x00]

/-- The note of a line of the table, when `convertToMidi` accepts it: track, note number and
duration. -/
def noteOfLine (line : String) : Option (Int × Int × Int) :=
  match readNoteLine line with
  | none => none
  | some (track, noteName, duration) =>
    match getNoteNumber noteName with
    | .ok noteNumber => some (track, noteNumber, duration)
    | .error _ => none

/-- The notes of the parseable rows of a table, after its two header lines. -/
def parsedRecords (lines : List String) : List (Int × Int × Int) :=
  (lines.drop 2).filterMap noteOfLine

/-! ## Auxiliary lemmas -/

theorem pushAlternating_eq (EmbRet : List (Int × Int)) (n : Nat) (a b segment : Int) :
    pushAlternating EmbRet n a b segment
      = EmbRet ++ (List.range n).map (fun i => (if i % 2 = 0 then a else b, segment)) := by
  induction n with
  | zero => simp [pushAlternating]
  | succ k ih =>
    unfold pushAlternating at ih ⊢
    rw [List.range_succ, List.foldl_append, ih]
    simp

theorem sum_snd_pushAlternating (EmbRet : List (Int × Int)) (n : Nat) (a b segment : Int) :
    ((pushAlternating EmbRet n a b segment).map Prod.snd).sum
      = (EmbRet.map Prod.snd).sum + n * segment := by
  induction n with
  | zero => simp [pushAlternating]
  | succ k ih =>
    unfold pushAlternating at ih ⊢
    rw [List.range_succ, List.foldl_append]
    simp only [List.foldl_cons, List.foldl_nil, List.map_append, List.sum_append, ih]
    simp
    ring

/-- With a positive duration `applyTrill` passes both argument checks and returns what the
dispatch on the variant code put into the vector. -/
theorem applyTrill_of_pos (pi d : Int) (meter : TimeMeter) (variant : String) (hd : 0 < d) :
    applyTrill pi d meter variant = .ok (applyTrillDispatch [] pi d meter variant) := by
  have hd' : ¬ d ≤ 0 := by omega
  cases meter <;> simp [applyTrill, hd']

/-- Membership in the catalog, spelled out code by code. -/
theorem mem_catalogCodes (code : String) (hc : code ∈ catalogCodes) :
    code = "BTrRs1" ∨ code = "BTrRs5" ∨ code = "CTrRs1" ∨ code = "CTrRs5" ∨
    code = "BTrRn1" ∨ code = "BTrRn5" ∨ code = "CTrRn1" ∨ code = "CTrRn5" ∨
    code = "BTrRl1" ∨ code = "BTrRl5" ∨ code = "CTrRl1" ∨ code = "CTrRl5" ∨
    code = "BTrDen1" ∨ code = "BTrDen5" ∨ code = "CTrDen1" ∨ code = "CTrDen5" ∨
    code = "BTrDel1" ∨ code = "BTrDel5" ∨ code = "CTrDel1" ∨ code = "CTrDel5" ∨
    code = "BTrAs1" ∨ code = "BTrAs5" ∨ code = "CTrAs1" ∨ code = "CTrAs5" ∨
    code = "BTrAn1" ∨ code = "BTrAn5" ∨ code = "CTrAn1" ∨ code = "CTrAn5" ∨
    code = "BTrAl1" ∨ code = "BTrAl5" ∨ code = "CTrAl1" ∨ code = "CTrAl5" ∨
    code = "BTrDs1" ∨ code = "BTrDs5" ∨ code = "CTrDs1" ∨ code = "CTrDs5" ∨
    code = "BTrDn1" ∨ code = "BTrDn5" ∨ code = "CTrDn1" ∨ code = "CTrDn5" ∨
    code = "BTrDl1" ∨ code = "BTrDl5" ∨ code = "CTrDl1" ∨ code = "CTrDl5" ∨
    code = "BTrTs1" ∨ code = "BTrTs5" ∨ code = "CTrTs1" ∨ code = "CTrTs5" ∨
    code = "BTrTn1" ∨ code = "BTrTn5" ∨ code = "CTrTn1" ∨ code = "CTrTn5" ∨
    code = "BTrTl1" ∨ code = "BTrTl5" ∨ code = "CTrTl1" ∨ code = "CTrTl5" := by
  simpa only [catalogCodes, allVariants, List.map_cons, List.map_nil, List.mem_cons,
    List.mem_singleton, List.not_mem_nil, or_false] using hc

/-! ## Pattern generator: duration conservation -/

/-- Claim C1 (duration conservation): for every variant code of the catalog, both meters and
every duration `d > 0`, `applyTrill` returns an ornament whose sub-durations sum to exactly
`d`, whether or not `d` is divisible by the subdivision count of the shape. -/
theorem applyTrill_duration_conservation (pi d : Int) (meter : TimeMeter) (code : String)
    (hc : code ∈ catalogCodes) (hd : 0 < d) :
    ∃ orn, applyTrill pi d meter code = .ok orn ∧ (orn.map Prod.snd).sum = d := by
  refine ⟨_, applyTrill_of_pos pi d meter code hd, ?_⟩
  rcases mem_catalogCodes code hc with
    h | h | h | h | h | h | h | h | h | h | h | h | h | h | h | h | h | h | h |
    h | h | h | h | h | h | h | h | h | h | h | h | h | h | h | h | h | h | h | h | h | h | h |
    h | h | h | h | h | h | h | h | h | h | h | h | h | h <;> subst h <;> cases meter <;>
    simp [applyTrillDispatch, handleMeterShortReg, handleMeterNormalReg, handleMeterLongReg,
      handleMeterDelayedNormal, handleMeterDelayedLong, handleMeterAscendingShort,
      handleMeterAscendingNormal, handleMeterTerminalShort, handleMeterAscendingLong,
      handleMeterTerminalNormal, handleMeterTerminalLong, sum_snd_pushAlternating] <;> ring

/-- Witness of claim C1: a delayed-normal trill in triple meter on a duration, 481, that no
subdivision count divides. -/
theorem applyTrill_duration_conservation_witness :
    "BTrDen1" ∈ catalogCodes ∧ (0 : Int) < 481 ∧
      ∃ orn, applyTrill 60 481 TRIPLE "BTrDen1" = .ok orn ∧ (orn.map Prod.snd).sum = 481 :=
  ⟨by decide, by decide,
    applyTrill_duration_conservation 60 481 TRIPLE "BTrDen1" (by decide) (by decide)⟩

/-! ## Pattern generator: argument checks -/

/-- Claim C5: `applyTrill` throws the invalid-duration error, and returns no ornament, for
every duration `d <= 0`, whatever the pitch, the meter and the variant code, codes outside
the catalog included. -/
theorem applyTrill_invalid_duration (pi d : Int) (meter : TimeMeter) (variant : String)
    (hd : d ≤ 0) :
    applyTrill pi d meter variant
      = .error (.invalid_argument "Duration (durPi) must be greater than 0") := by
  simp [applyTrill, hd]

/-- Witness of claim C5: a negative duration and a code that the catalog does not have. -/
theorem applyTrill_invalid_duration_witness :
    (-5 : Int) ≤ 0 ∧ applyTrill 60 (-5) TRIPLE "XYZ"
      = .error (.invalid_argument "Duration (durPi) must be greater than 0") :=
  ⟨by decide, applyTrill_invalid_duration 60 (-5) TRIPLE "XYZ" (by decide)⟩

/-- A code outside the catalog falls through every branch of the dispatch: with a positive
duration `applyTrill` returns the empty vector and throws nothing. -/
theorem applyTrill_of_not_mem_catalog (pi d : Int) (meter : TimeMeter) (code : String)
    (hc : code ∉ catalogCodes) (hd : 0 < d) : applyTrill pi d meter code = .ok [] := by
  rw [applyTrill_of_pos pi d meter code hd]
  simp only [catalogCodes, allVariants, List.map_cons, List.map_nil, List.mem_cons,
    List.mem_singleton, List.not_mem_nil, or_false, not_or] at hc
  simp [applyTrillDispatch, hc]

/-- Claim C6, the code at the failing input: for the codes `XYZ` and `RANDOM`, neither of
them in the catalog, `applyTrill` raises no error and returns an empty ornament. -/
theorem applyTrill_unknown_variant_returns_empty :
    "XYZ" ∉ catalogCodes ∧ applyTrill 60 480 DUPLE "XYZ" = .ok [] ∧
      "RANDOM" ∉ catalogCodes ∧ applyTrill 60 480 TRIPLE "RANDOM" = .ok [] := by
  decide

/-! ## Pattern generator: the handlers against the table of shapes -/

/-- Claim C7 (uniform-subdivision shapes): for every `d > 0` each of these handlers appends
`k` entries of duration `d / div` (floor division) alternating `p1, p2, p1, ...`, then the
final entry `(p2, d - k * (d / div))`, where `(div, k)` is `(4, 3)` in duple and `(6, 5)` in
triple for short-regular and terminal-short, `(8, 6)` for normal-regular, `(8, 7)` for
long-regular and ascending/descending-normal, `(16, 15)` in duple and `(12, 11)` in triple
for ascending/descending-long and terminal-long, `(8, 7)` in duple and `(12, 11)` in triple
for terminal-normal. -/
theorem handlers_uniform_shape (E : List (Int × Int))
    (p1 p2 p3 p4 p5 p6 p7 p8 p9 p10 p11 p12 p13 p14 p15 p16 d : Int) (hd : 0 < d) :
    handleMeterShortReg E p1 p2 p3 p4 d DUPLE = E ++ uniformShape 4 3 p1 p2 d ∧
    handleMeterShortReg E p1 p2 p3 p4 d TRIPLE = E ++ uniformShape 6 5 p1 p2 d ∧
    handleMeterTerminalShort E p1 p2 p3 p4 d DUPLE = E ++ uniformShape 4 3 p1 p2 d ∧
    handleMeterTerminalShort E p1 p2 p3 p4 d TRIPLE = E ++ uniformShape 6 5 p1 p2 d ∧
    handleMeterNormalReg E p1 p2 p3 p4 p5 p6 d DUPLE = E ++ uniformShape 8 6 p1 p2 d ∧
    handleMeterNormalReg E p1 p2 p3 p4 p5 p6 d TRIPLE = E ++ uniformShape 8 6 p1 p2 d ∧
    handleMeterLongReg E p1 p2 p3 p4 p5 p6 p7 p8 d DUPLE = E ++ uniformShape 8 7 p1 p2 d ∧
    handleMeterLongReg E p1 p2 p3 p4 p5 p6 p7 p8 d TRIPLE = E ++ uniformShape 8 7 p1 p2 d ∧
    handleMeterAscendingNormal E p1 p2 p3 p4 p5 p6 p7 p8 d DUPLE
      = E ++ uniformShape 8 7 p1 p2 d ∧
    handleMeterAscendingNormal E p1 p2 p3 p4 p5 p6 p7 p8 d TRIPLE
      = E ++ uniformShape 8 7 p1 p2 d ∧
    handleMeterAscendingLong E p1 p2 p3 p4 p5 p6 p7 p8 p9 p10 p11 p12 d DUPLE
      = E ++ uniformShape 16 15 p1 p2 d ∧
    handleMeterAscendingLong E p1 p2 p3 p4 p5 p6 p7 p8 p9 p10 p11 p12 d TRIPLE
      = E ++ uniformShape 12 11 p1 p2 d ∧
    handleMeterTerminalNormal E p1 p2 p3 p4 p5 p6 p7 p8 d DUPLE
      = E ++ uniformShape 8 7 p1 p2 d ∧
    handleMeterTerminalNormal E p1 p2 p3 p4 p5 p6 p7 p8 d TRIPLE
      = E ++ uniformShape 12 11 p1 p2 d ∧
    handleMeterTerminalLong E p1 p2 p3 p4 p5 p6 p7 p8 p9 p10 p11 p12 p13 p14 p15 p16 d DUPLE
      = E ++ uniformShape 16 15 p1 p2 d ∧
    handleMeterTerminalLong E p1 p2 p3 p4 p5 p6 p7 p8 p9 p10 p11 p12 p13 p14 p15 p16 d TRIPLE
      = E ++ uniformShape 12 11 p1 p2 d := by
  have h4 : d.tdiv 4 = d / 4 := Int.tdiv_eq_ediv hd.le (by decide)
  have h6 : d.tdiv 6 = d / 6 := Int.tdiv_eq_ediv hd.le (by decide)
  have h8 : d.tdiv 8 = d / 8 := Int.tdiv_eq_ediv hd.le (by decide)
  have h12 : d.tdiv 12 = d / 12 := Int.tdiv_eq_ediv hd.le (by decide)
  have h16 : d.tdiv 16 = d / 16 := Int.tdiv_eq_ediv hd.le (by decide)
  simp [handleMeterShortReg, handleMeterNormalReg, handleMeterLongReg,
    handleMeterAscendingNormal, handleMeterTerminalShort, handleMeterAscendingLong,
    handleMeterTerminalNormal, handleMeterTerminalLong, pushAlternating_eq, uniformShape,
    h4, h6, h8, h12, h16, List.range_succ]

/-- Witness of claim C7: the sixteen shapes at duration 481. -/
theorem handlers_uniform_shape_witness :
    (0 : Int) < 481 ∧
    handleMeterShortReg [] 62 60 62 60 481 DUPLE = [] ++ uniformShape 4 3 62 60 481 ∧
    handleMeterShortReg [] 62 60 62 60 481 TRIPLE = [] ++ uniformShape 6 5 62 60 481 ∧
    handleMeterTerminalShort [] 62 60 62 60 481 DUPLE = [] ++ uniformShape 4 3 62 60 481 ∧
    handleMeterTerminalShort [] 62 60 62 60 481 TRIPLE = [] ++ uniformShape 6 5 62 60 481 ∧
    handleMeterNormalReg [] 62 60 62 60 62 60 481 DUPLE = [] ++ uniformShape 8 6 62 60 481 ∧
    handleMeterNormalReg [] 62 60 62 60 62 60 481 TRIPLE = [] ++ uniformShape 8 6 62 60 481 ∧
    handleMeterLongReg [] 62 60 62 60 62 60 62 60 481 DUPLE
      = [] ++ uniformShape 8 7 62 60 481 ∧
    handleMeterLongReg [] 62 60 62 60 62 60 62 60 481 TRIPLE
      = [] ++ uniformShape 8 7 62 60 481 ∧
    handleMeterAscendingNormal [] 62 60 62 60 62 60 62 60 481 DUPLE
      = [] ++ uniformShape 8 7 62 60 481 ∧
    handleMeterAscendingNormal [] 62 60 62 60 62 60 62 60 481 TRIPLE
      = [] ++ uniformShape 8 7 62 60 481 ∧
    handleMeterAscendingLong [] 62 60 62 60 62 60 62 60 62 60 62 60 481 DUPLE
      = [] ++ uniformShape 16 15 62 60 481 ∧
    handleMeterAscendingLong [] 62 60 62 60 62 60 62 60 62 60 62 60 481 TRIPLE
      = [] ++ uniformShape 12 11 62 60 481 ∧
    handleMeterTerminalNormal [] 62 60 62 60 62 60 62 60 481 DUPLE
      = [] ++ uniformShape 8 7 62 60 481 ∧
    handleMeterTerminalNormal [] 62 60 62 60 62 60 62 60 481 TRIPLE
      = [] ++ uniformShape 12 11 62 60 481 ∧
    handleMeterTerminalLong [] 62 60 62 60 62 60 62 60 62 60 62 60 62 60 62 60 481 DUPLE
      = [] ++ uniformShape 16 15 62 60 481 ∧
    handleMeterTerminalLong [] 62 60 62 60 62 60 62 60 62 60 62 60 62 60 62 60 481 TRIPLE
      = [] ++ uniformShape 12 11 62 60 481 :=
  ⟨by decide,
    handlers_uniform_shape [] 62 60 62 60 62 60 62 60 62 60 62 60 62 60 62 60 481 (by decide)⟩

/-- Claim C8 (mixed-subdivision shapes), for every `d > 0`.  Delayed-normal: a leading note
on `p1` (`d / 4` in duple, `2 * (d / 8)` in triple), four steps of `d / 8` (`p1, p2, p1, p2`
in duple, `p2, p1, p2, p1` in triple) and a final entry on `p2` with the remaining
duration.  Delayed-long, both meters: a leading note on `p1` of `2 * (d / 8)`, five steps
`p2, p1, p2, p1, p2` of `d / 8` and the final entry on `p2`.  Ascending/descending-short:
four steps `p1, p2, p1, p2` of `d / 8`, then `(p1, d / 4)` in duple or `(p1, d / 6)` in
triple, then the final entry on `p2` with the remaining duration. -/
theorem handlers_mixed_shape (E : List (Int × Int)) (p1 p2 p3 p4 p5 p6 d : Int)
    (hd : 0 < d) :
    handleMeterDelayedNormal E p1 p2 p3 p4 p5 p6 d DUPLE
      = E ++ withRemainder ((p1, d / 4) :: steps [p1, p2, p1, p2] (d / 8)) p2 d ∧
    handleMeterDelayedNormal E p1 p2 p3 p4 p5 p6 d TRIPLE
      = E ++ withRemainder ((p1, 2 * (d / 8)) :: steps [p2, p1, p2, p1] (d / 8)) p2 d ∧
    handleMeterDelayedLong E p1 p2 p3 p4 p5 p6 d DUPLE
      = E ++ withRemainder ((p1, 2 * (d / 8)) :: steps [p2, p1, p2, p1, p2] (d / 8)) p2 d ∧
    handleMeterDelayedLong E p1 p2 p3 p4 p5 p6 d TRIPLE
      = E ++ withRemainder ((p1, 2 * (d / 8)) :: steps [p2, p1, p2, p1, p2] (d / 8)) p2 d ∧
    handleMeterAscendingShort E p1 p2 p3 p4 p5 p6 d DUPLE
      = E ++ withRemainder (steps [p1, p2, p1, p2] (d / 8) ++ [(p1, d / 4)]) p2 d ∧
    handleMeterAscendingShort E p1 p2 p3 p4 p5 p6 d TRIPLE
      = E ++ withRemainder (steps [p1, p2, p1, p2] (d / 8) ++ [(p1, d / 6)]) p2 d := by
  have h4 : d.tdiv 4 = d / 4 := Int.tdiv_eq_ediv hd.le (by decide)
  have h6 : d.tdiv 6 = d / 6 := Int.tdiv_eq_ediv hd.le (by decide)
  have h8 : d.tdiv 8 = d / 8 := Int.tdiv_eq_ediv hd.le (by decide)
  simp only [handleMeterDelayedNormal, handleMeterDelayedLong, handleMeterAscendingShort,
    pushAlternating_eq, withRemainder, steps, h4, h6, h8]
  refine ⟨?_, ?_, ?_, ?_, ?_, ?_⟩ <;> simp [List.range_succ] <;> omega

/-- Witness of claim C8: the six shapes at duration 481. -/
theorem handlers_mixed_shape_witness :
    (0 : Int) < 481 ∧
    handleMeterDelayedNormal [] 62 60 62 60 62 60 481 DUPLE
      = [] ++ withRemainder ((62, 481 / 4) :: steps [62, 60, 62, 60] (481 / 8)) 60 481 ∧
    handleMeterDelayedNormal [] 62 60 62 60 62 60 481 TRIPLE
      = [] ++ withRemainder ((62, 2 * (481 / 8)) :: steps [60, 62, 60, 62] (481 / 8)) 60 481 ∧
    handleMeterDelayedLong [] 62 60 62 60 62 60 481 DUPLE
      = [] ++ withRemainder ((62, 2 * (481 / 8)) :: steps [60, 62, 60, 62, 60] (481 / 8))
          60 481 ∧
    handleMeterDelayedLong [] 62 60 62 60 62 60 481 TRIPLE
      = [] ++ withRemainder ((62, 2 * (481 / 8)) :: steps [60, 62, 60, 62, 60] (481 / 8))
          60 481 ∧
    handleMeterAscendingShort [] 62 60 62 60 62 60 481 DUPLE
      = [] ++ withRemainder (steps [62, 60, 62, 60] (481 / 8) ++ [(62, 481 / 4)]) 60 481 ∧
    handleMeterAscendingShort [] 62 60 62 60 62 60 481 TRIPLE
      = [] ++ withRemainder (steps [62, 60, 62, 60] (481 / 8) ++ [(62, 481 / 6)]) 60 481 :=
  ⟨by decide, handlers_mixed_shape [] 62 60 62 60 62 60 481 (by decide)⟩

/-! ## Pattern generator: scenarios -/

/-- Claim C9 (short-regular major-second scenario, generalised): for every pitch `p` and
duration `d > 0`, `applyTrill p d DUPLE "BTrRs1"` is
`[(p + 2, d / 4), (p, d / 4), (p + 2, d / 4), (p, d - 3 * (d / 4))]`; and for the row
`1 C4 480 RLN`: `getNoteNumber "C4"` is 60, the ornament has the pitches 62, 60, 62, 60 with
the durations 120, 120, 120, 120, and `getNoteName` renders them as D4, C4, D4, C4. -/
theorem applyTrill_short_regular_major_second (p d : Int) (hd : 0 < d) :
    applyTrill p d DUPLE "BTrRs1"
        = .ok [(p + 2, d / 4), (p, d / 4), (p + 2, d / 4), (p, d - 3 * (d / 4))] ∧
      getNoteNumber "C4" = .ok 60 ∧
      applyTrill 60 480 DUPLE "BTrRs1" = .ok [(62, 120), (60, 120), (62, 120), (60, 120)] ∧
      [62, 60, 62, 60].map getNoteName = [some "D4", some "C4", some "D4", some "C4"] := by
  have h4 : d.tdiv 4 = d / 4 := Int.tdiv_eq_ediv hd.le (by decide)
  refine ⟨?_, by decide, by decide, by decide⟩
  rw [applyTrill_of_pos p d DUPLE "BTrRs1" hd]
  simp [applyTrillDispatch, handleMeterShortReg, h4]

/-- Witness of claim C9: the scenario row itself, pitch 60 and duration 480. -/
theorem applyTrill_short_regular_major_second_witness :
    (0 : Int) < 480 ∧
      applyTrill 60 480 DUPLE "BTrRs1"
        = .ok [(60 + 2, 480 / 4), (60, 480 / 4), (60 + 2, 480 / 4), (60, 480 - 3 * (480 / 4))] ∧
      getNoteNumber "C4" = .ok 60 ∧
      applyTrill 60 480 DUPLE "BTrRs1" = .ok [(62, 120), (60, 120), (62, 120), (60, 120)] ∧
      [62, 60, 62, 60].map getNoteName = [some "D4", some "C4", some "D4", some "C4"] :=
  ⟨by decide, applyTrill_short_regular_major_second 60 480 (by decide)⟩

/-- The terminal-normal and terminal-long handlers play only their first two pitch
arguments: for the eight variants of these families, both meters and every `d > 0`, the lower
auxiliary `p - 2` that the call site passes occurs nowhere in the ornament. -/
theorem applyTrill_terminal_pitches (p d : Int) (meter : TimeMeter) (code : String)
    (hc : code ∈ ["BTrTn1", "BTrTn5", "CTrTn1", "CTrTn5", "BTrTl1", "BTrTl5", "CTrTl1",
      "CTrTl5"]) (hd : 0 < d) :
    ∃ orn, applyTrill p d meter code = .ok orn ∧ p - 2 ∉ orn.map Prod.fst := by
  refine ⟨_, applyTrill_of_pos p d meter code hd, ?_⟩
  simp only [List.mem_cons, List.mem_singleton, List.not_mem_nil, or_false] at hc
  rcases hc with h | h | h | h | h | h | h | h <;> subst h <;> cases meter <;>
    simp [applyTrillDispatch, handleMeterTerminalNormal, handleMeterTerminalLong,
      pushAlternating_eq, List.range_succ] <;> omega

/-- Claim C10, the code at the failing input: `applyTrill 60 480 DUPLE "BTrTn1"` alternates
62 and 60 to the end; its last two entries are `(62, 60)` and `(60, 60)`, and the lower
auxiliary 58 is not among them, nor anywhere in the ornament.  The same holds in triple
meter and for the terminal-long variant `CTrTl5`. -/
theorem applyTrill_terminal_normal_last_pair :
    applyTrill 60 480 DUPLE "BTrTn1"
        = .ok [(62, 60), (60, 60), (62, 60), (60, 60), (62, 60), (60, 60), (62, 60), (60, 60)] ∧
      applyTrill 60 480 TRIPLE "BTrTn1"
        = .ok [(62, 40), (60, 40), (62, 40), (60, 40), (62, 40), (60, 40), (62, 40), (60, 40),
            (62, 40), (60, 40), (62, 40), (60, 40)] ∧
      (∀ orn, applyTrill 60 480 DUPLE "BTrTn1" = .ok orn →
        (60 - 2 : Int) ∉ (orn.drop (orn.length - 2)).map Prod.fst) ∧
      (∀ orn, applyTrill 60 480 DUPLE "CTrTl5" = .ok orn →
        (60 - 2 : Int) ∉ (orn.drop (orn.length - 2)).map Prod.fst) := by
  refine ⟨by decide, by decide, ?_, ?_⟩
  · intro orn h
    have h2 : applyTrill 60 480 DUPLE "BTrTn1"
        = .ok [(62, 60), (60, 60), (62, 60), (60, 60), (62, 60), (60, 60), (62, 60), (60, 60)] := by
      decide
    rw [h2] at h
    injection h with h
    subst h
    decide
  · intro orn h
    have h2 : applyTrill 60 480 DUPLE "CTrTl5"
        = .ok [(60, 30), (61, 30), (60, 30), (61, 30), (60, 30), (61, 30), (60, 30), (61, 30),
            (60, 30), (61, 30), (60, 30), (61, 30), (60, 30), (61, 30), (60, 30), (61, 30)] := by
      decide
    rw [h2] at h
    injection h with h
    subst h
    decide

/-! ## PitchName codec: auxiliary lemmas -/

/-- Truncating division by 12 of a number that is not positive. -/
theorem tdiv_twelve_of_nonpos (n : Int) (h : n ≤ 0) : n.tdiv 12 = -((-n) / 12) := by
  have h1 : n.tdiv 12 = -((-n).tdiv 12) := by
    rw [Int.neg_tdiv]; simp
  rw [h1, Int.tdiv_eq_ediv (by omega) (by decide)]

/-- Truncating remainder modulo 12 of a number that is not positive. -/
theorem tmod_twelve_of_nonpos (n : Int) (h : n ≤ 0) : n.tmod 12 = -((-n) % 12) := by
  rw [Int.tmod_def, tdiv_twelve_of_nonpos n h]
  omega

/-- The table lookup of `getNoteName` is in bounds when the input is non-negative or a
multiple of 12, and the result is then the pitch-class name followed by the octave label. -/
theorem getNoteName_of_index_in_bounds (n : Int) (h : 0 ≤ n ∨ 12 ∣ n) :
    ∃ name, arrayRead noteNames (n.tmod 12) = some name ∧
      getNoteName n = some (name ++ to_string (n.tdiv 12 - 1)) := by
  have hk : 0 ≤ n.tmod 12 ∧ n.tmod 12 < 12 := by
    rcases h with h | h
    · rw [Int.tmod_eq_emod h (by decide)]; omega
    · rw [Int.tmod_eq_zero_of_dvd h]; decide
  obtain ⟨h0, h12⟩ := hk
  simp only [getNoteName]
  generalize n.tmod 12 = k at h0 h12
  interval_cases k <;> simp [arrayRead, noteNames]

/-- For a negative input that is no multiple of 12 the index `noteNumber % 12` is negative and
the table lookup of `getNoteName` is out of bounds. -/
theorem getNoteName_of_index_negative (n : Int) (h : ¬ (0 ≤ n ∨ 12 ∣ n)) :
    arrayRead noteNames (n.tmod 12) = none ∧ getNoteName n = none := by
  have hk : ¬ 0 ≤ n.tmod 12 := by
    rw [tmod_twelve_of_nonpos n (by omega)]
    omega
  simp [getNoteName, arrayRead, hk]

/-- A decimal digit has a character code from 48 to 57. -/
theorem isDigit_bounds (c : Char) (h : c.isDigit = true) : 48 ≤ c.toNat ∧ c.toNat ≤ 57 := by
  simp only [Char.isDigit, Bool.and_eq_true, decide_eq_true_eq] at h
  obtain ⟨h1, h2⟩ := h
  have h1' := UInt32.le_def.mp h1
  have h2' := UInt32.le_def.mp h2
  simp only [Char.toNat]
  constructor
  · exact h1'
  · exact h2'

/-- A character that is no sign is left in place by `readSign`. -/
theorem readSign_singleton (c : Char) (h7 : c ≠ '-') (h8 : c ≠ '+') :
    readSign [c] = (false, [c]) := by
  unfold readSign
  split <;> simp_all

/-- On a text of one character `stoi` succeeds exactly when the character is a digit. -/
theorem stoi_singleton (c : Char) :
    stoi ⟨[c]⟩ = if c.isDigit then .ok ((c.toNat : Int) - 48)
      else .error (.invalid_argument "stoi") := by
  by_cases h1 : c = ' '
  · subst h1; decide
  by_cases h2 : c = '\t'
  · subst h2; decide
  by_cases h3 : c = '\n'
  · subst h3; decide
  by_cases h4 : c = '\x0b'
  · subst h4; decide
  by_cases h5 : c = '\x0c'
  · subst h5; decide
  by_cases h6 : c = '\r'
  · subst h6; decide
  by_cases h7 : c = '-'
  · subst h7; decide
  by_cases h8 : c = '+'
  · subst h8; decide
  have hs : isspace c = false := by simp [isspace, h1, h2, h3, h4, h5, h6]
  by_cases hd : c.isDigit = true
  · obtain ⟨hb1, hb2⟩ := isDigit_bounds c hd
    simp only [stoi, List.dropWhile, hs, readSign_singleton c h7 h8]
    simp [List.takeWhile, hd, digitsValue]
    omega
  · simp only [stoi, List.dropWhile, hs, readSign_singleton c h7 h8]
    simp [List.takeWhile, hd]

/-- On a non-empty text `size() - 1` does not wrap. -/
theorem sizeSub_succ_one (n : Nat) (h : n + 1 < 2 ^ SIZE_WIDTH) : sizeSub (n + 1) 1 = n := by
  unfold sizeSub
  generalize 2 ^ SIZE_WIDTH = M at h ⊢
  have h1 : 1 % M = 1 := Nat.mod_eq_of_lt (by omega)
  have h2 : M + (n + 1) - 1 = n + M := by omega
  rw [h1, h2, Nat.add_mod_right, Nat.mod_eq_of_lt (by omega)]

/-- The first `substr` of `getNoteNumber`: everything but the last character. -/
theorem substr_init (base : List Char) (c : Char) :
    substr ⟨base ++ [c]⟩ 0 base.length = .ok ⟨base⟩ := by
  simp [substr]

/-- The second `substr` of `getNoteNumber`: the last character. -/
theorem substr_last (base : List Char) (c : Char) :
    substr ⟨base ++ [c]⟩ base.length npos = .ok ⟨[c]⟩ := by
  simp [substr, String.length, npos, SIZE_WIDTH]

/-- What `getNoteNumber` computes on a non-empty name: the octave is read from the last
character alone, and the pitch class is looked up under everything before it. -/
theorem getNoteNumber_concat (base : List Char) (c : Char) (hlen : base.length + 1 < 2 ^ SIZE_WIDTH) :
    getNoteNumber ⟨base ++ [c]⟩ =
      if c.isDigit then
        if noteNames.indexOf (String.mk base) = noteNames.length then
          .error (.invalid_argument ("Invalid note name: " ++ String.mk (base ++ [c])))
        else
          .ok (((c.toNat : Int) - 48 + 1) * 12 + (noteNames.indexOf (String.mk base) : Int))
      else .error (.invalid_argument "stoi") := by
  have hl : (String.mk (base ++ [c])).length = base.length + 1 := by simp [String.length]
  simp only [getNoteNumber, hl, sizeSub_succ_one base.length hlen, substr_init, substr_last,
    stoi_singleton]
  by_cases hd : c.isDigit = true
  · simp [hd, bind, Except.bind, stoi_singleton]
  · simp [hd, bind, Except.bind, stoi_singleton]

/-- The names `getNoteNumber` accepts are exactly a name of the table followed by one decimal
digit; the value is then `(digit + 1) * 12 + index`. -/
theorem getNoteNumber_eq_ok_iff (s : String) (v : Int) (hlen : s.length < 2 ^ SIZE_WIDTH) :
    getNoteNumber s = .ok v ↔
      ∃ base c, s = String.mk (base ++ [c]) ∧ c.isDigit = true ∧ String.mk base ∈ noteNames ∧
        v = ((c.toNat : Int) - 48 + 1) * 12 + (noteNames.indexOf (String.mk base) : Int) := by
  obtain ⟨l⟩ := s
  rcases List.eq_nil_or_concat l with rfl | ⟨init, c, rfl⟩
  · constructor
    · intro h
      have h2 : getNoteNumber ⟨[]⟩ = .error (.out_of_range "basic_string::substr") := by decide
      rw [h2] at h
      cases h
    · rintro ⟨base, c, h, -⟩
      have h3 : ([] : List Char) = base ++ [c] := by
        injection h
      simp at h3
  · have hlen' : init.length + 1 < 2 ^ SIZE_WIDTH := by
      simpa [String.length] using hlen
    rw [List.concat_eq_append, getNoteNumber_concat init c hlen']
    constructor
    · intro h
      refine ⟨init, c, rfl, ?_⟩
      by_cases hd : c.isDigit = true
      · by_cases hi : noteNames.indexOf (String.mk init) = noteNames.length
        · simp [hd, hi] at h
        · simp only [hd, hi, if_true, if_false] at h
          injection h with h
          exact ⟨hd, by
            by_contra hm
            exact hi (List.indexOf_eq_length.mpr hm), h.symm⟩
      · simp [hd] at h
    · rintro ⟨base, c2, h, hd, hm, hv⟩
      have h3 : init ++ [c] = base ++ [c2] := by
        injection h
      obtain ⟨hb, hc⟩ := List.append_inj' h3 rfl
      have hc2 : c = c2 := by simpa using hc
      subst hb
      subst hc2
      have hi : ¬ noteNames.indexOf (String.mk init) = noteNames.length := by
        intro hi
        exact (List.indexOf_eq_length.mp hi) hm
      simp [hd, hi, hv]

/-- Every number `getNoteNumber` returns lies between 12 and 131. -/
theorem getNoteNumber_range (s : String) (v : Int) (hlen : s.length < 2 ^ SIZE_WIDTH)
    (h : getNoteNumber s = .ok v) : 12 ≤ v ∧ v ≤ 131 := by
  obtain ⟨base, c, -, hd, hm, hv⟩ := (getNoteNumber_eq_ok_iff s v hlen).mp h
  obtain ⟨hb1, hb2⟩ := isDigit_bounds c hd
  have hi : noteNames.indexOf (String.mk base) < noteNames.length :=
    List.indexOf_lt_length.mpr hm
  have hl : noteNames.length = 12 := by decide
  omega

/-- The codec round trip on the pitches from 12 to 131, those with an octave label from 0
to 9. -/
theorem getNoteNumber_getNoteName_of_single_digit_octave (p : Int) (h1 : 12 ≤ p)
    (h2 : p ≤ 131) : (getNoteName p).map getNoteNumber = some (.ok p) := by
  interval_cases p <;> decide

/-- A name of the table followed by an octave from 0 to 9 is parsed as
`12 * (octave + 1) + index`. -/
theorem getNoteNumber_of_single_digit_octave : ∀ i : Fin 12, ∀ o : Fin 10,
    getNoteNumber (noteNames.get i ++ to_string ((o : Nat) : Int))
      = .ok (12 * (((o : Nat) : Int) + 1) + ((i : Nat) : Int)) := by
  decide

/-! ## PitchName codec: the claims -/

/-- Claim C2, the code at the failing inputs: `getNoteName` names the pitches 0 and 10 as
`C-1` and `A#-1`, and `getNoteNumber` rejects both names, because it reads the octave from
the last character alone and looks the rest, `C-` and `A#-`, up in the table; the round
trip fails in the same way on each pitch from 0 to 11. -/
theorem getNoteNumber_getNoteName_fails_below_twelve :
    getNoteName 0 = some "C-1" ∧
      getNoteNumber "C-1" = .error (.invalid_argument "Invalid note name: C-1") ∧
      getNoteName 10 = some "A#-1" ∧
      getNoteNumber "A#-1" = .error (.invalid_argument "Invalid note name: A#-1") ∧
      ∀ p : Fin 12,
        (getNoteName ((p : Nat) : Int)).map getNoteNumber ≠ some (.ok ((p : Nat) : Int)) := by
  decide

/-- Counterexample to claim C3 as stated: on the input -1 the index `-1 % 12` is -1, the
lookup in the table of twelve names is out of bounds, and `getNoteName` yields no name. -/
theorem getNoteName_minus_one_out_of_bounds :
    (-1 : Int).tmod 12 = -1 ∧ arrayRead noteNames ((-1 : Int).tmod 12) = none ∧
      getNoteName (-1) = none := by
  decide

/-- Claim C3, amended: `getNoteName` succeeds exactly on the inputs that are non-negative or
multiples of 12; whenever it succeeds the lookup in the table of twelve names is in bounds
and the result is the pitch-class name followed by the decimal octave label `pitch / 12 - 1`,
the division truncating toward zero. -/
theorem getNoteName_succeeds_iff (n : Int) :
    ((∃ s, getNoteName n = some s) ↔ (0 ≤ n ∨ 12 ∣ n)) ∧
      ∀ s, getNoteName n = some s →
        ∃ name, arrayRead noteNames (n.tmod 12) = some name ∧
          s = name ++ to_string (n.tdiv 12 - 1) := by
  by_cases h : 0 ≤ n ∨ 12 ∣ n
  · obtain ⟨name, h1, h2⟩ := getNoteName_of_index_in_bounds n h
    refine ⟨⟨fun _ => h, fun _ => ⟨_, h2⟩⟩, ?_⟩
    intro s hs
    rw [h2] at hs
    injection hs with hs
    exact ⟨name, h1, hs.symm⟩
  · obtain ⟨-, h2⟩ := getNoteName_of_index_negative n h
    refine ⟨⟨?_, fun h3 => absurd h3 h⟩, ?_⟩
    · rintro ⟨s, hs⟩
      rw [h2] at hs
      cases hs
    · intro s hs
      rw [h2] at hs
      cases hs

/-- Claim C4, the code at the failing inputs: the names `C-1` and `C10`, which `getNoteName`
produces for the pitches 0 and 132, are the pitch class `C` followed by the octaves -1 and
10; `getNoteNumber` does not return 0 and 132 for them but throws, having taken `C-` and `C1`
for the pitch class. -/
theorem getNoteNumber_rejects_signed_and_two_digit_octave :
    getNoteName 0 = some ("C" ++ to_string (-1)) ∧
      getNoteNumber ("C" ++ to_string (-1))
        = .error (.invalid_argument "Invalid note name: C-1") ∧
      getNoteName 132 = some ("C" ++ to_string 10) ∧
      getNoteNumber ("C" ++ to_string 10)
        = .error (.invalid_argument "Invalid note name: C10") := by
  decide

/-! ## Pattern generator: families of variants -/

/-- Claim C11: a descending variant is its ascending counterpart with the auxiliary offsets
swapped.  For each of the twelve descending codes, every pitch `p`, duration `d > 0` and
meter, the descending ornament is the ascending ornament with every pitch `q` replaced by
its mirror `2 * p - q` and every sub-duration unchanged. -/
theorem applyTrill_descending_eq_mirror (p d : Int) (meter : TimeMeter) (desc asc : String)
    (hc : (desc, asc) ∈ descendingPairs) (hd : 0 < d) :
    ∃ a b, applyTrill p d meter asc = .ok a ∧ applyTrill p d meter desc = .ok b ∧
      b = mirror p a := by
  refine ⟨_, _, applyTrill_of_pos p d meter asc hd, applyTrill_of_pos p d meter desc hd, ?_⟩
  simp only [descendingPairs, List.mem_cons, List.mem_singleton, List.not_mem_nil, or_false,
    Prod.mk.injEq] at hc
  rcases hc with h | h | h | h | h | h | h | h | h | h | h | h <;> obtain ⟨h1, h2⟩ := h <;>
    subst h1 <;> subst h2 <;> cases meter <;>
    simp [applyTrillDispatch, handleMeterAscendingShort, handleMeterAscendingNormal,
      handleMeterAscendingLong, pushAlternating_eq, List.range_succ, mirror] <;>
    omega

/-- Witness of claim C11: the long descending trill `CTrDl5` and `CTrAl5` in triple meter on a
duration that 12 does not divide. -/
theorem applyTrill_descending_eq_mirror_witness :
    ("CTrDl5", "CTrAl5") ∈ descendingPairs ∧ (0 : Int) < 481 ∧
      ∃ a b, applyTrill 60 481 TRIPLE "CTrAl5" = .ok a ∧
        applyTrill 60 481 TRIPLE "CTrDl5" = .ok b ∧ b = mirror 60 a :=
  ⟨by decide, by decide,
    applyTrill_descending_eq_mirror 60 481 TRIPLE "CTrDl5" "CTrAl5" (by decide) (by decide)⟩

/-- Claim C12, the code at the failing inputs: the catalog describes `CTrRn1` and `CTrDen1`
as Major 2nd trills, yet their ornaments on the source pitch 60 alternate 60 with 65, five
semitones above, where the sibling codes `CTrRs1` and `CTrRl1` play 62. -/
theorem applyTrill_major_second_plays_fourth :
    (⟨"CTrRn1", "Classical Normal Regular Trill - Major 2nd"⟩ : TrillVariant) ∈ allVariants ∧
      describedInterval ⟨"CTrRn1", "Classical Normal Regular Trill - Major 2nd"⟩ = some 2 ∧
      applyTrill 60 480 DUPLE "CTrRn1"
        = .ok [(60, 60), (65, 60), (60, 60), (65, 60), (60, 60), (65, 60), (65, 120)] ∧
      (⟨"CTrDen1", "Classical Delayed Normal Trill - Major 2nd"⟩ : TrillVariant)
        ∈ allVariants ∧
      describedInterval ⟨"CTrDen1", "Classical Delayed Normal Trill - Major 2nd"⟩ = some 2 ∧
      applyTrill 60 480 DUPLE "CTrDen1"
        = .ok [(60, 120), (60, 60), (65, 60), (60, 60), (65, 60), (65, 120)] ∧
      applyTrill 60 480 DUPLE "CTrRs1" = .ok [(60, 120), (62, 120), (60, 120), (62, 120)] := by
  decide

/-! ### The pitches a handler plays are its first two pitch arguments, both of them, and
nothing else -/

theorem mem_map_fst_handleMeterShortReg (x p1 p2 p3 p4 d : Int)
    (meter : TimeMeter) :
    x ∈ (handleMeterShortReg [] p1 p2 p3 p4 d meter).map Prod.fst ↔ x = p1 ∨ x = p2 := by
  cases meter <;> simp [handleMeterShortReg, pushAlternating_eq, List.range_succ] <;> omega

theorem mem_map_fst_handleMeterNormalReg (x p1 p2 p3 p4 p5 p6 d : Int)
    (meter : TimeMeter) :
    x ∈ (handleMeterNormalReg [] p1 p2 p3 p4 p5 p6 d meter).map Prod.fst ↔ x = p1 ∨ x = p2 := by
  cases meter <;> simp [handleMeterNormalReg, pushAlternating_eq, List.range_succ] <;> omega

theorem mem_map_fst_handleMeterLongReg (x p1 p2 p3 p4 p5 p6 p7 p8 d : Int)
    (meter : TimeMeter) :
    x ∈ (handleMeterLongReg [] p1 p2 p3 p4 p5 p6 p7 p8 d meter).map Prod.fst ↔ x = p1 ∨ x = p2 := by
  cases meter <;> simp [handleMeterLongReg, pushAlternating_eq, List.range_succ] <;> omega

theorem mem_map_fst_handleMeterDelayedNormal (x p1 p2 p3 p4 p5 p6 d : Int)
    (meter : TimeMeter) :
    x ∈ (handleMeterDelayedNormal [] p1 p2 p3 p4 p5 p6 d meter).map Prod.fst ↔ x = p1 ∨ x = p2 := by
  cases meter <;> simp [handleMeterDelayedNormal, pushAlternating_eq, List.range_succ] <;> omega

theorem mem_map_fst_handleMeterDelayedLong (x p1 p2 p3 p4 p5 p6 d : Int)
    (meter : TimeMeter) :
    x ∈ (handleMeterDelayedLong [] p1 p2 p3 p4 p5 p6 d meter).map Prod.fst ↔ x = p1 ∨ x = p2 := by
  cases meter <;> simp [handleMeterDelayedLong, pushAlternating_eq, List.range_succ] <;> omega

theorem mem_map_fst_handleMeterAscendingShort (x p1 p2 p3 p4 p5 p6 d : Int)
    (meter : TimeMeter) :
    x ∈ (handleMeterAscendingShort [] p1 p2 p3 p4 p5 p6 d meter).map Prod.fst ↔ x = p1 ∨ x = p2 := by
  cases meter <;> simp [handleMeterAscendingShort, pushAlternating_eq, List.range_succ] <;> omega

theorem mem_map_fst_handleMeterAscendingNormal (x p1 p2 p3 p4 p5 p6 p7 p8 d : Int)
    (meter : TimeMeter) :
    x ∈ (handleMeterAscendingNormal [] p1 p2 p3 p4 p5 p6 p7 p8 d meter).map Prod.fst ↔ x = p1 ∨ x = p2 := by
  cases meter <;> simp [handleMeterAscendingNormal, pushAlternating_eq, List.range_succ] <;> omega

theorem mem_map_fst_handleMeterTerminalShort (x p1 p2 p3 p4 d : Int)
    (meter : TimeMeter) :
    x ∈ (handleMeterTerminalShort [] p1 p2 p3 p4 d meter).map Prod.fst ↔ x = p1 ∨ x = p2 := by
  cases meter <;> simp [handleMeterTerminalShort, pushAlternating_eq, List.range_succ] <;> omega

theorem mem_map_fst_handleMeterAscendingLong (x p1 p2 p3 p4 p5 p6 p7 p8 p9 p10 p11 p12 d : Int)
    (meter : TimeMeter) :
    x ∈ (handleMeterAscendingLong [] p1 p2 p3 p4 p5 p6 p7 p8 p9 p10 p11 p12 d meter).map Prod.fst ↔ x = p1 ∨ x = p2 := by
  cases meter <;> simp [handleMeterAscendingLong, pushAlternating_eq, List.range_succ] <;> omega

theorem mem_map_fst_handleMeterTerminalNormal (x p1 p2 p3 p4 p5 p6 p7 p8 d : Int)
    (meter : TimeMeter) :
    x ∈ (handleMeterTerminalNormal [] p1 p2 p3 p4 p5 p6 p7 p8 d meter).map Prod.fst ↔ x = p1 ∨ x = p2 := by
  cases meter <;> simp [handleMeterTerminalNormal, pushAlternating_eq, List.range_succ] <;> omega

theorem mem_map_fst_handleMeterTerminalLong (x p1 p2 p3 p4 p5 p6 p7 p8 p9 p10 p11 p12 p13 p14 p15 p16 d : Int)
    (meter : TimeMeter) :
    x ∈ (handleMeterTerminalLong [] p1 p2 p3 p4 p5 p6 p7 p8 p9 p10 p11 p12 p13 p14 p15 p16 d meter).map Prod.fst ↔ x = p1 ∨ x = p2 := by
  cases meter <;> simp [handleMeterTerminalLong, pushAlternating_eq, List.range_succ] <;> omega

/-- The dispatch leaves the vector empty for a code outside the catalog. -/
theorem applyTrillDispatch_of_not_mem_catalog (p d : Int) (meter : TimeMeter) (code : String)
    (hc : code ∉ catalogCodes) : applyTrillDispatch [] p d meter code = [] := by
  simp only [catalogCodes, allVariants, List.map_cons, List.map_nil, List.mem_cons,
    List.mem_singleton, List.not_mem_nil, or_false, not_or] at hc
  simp [applyTrillDispatch, hc]

/-- The pitches of an ornament, for any variant code: each is one of the two pitches that the
branch of the dispatch passes first to its handler, so it differs from the source pitch by
-2, -1, 0, 1, 2 or 5 semitones. -/
theorem applyTrillDispatch_pitch_offsets (p d : Int) (meter : TimeMeter) (variant : String)
    (x : Int) (hx : x ∈ (applyTrillDispatch [] p d meter variant).map Prod.fst) :
    x = p - 2 ∨ x = p - 1 ∨ x = p ∨ x = p + 1 ∨ x = p + 2 ∨ x = p + 5 := by
  by_cases hc : variant ∈ catalogCodes
  · rcases mem_catalogCodes variant hc with
      h | h | h | h | h | h | h | h | h | h | h | h | h | h | h | h | h | h | h |
      h | h | h | h | h | h | h | h | h | h | h | h | h | h | h | h | h | h | h | h | h | h |
      h | h | h | h | h | h | h | h | h | h | h | h | h | h | h <;> subst h <;>
      simp only [applyTrillDispatch, String.reduceEq, ↓reduceIte, mem_map_fst_handleMeterShortReg,
        mem_map_fst_handleMeterNormalReg, mem_map_fst_handleMeterLongReg,
        mem_map_fst_handleMeterDelayedNormal, mem_map_fst_handleMeterDelayedLong,
        mem_map_fst_handleMeterAscendingShort, mem_map_fst_handleMeterAscendingNormal,
        mem_map_fst_handleMeterTerminalShort, mem_map_fst_handleMeterAscendingLong,
        mem_map_fst_handleMeterTerminalNormal, mem_map_fst_handleMeterTerminalLong] at hx <;>
      omega
  · rw [applyTrillDispatch_of_not_mem_catalog p d meter variant hc] at hx
    simp at hx

/-- The other 54 entries of the catalog play the interval their description names: every
pitch of the ornament is the source pitch or exactly that many semitones away from it. -/
theorem applyTrill_described_interval (v : TrillVariant) (p d : Int) (meter : TimeMeter)
    (hv : v ∈ allVariants) (h1 : v.code ≠ "CTrRn1") (h2 : v.code ≠ "CTrDen1") (hd : 0 < d) :
    ∃ i orn, describedInterval v = some i ∧ applyTrill p d meter v.code = .ok orn ∧
      ∀ x ∈ orn.map Prod.fst, x = p ∨ x = p + i ∨ x = p - i := by
  simp only [allVariants, List.mem_cons, List.mem_singleton, List.not_mem_nil, or_false]
    at hv
  rcases hv with
    h | h | h | h | h | h | h | h | h | h | h | h | h | h | h | h | h | h | h |
    h | h | h | h | h | h | h | h | h | h | h | h | h | h | h | h | h | h | h | h | h | h | h |
    h | h | h | h | h | h | h | h | h | h | h | h | h | h <;> subst h <;>
    first
    | exact absurd rfl h1
    | exact absurd rfl h2
    | (refine ⟨2, _, by decide, applyTrill_of_pos p d meter _ hd, ?_⟩
       intro x hx
       simp only [applyTrillDispatch, String.reduceEq, ↓reduceIte, mem_map_fst_handleMeterShortReg,
         mem_map_fst_handleMeterNormalReg, mem_map_fst_handleMeterLongReg,
         mem_map_fst_handleMeterDelayedNormal, mem_map_fst_handleMeterDelayedLong,
         mem_map_fst_handleMeterAscendingShort, mem_map_fst_handleMeterAscendingNormal,
         mem_map_fst_handleMeterTerminalShort, mem_map_fst_handleMeterAscendingLong,
         mem_map_fst_handleMeterTerminalNormal, mem_map_fst_handleMeterTerminalLong] at hx
       omega)
    | (refine ⟨1, _, by decide, applyTrill_of_pos p d meter _ hd, ?_⟩
       intro x hx
       simp only [applyTrillDispatch, String.reduceEq, ↓reduceIte, mem_map_fst_handleMeterShortReg,
         mem_map_fst_handleMeterNormalReg, mem_map_fst_handleMeterLongReg,
         mem_map_fst_handleMeterDelayedNormal, mem_map_fst_handleMeterDelayedLong,
         mem_map_fst_handleMeterAscendingShort, mem_map_fst_handleMeterAscendingNormal,
         mem_map_fst_handleMeterTerminalShort, mem_map_fst_handleMeterAscendingLong,
         mem_map_fst_handleMeterTerminalNormal, mem_map_fst_handleMeterTerminalLong] at hx
       omega)

/-! ## Sequence encoder: variable-length delta times -/

/-- Setting the bit `0x80` of a seven-bit value adds 128. -/
theorem lor_continuation (b : Nat) (h : b < 128) : b ||| 0x80 = b + 128 := by
  interval_cases b <;> rfl

/-- The loop keeps the first byte pushed, and every byte pushed after it carries the
continuation bit. -/
theorem vlqLoop_flags (fuel : Nat) : ∀ (m : Int) (b0 : Nat) (t : List Nat),
    (∀ x ∈ t, 128 ≤ x ∧ x < 256) →
    ∃ t2, vlqLoop fuel m (b0 :: t) = b0 :: t2 ∧ ∀ x ∈ t2, 128 ≤ x ∧ x < 256 := by
  induction fuel with
  | zero => intro m b0 t ht; exact ⟨t, rfl, ht⟩
  | succ f ih =>
    intro m b0 t ht
    by_cases hm : m > 0
    · have hb : (m % 128).toNat < 128 := by omega
      obtain ⟨t2, h1, h2⟩ := ih (m / 128) b0 (t ++ [(m % 128).toNat + 128]) (by
        intro x hx
        rcases List.mem_append.mp hx with h | h
        · exact ht x h
        · simp at h; omega)
      refine ⟨t2, ?_, h2⟩
      simp only [vlqLoop, hm, if_true, ne_eq, List.cons_ne_nil, not_false_eq_true,
        lor_continuation _ hb]
      simpa using h1
    · exact ⟨t, by simp [vlqLoop, hm], ht⟩

/-- Decoding the bytes the loop pushed after the first one, which all carry the continuation
bit, accumulates the value the loop was entered with. -/
theorem decodeVlqFrom_vlqLoop (fuel : Nat) : ∀ (m : Int) (acc rest : List Nat),
    acc ≠ [] → 0 ≤ m → m.toNat ≤ fuel →
    decodeVlqFrom 0 ((vlqLoop fuel m acc).reverse ++ rest)
      = decodeVlqFrom m.toNat (acc.reverse ++ rest) := by
  induction fuel with
  | zero =>
    intro m acc rest _ h0 hf
    have : m = 0 := by omega
    subst this
    simp [vlqLoop]
  | succ f ih =>
    intro m acc rest hacc h0 hf
    by_cases hm : m > 0
    · have hb : (m % 128).toNat < 128 := by omega
      have h1 := ih (m / 128) (acc ++ [(m % 128).toNat + 128]) rest (by simp) (by omega)
        (by omega)
      simp only [vlqLoop, hm, if_true, ne_eq, hacc, not_false_eq_true,
        lor_continuation _ hb]
      rw [h1]
      simp only [List.reverse_append, List.reverse_cons, List.reverse_nil, List.nil_append,
        List.singleton_append, List.cons_append, decodeVlqFrom]
      have h2 : ¬ (m % 128).toNat + 128 < 128 := by omega
      have h3 : (m / 128).toNat * 128 + ((m % 128).toNat + 128 - 128) = m.toNat := by omega
      simp only [h2, if_false, h3]
    · have : m = 0 := by omega
      subst this
      simp [vlqLoop]

/-- Claim C20: the delta-time encoding of `convertToMidi` is a correct variable-length
quantity.  For every delta `n >= 0` the byte sequence is non-empty, every byte but the last
has the continuation bit `0x80` set (it lies in `[128, 256)`) and the last has it clear (it
is below 128), the standard big-endian seven-bit-group decoder applied to it, whatever bytes
follow, returns `n` and leaves those bytes, and `n = 0` encodes as the single byte `0x00`. -/
theorem encodeVlq_correct (n : Int) (hn : 0 ≤ n) :
    encodeVlq n ≠ [] ∧
      (∃ init last, encodeVlq n = init ++ [last] ∧ last < 128 ∧
        ∀ x ∈ init, 128 ≤ x ∧ x < 256) ∧
      (∀ rest, decodeVlq (encodeVlq n ++ rest) = some (n.toNat, rest)) ∧
      encodeVlq 0 = [0] := by
  by_cases h0 : n = 0
  · subst h0
    refine ⟨by decide, ⟨[], 0, by decide, by decide, by simp⟩, ?_, by decide⟩
    intro rest
    simp [encodeVlq, decodeVlq, decodeVlqFrom]
  · have hpos : n > 0 := by omega
    obtain ⟨f, hf⟩ : ∃ f, n.toNat = f + 1 := ⟨n.toNat - 1, by omega⟩
    have hb : (n % 128).toNat < 128 := by omega
    have hstep : vlqLoop (f + 1) n [] = vlqLoop f (n / 128) [(n % 128).toNat] := by
      simp [vlqLoop, hpos]
    have henc : encodeVlq n = (vlqLoop f (n / 128) [(n % 128).toNat]).reverse := by
      simp only [encodeVlq, h0, if_false, hf, hstep]
    obtain ⟨t2, h1, h2⟩ := vlqLoop_flags f (n / 128) (n % 128).toNat [] (by simp)
    have hshape : encodeVlq n = t2.reverse ++ [(n % 128).toNat] := by
      rw [henc, h1]; simp
    refine ⟨?_, ⟨t2.reverse, (n % 128).toNat, hshape, hb, ?_⟩, ?_, by decide⟩
    · rw [hshape]; simp
    · intro x hx
      exact h2 x (List.mem_reverse.mp hx)
    · intro rest
      have h3 := decodeVlqFrom_vlqLoop f (n / 128) [(n % 128).toNat] rest (by simp)
        (by omega) (by omega)
      rw [decodeVlq, henc, h3]
      simp only [List.reverse_cons, List.reverse_nil, List.nil_append, List.singleton_append,
        decodeVlqFrom, hb, if_true]
      have h4 : (n / 128).toNat * 128 + (n % 128).toNat = n.toNat := by omega
      rw [h4]
      rfl

/-- Witness of claim C20: the deltas 0, 127, 128, 16383, 16384 and 2097151 with their
encodings, each of which the decoder takes back to the delta. -/
theorem encodeVlq_correct_witness :
    (encodeVlq 0 = [0x00] ∧ encodeVlq 127 = [0x7F] ∧ encodeVlq 128 = [0x81, 0x00] ∧
      encodeVlq 16383 = [0xFF, 0x7F] ∧ encodeVlq 16384 = [0x81, 0x80, 0x00] ∧
      encodeVlq 2097151 = [0xFF, 0xFF, 0x7F]) ∧
    (decodeVlq (encodeVlq 0 ++ []) = some ((0 : Int).toNat, []) ∧
      decodeVlq (encodeVlq 127 ++ []) = some ((127 : Int).toNat, []) ∧
      decodeVlq (encodeVlq 128 ++ []) = some ((128 : Int).toNat, []) ∧
      decodeVlq (encodeVlq 16383 ++ []) = some ((16383 : Int).toNat, []) ∧
      decodeVlq (encodeVlq 16384 ++ []) = some ((16384 : Int).toNat, []) ∧
      decodeVlq (encodeVlq 2097151 ++ []) = some ((2097151 : Int).toNat, [])) :=
  ⟨by decide,
    (encodeVlq_correct 0 (by decide)).2.2.1 [],
    (encodeVlq_correct 127 (by decide)).2.2.1 [],
    (encodeVlq_correct 128 (by decide)).2.2.1 [],
    (encodeVlq_correct 16383 (by decide)).2.2.1 [],
    (encodeVlq_correct 16384 (by decide)).2.2.1 [],
    (encodeVlq_correct 2097151 (by decide)).2.2.1 []⟩

/-! ## Transformation engine -/

/-- Claim C13: a row whose trimmed label is not one of the 22 eligible labels is passed
through by `processFile` unaltered.  The loop body writes exactly one row for it, with the
same track, note name, duration and label and an empty variant field; it makes no random
call and leaves the application state, with `totalEligibleNotes`, `transformedNotes` and
`variantUsageCount`, as it was. -/
theorem processLine_ineligible (o : Oracle) (r : Run) (line : String) (track : Int)
    (noteName : String) (duration : Int) (rest : List Char)
    (hp : parseRow line = some (track, noteName, duration, rest))
    (hl : trimLabel rest ∉ eligibleLabels) :
    (processLine o r line).output
        = r.output ++ [renderRow track noteName duration (trimLabel rest) ""] ∧
      (processLine o r line).state = r.state ∧
      (processLine o r line).randCalls = r.randCalls ∧
      (processLine o r line).shuffleCalls = r.shuffleCalls := by
  simp [processLine, hp, hl]

/-- Witness of claim C13: the row `2 D4 240  XX`, ended by a carriage return, in a run that
would transform every eligible note. -/
theorem processLine_ineligible_witness :
    parseRow "2 D4 240  XX \r" = some (2, "D4", 240, [' ', ' ', 'X', 'X', ' ', '\r']) ∧
      trimLabel [' ', ' ', 'X', 'X', ' ', '\r'] ∉ eligibleLabels ∧
      (processLine (constOracle 32767 0) (startRun (initialState 100 []))
          "2 D4 240  XX \r").output
        = (startRun (initialState 100 [])).output
            ++ [renderRow 2 "D4" 240 (trimLabel [' ', ' ', 'X', 'X', ' ', '\r']) ""] ∧
      (processLine (constOracle 32767 0) (startRun (initialState 100 []))
          "2 D4 240  XX \r").state
        = (startRun (initialState 100 [])).state ∧
      (processLine (constOracle 32767 0) (startRun (initialState 100 []))
          "2 D4 240  XX \r").randCalls
        = (startRun (initialState 100 [])).randCalls ∧
      (processLine (constOracle 32767 0) (startRun (initialState 100 []))
          "2 D4 240  XX \r").shuffleCalls
        = (startRun (initialState 100 [])).shuffleCalls :=
  ⟨by decide, by decide,
    processLine_ineligible (constOracle 32767 0) (startRun (initialState 100 []))
      "2 D4 240  XX \r" 2 "D4" 240 [' ', ' ', 'X', 'X', ' ', '\r'] (by decide) (by decide)⟩

/-- With the percentage 0 no value of `rand()` makes `shouldTransformLabel` true. -/
theorem shouldTransformLabel_zero (RAND_MAX r : Nat) :
    shouldTransformLabel RAND_MAX r 0 = false := by
  simp only [shouldTransformLabel, decide_eq_false_iff_not, not_lt]
  positivity

/-- With the percentage 100 `shouldTransformLabel` is true exactly for the values of
`rand()` below `RAND_MAX`. -/
theorem shouldTransformLabel_hundred (RAND_MAX r : Nat) (h0 : 0 < RAND_MAX)
    (hr : r ≤ RAND_MAX) : shouldTransformLabel RAND_MAX r 100 = true ↔ r < RAND_MAX := by
  have hpos : (0 : ℚ) < (RAND_MAX : ℚ) := by exact_mod_cast h0
  simp only [shouldTransformLabel, decide_eq_true_eq]
  rw [div_mul_eq_mul_div, div_lt_iff₀ hpos]
  constructor
  · intro h
    have h2 : (r : ℚ) < (RAND_MAX : ℚ) := by linarith
    exact_mod_cast h2
  · intro h
    have h2 : (r : ℚ) < (RAND_MAX : ℚ) := by exact_mod_cast h
    linarith

/-- The choice of a variant changes nothing of the application state. -/
theorem selectVariant_state (o : Oracle) (r : Run) : (selectVariant o r).2.state = r.state := by
  unfold selectVariant
  split <;> rfl

/-- The `try` block of `processFile` leaves the percentage, the selection and the two note
counters as they are. -/
theorem transformNote_frame (o : Oracle) (r : Run) (track : Int) (noteName : String)
    (duration : Int) (label : String) :
    (transformNote o r track noteName duration label).state.transformationPercentage
        = r.state.transformationPercentage ∧
      (transformNote o r track noteName duration label).state.selectedVariants
        = r.state.selectedVariants ∧
      (transformNote o r track noteName duration label).state.totalEligibleNotes
        = r.state.totalEligibleNotes ∧
      (transformNote o r track noteName duration label).state.transformedNotes
        = r.state.transformedNotes := by
  cases h1 : getNoteNumber noteName with
  | error e => simp [transformNote, h1, catchException]
  | ok noteIndex =>
    simp only [transformNote, h1]
    split <;> simp [catchException, selectVariant_state]

/-- What the loop body of `processFile` does to the percentage, the selection and the two
note counters: an eligible row adds one to `totalEligibleNotes`, and one to
`transformedNotes` when `shouldTransformLabel` answers yes to the next value of `rand()`. -/
theorem processLine_counters (o : Oracle) (r : Run) (line : String) :
    (processLine o r line).state.transformationPercentage = r.state.transformationPercentage ∧
      (processLine o r line).state.selectedVariants = r.state.selectedVariants ∧
      ((processLine o r line).state.totalEligibleNotes = r.state.totalEligibleNotes ∧
          (processLine o r line).state.transformedNotes = r.state.transformedNotes ∨
        (processLine o r line).state.totalEligibleNotes = r.state.totalEligibleNotes + 1 ∧
          (processLine o r line).state.transformedNotes = r.state.transformedNotes
            + (if shouldTransformLabel o.RAND_MAX (o.rand r.randCalls)
                r.state.transformationPercentage then 1 else 0)) := by
  cases hp : parseRow line with
  | none => simp [processLine, hp]
  | some q =>
    obtain ⟨track, noteName, duration, rest⟩ := q
    by_cases hl : trimLabel rest ∈ eligibleLabels
    · by_cases hs : shouldTransformLabel o.RAND_MAX (o.rand r.randCalls)
          r.state.transformationPercentage = true
      · simp [processLine, hp, hl, hs, transformNote_frame]
      · simp [processLine, hp, hl, hs]
    · simp [processLine, hp, hl]

/-! ### The loop body of `processFile`, case by case -/

/-- A line from which the three values cannot be extracted is copied to the output. -/
theorem processLine_of_parse_none (o : Oracle) (r : Run) (line : String)
    (hp : parseRow line = none) :
    processLine o r line = { r with output := r.output ++ [line] } := by
  simp [processLine, hp]

/-- A row with a label that is not eligible is written back with an empty variant field. -/
theorem processLine_of_not_eligible (o : Oracle) (r : Run) (line : String) (track : Int)
    (noteName : String) (duration : Int) (rest : List Char)
    (hp : parseRow line = some (track, noteName, duration, rest))
    (hl : trimLabel rest ∉ eligibleLabels) :
    processLine o r line
      = { r with output := r.output ++ [renderRow track noteName duration (trimLabel rest) ""] } := by
  simp [processLine, hp, hl]

/-- An eligible row that `shouldTransformLabel` does not choose is written back with the
marker `ORIGINAL`; one value of `rand()` is used. -/
theorem processLine_of_not_selected (o : Oracle) (r : Run) (line : String) (track : Int)
    (noteName : String) (duration : Int) (rest : List Char)
    (hp : parseRow line = some (track, noteName, duration, rest))
    (hl : trimLabel rest ∈ eligibleLabels)
    (hs : shouldTransformLabel o.RAND_MAX (o.rand r.randCalls)
      r.state.transformationPercentage = false) :
    processLine o r line
      = { state := { r.state with totalEligibleNotes := r.state.totalEligibleNotes + 1 }
          output := r.output
            ++ [renderRow track noteName duration (trimLabel rest) "ORIGINAL"]
          randCalls := r.randCalls + 1
          shuffleCalls := r.shuffleCalls } := by
  simp [processLine, hp, hl, hs]

/-- An eligible row that `shouldTransformLabel` chooses goes through the `try` block, both
counters raised. -/
theorem processLine_of_selected (o : Oracle) (r : Run) (line : String) (track : Int)
    (noteName : String) (duration : Int) (rest : List Char)
    (hp : parseRow line = some (track, noteName, duration, rest))
    (hl : trimLabel rest ∈ eligibleLabels)
    (hs : shouldTransformLabel o.RAND_MAX (o.rand r.randCalls)
      r.state.transformationPercentage = true) :
    processLine o r line
      = transformNote o
          { state := { r.state with
              totalEligibleNotes := r.state.totalEligibleNotes + 1
              transformedNotes := r.state.transformedNotes + 1 }
            output := r.output
            randCalls := r.randCalls + 1
            shuffleCalls := r.shuffleCalls }
          track noteName duration (trimLabel rest) := by
  simp [processLine, hp, hl, hs]

/-- When `getNoteNumber` throws, the `try` block writes no row: the handler appends its
message to `statusMessage` and that is all. -/
theorem transformNote_of_getNoteNumber_error (o : Oracle) (r : Run) (track : Int)
    (noteName : String) (duration : Int) (label : String) (e : Exn)
    (h : getNoteNumber noteName = .error e) :
    transformNote o r track noteName duration label = catchException r noteName e := by
  simp [transformNote, h]

/-! ### The two end points of the percentage -/

/-- The loop of `processFile` keeps the percentage. -/
theorem processLines_percentage (o : Oracle) (lines : List String) : ∀ r : Run,
    (processLines o r lines).state.transformationPercentage
      = r.state.transformationPercentage := by
  induction lines with
  | nil => intro r; rfl
  | cons l ls ih =>
    intro r
    simp only [processLines, List.foldl_cons] at ih ⊢
    rw [ih, (processLine_counters o r l).1]

/-- With the percentage 0 the loop of `processFile` transforms no note. -/
theorem processLines_percentage_zero (o : Oracle) (lines : List String) : ∀ r : Run,
    r.state.transformationPercentage = 0 →
    (processLines o r lines).state.transformedNotes = r.state.transformedNotes := by
  induction lines with
  | nil => intro r _; rfl
  | cons l ls ih =>
    intro r h
    simp only [processLines, List.foldl_cons] at ih ⊢
    obtain ⟨h1, -, h2⟩ := processLine_counters o r l
    rw [ih _ (h1.trans h)]
    rcases h2 with h2 | h2
    · exact h2.2
    · rw [h2.2, h, shouldTransformLabel_zero]
      simp

/-- With the percentage 0 `processFile` ends with `transformedNotes = 0`. -/
theorem processFile_percentage_zero (o : Oracle) (lines : List String) (state : AppState)
    (h : state.transformationPercentage = 0) :
    (processFile o (some lines) true state).state.transformedNotes = 0 := by
  simp only [processFile]
  exact processLines_percentage_zero o lines _ h

/-- With the percentage 100 and every value of `rand()` below `RAND_MAX`, the loop of
`processFile` transforms every eligible note: the two counters rise together. -/
theorem processLines_percentage_hundred (o : Oracle) (h0 : 0 < o.RAND_MAX)
    (hr : ∀ n, o.rand n < o.RAND_MAX) (lines : List String) : ∀ r : Run,
    r.state.transformationPercentage = 100 →
    (processLines o r lines).state.transformedNotes - r.state.transformedNotes
      = (processLines o r lines).state.totalEligibleNotes - r.state.totalEligibleNotes := by
  induction lines with
  | nil => intro r _; simp [processLines]
  | cons l ls ih =>
    intro r h
    simp only [processLines, List.foldl_cons] at ih ⊢
    obtain ⟨h1, -, h2⟩ := processLine_counters o r l
    have h3 := ih _ (h1.trans h)
    have hs : shouldTransformLabel o.RAND_MAX (o.rand r.randCalls) 100 = true :=
      (shouldTransformLabel_hundred _ _ h0 (hr _).le).mpr (hr _)
    rw [h, hs] at h2
    rcases h2 with h2 | h2
    · rw [h2.1, h2.2] at h3
      exact h3
    · rw [h2.1, h2.2] at h3
      simp only [if_true] at h3
      omega

/-! ### The claims on the percentage, on parse failures and on the choice of a variant -/

/-- Claim C14, the code at the failing input: when `rand()` returns `RAND_MAX` (here
2147483647) the random value is exactly 100, which is not below the percentage 100, so
`shouldTransformLabel(100)` is false; `processFile` then leaves the one eligible note of the
file untransformed and ends with `transformedNotes = 0` and `totalEligibleNotes = 1`. -/
theorem shouldTransformLabel_hundred_false_at_RAND_MAX :
    shouldTransformLabel 2147483647 2147483647 100 = false ∧
      (processFile (constOracle 2147483647 2147483647) (some ["1 C4 480 RLN"]) true
        (initialState 100 [])).state.totalEligibleNotes = 1 ∧
      (processFile (constOracle 2147483647 2147483647) (some ["1 C4 480 RLN"]) true
        (initialState 100 [])).state.transformedNotes = 0 ∧
      (processFile (constOracle 2147483647 2147483647) (some ["1 C4 480 RLN"]) true
        (initialState 100 [])).output = headerRows ++ [renderRow 1 "C4" 480 "RLN" "ORIGINAL"] := by
  have hs : shouldTransformLabel 2147483647 2147483647 100 = false :=
    Bool.eq_false_iff.mpr (fun h =>
      absurd ((shouldTransformLabel_hundred 2147483647 2147483647 (by decide) (by decide)).mp h)
        (by decide))
  refine ⟨hs, ?_⟩
  simp only [processFile, processLines, List.foldl_cons, List.foldl_nil]
  rw [processLine_of_not_selected (constOracle 2147483647 2147483647)
    (startRun (initialState 100 [])) "1 C4 480 RLN" 1 "C4" 480 [' ', 'R', 'L', 'N']
    (by decide) (by decide) hs]
  exact ⟨by decide, by decide, by decide⟩

/-- Claim C15, the code at the failing input: the eligible row `1 H4 480 RLN`, chosen for a
transformation, has a note name that `getNoteNumber` rejects.  `processFile` writes no row at
all for it, neither the original one nor any other, though it has counted the note as
transformed; it does go on with the next row, `1 C4 480 XX`, which is written. -/
theorem processFile_drops_unparsable_note :
    getNoteNumber "H4" = .error (.invalid_argument "Invalid note name: H4") ∧
      (processFile (constOracle 32767 0) (some ["1 H4 480 RLN", "1 C4 480 XX"]) true
        (initialState 100 ["BTrRs1"])).output = headerRows ++ [renderRow 1 "C4" 480 "XX" ""] ∧
      (processFile (constOracle 32767 0) (some ["1 H4 480 RLN", "1 C4 480 XX"]) true
        (initialState 100 ["BTrRs1"])).state.transformedNotes = 1 := by
  have hs : shouldTransformLabel 32767 0 100 = true :=
    (shouldTransformLabel_hundred 32767 0 (by decide) (by decide)).mpr (by decide)
  refine ⟨by decide, ?_⟩
  simp only [processFile, processLines, List.foldl_cons, List.foldl_nil]
  rw [processLine_of_selected (constOracle 32767 0) (startRun (initialState 100 ["BTrRs1"]))
      "1 H4 480 RLN" 1 "H4" 480 [' ', 'R', 'L', 'N'] (by decide) (by decide) hs,
    transformNote_of_getNoteNumber_error (constOracle 32767 0) _ 1 "H4" 480 _
      (.invalid_argument "Invalid note name: H4") (by decide),
    processLine_of_not_eligible (constOracle 32767 0) _ "1 C4 480 XX" 1 "C4" 480
      [' ', 'X', 'X'] (by decide) (by decide)]
  exact ⟨by decide, by decide⟩

/-- Claim C16, the code at the failing input: while the loop of `processFile` runs, the
handler does append `Error processing note 'H4': ...` to `statusMessage`; but the last
statements of `processFile` assign `statusMessage = "Processing complete!"`, so that after
`processFile` returns the message names no note. -/
theorem processFile_overwrites_statusMessage :
    (processLines (constOracle 32767 0) (startRun (initialState 100 ["BTrRs1"]))
        ["1 H4 480 RLN", "1 C4 480 XX"]).state.statusMessage
        = "Error processing note 'H4': Invalid note name: H4\n" ∧
      (processFile (constOracle 32767 0) (some ["1 H4 480 RLN", "1 C4 480 XX"]) true
        (initialState 100 ["BTrRs1"])).state.statusMessage = "Processing complete!" := by
  have hs : shouldTransformLabel 32767 0 100 = true :=
    (shouldTransformLabel_hundred 32767 0 (by decide) (by decide)).mpr (by decide)
  refine ⟨?_, rfl⟩
  simp only [processLines, List.foldl_cons, List.foldl_nil]
  rw [processLine_of_selected (constOracle 32767 0) (startRun (initialState 100 ["BTrRs1"]))
      "1 H4 480 RLN" 1 "H4" 480 [' ', 'R', 'L', 'N'] (by decide) (by decide) hs,
    transformNote_of_getNoteNumber_error (constOracle 32767 0) _ 1 "H4" 480 _
      (.invalid_argument "Invalid note name: H4") (by decide),
    processLine_of_not_eligible (constOracle 32767 0) _ "1 C4 480 XX" 1 "C4" 480
      [' ', 'X', 'X'] (by decide) (by decide)]
  decide

/-- The pool that `generateRandomTrillVariantPool(100)` returns is the whole shuffled
vector. -/
theorem generateRandomTrillVariantPool_hundred (shuffled : List TrillVariant)
    (h : shuffled.Perm allVariants) :
    generateRandomTrillVariantPool shuffled 100 = shuffled := by
  have hl : shuffled.length = 56 := by rw [h.length_eq]; decide
  simp [generateRandomTrillVariantPool, hl]

/-- Claim C17 (variant selection): for every random draw, when `selectedVariants` is empty or
is exactly the single sentinel `RANDOM`, the pool returned by
`generateRandomTrillVariantPool(100)` is a permutation of the whole catalog, the index
`rand() % size` is in bounds, and the variant chosen is a code of the catalog; otherwise the
index is in bounds of `selectedVariants` and the variant chosen is one of its elements. -/
theorem selectVariant_mem (o : Oracle) (ho : o.Valid) (r : Run) :
    (r.state.selectedVariants = [] ∨ r.state.selectedVariants = ["RANDOM"] →
        (generateRandomTrillVariantPool (o.shuffle r.shuffleCalls) 100).Perm allVariants ∧
        o.rand r.randCalls % (generateRandomTrillVariantPool (o.shuffle r.shuffleCalls) 100).length
          < (generateRandomTrillVariantPool (o.shuffle r.shuffleCalls) 100).length ∧
        (selectVariant o r).1 ∈ catalogCodes) ∧
      (¬ (r.state.selectedVariants = [] ∨ r.state.selectedVariants = ["RANDOM"]) →
        o.rand r.randCalls % r.state.selectedVariants.length < r.state.selectedVariants.length ∧
        (selectVariant o r).1 ∈ r.state.selectedVariants) := by
  have hcond : (r.state.selectedVariants = [] ∨
      (r.state.selectedVariants.length = 1 ∧ r.state.selectedVariants[0]? = some "RANDOM"))
      ↔ (r.state.selectedVariants = [] ∨ r.state.selectedVariants = ["RANDOM"]) := by
    rcases hsv : r.state.selectedVariants with _ | ⟨a, _ | ⟨b, t⟩⟩ <;> simp
  constructor
  · intro h
    have hperm := ho.shuffle_perm r.shuffleCalls
    have hpool := generateRandomTrillVariantPool_hundred _ hperm
    have hlen : (o.shuffle r.shuffleCalls).length = 56 := by rw [hperm.length_eq]; decide
    have hidx : o.rand r.randCalls % (o.shuffle r.shuffleCalls).length
        < (o.shuffle r.shuffleCalls).length := Nat.mod_lt _ (by omega)
    refine ⟨by rw [hpool]; exact hperm, by rw [hpool]; exact hidx, ?_⟩
    simp only [selectVariant, hcond.mpr h, if_true, hpool]
    rw [List.getD_eq_getElem _ _ hidx]
    exact List.mem_map_of_mem _ (hperm.subset (List.getElem_mem _))
  · intro h
    have hne : r.state.selectedVariants ≠ [] := fun hn => h (Or.inl hn)
    have hidx : o.rand r.randCalls % r.state.selectedVariants.length
        < r.state.selectedVariants.length :=
      Nat.mod_lt _ (List.length_pos.mpr hne)
    refine ⟨hidx, ?_⟩
    simp only [selectVariant, mt hcond.mp h, if_false]
    rw [List.getD_eq_getElem _ _ hidx]
    exact List.getElem_mem _

/-- Witness of claim C17: a valid oracle whose draws are all 59, with the selection
`RANDOM` in a first run and a selection of three codes in a second. -/
theorem selectVariant_mem_witness :
    (constOracle 32767 59).Valid ∧
      (selectVariant (constOracle 32767 59) (startRun (initialState 50 ["RANDOM"]))).1
        ∈ catalogCodes ∧
      (selectVariant (constOracle 32767 59)
          (startRun (initialState 50 ["BTrRs1", "CTrAl5", "BTrTn1"]))).1
        ∈ ["BTrRs1", "CTrAl5", "BTrTn1"] :=
  have hv : (constOracle 32767 59).Valid :=
    ⟨by decide, fun _ => show (59 : Nat) ≤ 32767 by decide, fun _ => List.Perm.refl _⟩
  ⟨hv,
    ((selectVariant_mem (constOracle 32767 59) hv
      (startRun (initialState 50 ["RANDOM"]))).1 (Or.inr rfl)).2.2,
    ((selectVariant_mem (constOracle 32767 59) hv
      (startRun (initialState 50 ["BTrRs1", "CTrAl5", "BTrTn1"]))).2 (by decide)).2⟩

/-! ## Sequence encoder: the timeline -/

/-- Reading a `std::map` after an assignment. -/
theorem mapFind_mapSet {α : Type} (m : List (Int × α)) (key : Int) (value : α) (k2 : Int) :
    mapFind (mapSet m key value) k2 = if k2 = key then some value else mapFind m k2 := by
  induction m with
  | nil => simp [mapSet, mapFind]
  | cons kv rest ih =>
    obtain ⟨k, v⟩ := kv
    by_cases h1 : key = k
    · subst h1
      by_cases h2 : k2 = key <;> simp [mapSet, mapFind, h2]
    · by_cases h3 : key < k
      · by_cases h2 : k2 = key <;> simp [mapSet, mapFind, h1, h3, h2]
      · by_cases h2 : k2 = key
        · subst h2
          simp [mapSet, mapFind, h1, h3, ih]
        · simp [mapSet, mapFind, h1, h3, ih, h2]

/-- The comparison `eventLess`, spelled out. -/
theorem eventLess_iff (a b : MidiEvent) :
    eventLess a b = true ↔ a.startTime < b.startTime ∨
      (a.startTime = b.startTime ∧ a.isNoteOn = false ∧ b.isNoteOn = true) := by
  simp [eventLess, and_assoc]

/-- No event comes before another in both directions. -/
theorem eventLe_total (a b : MidiEvent) : eventLe a b ∨ eventLe b a := by
  simp only [eventLe, ← Bool.not_eq_true, eventLess_iff]
  cases a.isNoteOn <;> cases b.isNoteOn <;> simp <;> omega

/-- The order `eventLe` is transitive. -/
theorem eventLe_trans (a b c : MidiEvent) (h1 : eventLe a b) (h2 : eventLe b c) :
    eventLe a c := by
  simp only [eventLe, ← Bool.not_eq_true, eventLess_iff] at h1 h2 ⊢
  revert h1 h2
  cases a.isNoteOn <;> cases b.isNoteOn <;> cases c.isNoteOn <;> simp <;> omega

/-- The insertion sort is a sorting procedure in the sense of `std::sort`. -/
theorem sortEvents_isSorted (events : List MidiEvent) :
    IsSortedEvents events (sortEvents events) := by
  haveI : IsTotal MidiEvent eventLe := ⟨eventLe_total⟩
  haveI : IsTrans MidiEvent eventLe := ⟨eventLe_trans⟩
  exact ⟨List.perm_insertionSort eventLe events, List.sorted_insertionSort eventLe events⟩

/-- A list in which every event comes strictly before the later ones has one sorted
arrangement only: itself. -/
theorem eq_of_isSortedEvents_of_strict (events sorted : List MidiEvent)
    (hs : events.Pairwise (fun a b => eventLess a b = true))
    (h : IsSortedEvents events sorted) : sorted = events := by
  obtain ⟨hp, hs2⟩ := h
  induction events generalizing sorted with
  | nil => exact hp.eq_nil
  | cons a t ih =>
    cases sorted with
    | nil => exact absurd hp.symm.eq_nil (by simp)
    | cons x t2 =>
      have hx : x = a := by
        by_contra hne
        have hxt : x ∈ t :=
          (List.mem_cons.mp (hp.subset (List.mem_cons_self _ _))).resolve_left hne
        have hat : a ∈ t2 :=
          (List.mem_cons.mp (hp.symm.subset (List.mem_cons_self _ _))).resolve_left
            (Ne.symm hne)
        have h1 := (List.pairwise_cons.mp hs).1 x hxt
        have h2 : eventLess a x = false := (List.pairwise_cons.mp hs2).1 a hat
        rw [h1] at h2
        exact Bool.noConfusion h2
      subst hx
      rw [ih t2 (List.pairwise_cons.mp hs).2 (List.Perm.cons_inv hp)
        (List.pairwise_cons.mp hs2).2]

/-- The timeline of a track grows at its end by the two events of a new note. -/
theorem timeline_append (track : Int) (notes : List (Int × Int)) (pitch d : Int) :
    ∀ start, timeline track start (notes ++ [(pitch, d)])
      = timeline track start notes
        ++ [⟨track, pitch, start + (notes.map Prod.snd).sum, d, true⟩,
            ⟨track, pitch, start + (notes.map Prod.snd).sum + d, 0, false⟩] := by
  induction notes with
  | nil => intro start; simp [timeline]
  | cons n rest ih =>
    intro start
    obtain ⟨p, d1⟩ := n
    show timeline track start ((p, d1) :: (rest ++ [(pitch, d)])) = _
    simp only [timeline, ih, List.map_cons, List.sum_cons, List.cons_append, add_assoc]

/-- In a timeline of notes with positive durations an event lies at the start tick or
later, and only a note-on event lies at the start tick. -/
theorem timeline_startTime (track : Int) (notes : List (Int × Int))
    (hpos : ∀ n ∈ notes, 0 < n.2) : ∀ start, ∀ e ∈ timeline track start notes,
      start ≤ e.startTime ∧ (e.startTime = start → e.isNoteOn = true) := by
  induction notes with
  | nil => intro start e he; simp [timeline] at he
  | cons n rest ih =>
    intro start e he
    obtain ⟨p, d⟩ := n
    have hd : 0 < d := hpos (p, d) (List.mem_cons_self _ _)
    simp only [timeline, List.mem_cons] at he
    rcases he with he | he | he
    · subst he; simp
    · subst he
      simp
      omega
    · have h := ih (fun n hn => hpos n (List.mem_cons_of_mem _ hn)) (start + d) e he
      constructor
      · omega
      · intro h2
        omega

/-- In a timeline of notes with positive durations every event comes strictly before every
later one: the ticks rise, and at a shared tick the note-off comes first. -/
theorem timeline_strict (track : Int) (notes : List (Int × Int))
    (hpos : ∀ n ∈ notes, 0 < n.2) : ∀ start,
      (timeline track start notes).Pairwise (fun a b => eventLess a b = true) := by
  induction notes with
  | nil => intro start; simp [timeline]
  | cons n rest ih =>
    intro start
    obtain ⟨p, d⟩ := n
    have hd : 0 < d := hpos (p, d) (List.mem_cons_self _ _)
    have hrest : ∀ n ∈ rest, 0 < n.2 := fun n hn => hpos n (List.mem_cons_of_mem _ hn)
    simp only [timeline, List.pairwise_cons, List.mem_cons]
    refine ⟨?_, ?_, ih hrest (start + d)⟩
    · intro b hb
      rw [eventLess_iff]
      rcases hb with hb | hb
      · subst hb; left; simp; omega
      · have h := (timeline_startTime track rest hrest (start + d) b hb).1
        left
        show start < b.startTime
        omega
    · intro b hb
      rw [eventLess_iff]
      obtain ⟨h1, h2⟩ := timeline_startTime track rest hrest (start + d) b hb
      by_cases h3 : b.startTime = start + d
      · right
        exact ⟨h3.symm, rfl, h2 h3⟩
      · left
        show start + d < b.startTime
        omega

/-- The records of a track after one more record. -/
theorem notesOfTrack_append_singleton (t : Int) (done : List (Int × Int × Int))
    (rec : Int × Int × Int) :
    notesOfTrack t (done ++ [rec])
      = if rec.1 = t then notesOfTrack t done ++ [rec.2] else notesOfTrack t done := by
  by_cases h : rec.1 = t <;> simp [notesOfTrack, List.filter_append, List.filter_cons, h]

/-- Adding a note keeps the maps in step with the records. -/
theorem addNote_holdsTimeline (c : Collected) (done : List (Int × Int × Int))
    (track pitch d : Int) (h : HoldsTimeline c done) :
    HoldsTimeline (addNote c track pitch d) (done ++ [(track, pitch, d)]) := by
  intro t
  obtain ⟨he, hp⟩ := h t
  obtain ⟨he2, hp2⟩ := h track
  have hget : (mapFind c.trackEvents track).getD []
      = timeline track 0 (notesOfTrack track done) := by
    rw [he2]
    by_cases hn : notesOfTrack track done = []
    · simp [hn, timeline]
    · simp [hn]
  simp only [addNote, mapFind_mapSet, notesOfTrack_append_singleton]
  by_cases ht : t = track
  · subst ht
    simp only [if_true, hget, hp2, List.append_assoc, List.singleton_append]
    refine ⟨?_, ?_⟩
    · simp [timeline_append]
    · simp
  · have ht2 : ¬ track = t := fun h => ht h.symm
    simp only [ht, ht2, if_false]
    exact ⟨he, hp⟩

/-- The reading loop of `convertToMidi` builds the timeline of the records it reads. -/
theorem foldl_collectLine_holdsTimeline (lines : List String)
    (records : List (Int × Int × Int))
    (hrec : List.Forall₂ (fun line rec => ∃ name,
      readNoteLine line = some (rec.1, name, rec.2.2) ∧ getNoteNumber name = .ok rec.2.1)
      lines records) :
    ∀ (c : Collected) (done : List (Int × Int × Int)), HoldsTimeline c done →
      HoldsTimeline (lines.foldl collectLine c) (done ++ records) := by
  induction lines generalizing records with
  | nil =>
    intro c done h
    rw [List.forall₂_nil_left_iff.mp hrec]
    simpa using h
  | cons line lines ih =>
    intro c done h
    obtain ⟨rec, recs, hhead, htail, rfl⟩ := List.forall₂_cons_left_iff.mp hrec
    obtain ⟨name, h1, h2⟩ := hhead
    have hstep : collectLine c line = addNote c rec.1 rec.2.1 rec.2.2 := by
      simp [collectLine, h1, h2]
    have h3 := ih recs htail (collectLine c line) (done ++ [rec]) (by
      rw [hstep]
      exact addNote_holdsTimeline c done rec.1 rec.2.1 rec.2.2 h)
    simpa [List.foldl_cons, List.append_assoc] using h3

/-- Claim C18 (timeline construction and ordering): for every list of parseable note rows
with positive durations, for each track with durations `d1 .. dn` in arrival order,
`convertToMidi` collects for that track exactly the timeline
`[on@S0, off@S1, on@S1, off@S2, ..., on@S(n-1), off@Sn]` of the prefix sums, the `i`-th pair
with the pitch of the `i`-th note, and sorting leaves it so: it is the only arrangement that
`std::sort` may return, so at each shared tick the note-off comes before the note-on.  A
track without notes has no events. -/
theorem convertToMidi_timeline (lines : List String) (records : List (Int × Int × Int))
    (msg : String) (track : Int)
    (hrec : List.Forall₂ (fun line rec => ∃ name,
      readNoteLine line = some (rec.1, name, rec.2.2) ∧ getNoteNumber name = .ok rec.2.1)
      (lines.drop 2) records)
    (hpos : ∀ rec ∈ records, 0 < rec.2.2) :
    mapFind (collectEvents lines msg).trackEvents track
        = (if notesOfTrack track records = [] then none
            else some (timeline track 0 (notesOfTrack track records))) ∧
      sortEvents (timeline track 0 (notesOfTrack track records))
        = timeline track 0 (notesOfTrack track records) ∧
      ∀ sorted, IsSortedEvents (timeline track 0 (notesOfTrack track records)) sorted →
        sorted = timeline track 0 (notesOfTrack track records) := by
  have h0 : HoldsTimeline ⟨[], [], msg⟩ [] := by
    intro t
    simp [mapFind, notesOfTrack]
  have h1 := foldl_collectLine_holdsTimeline (lines.drop 2) records hrec _ _ h0 track
  have hnotes : ∀ n ∈ notesOfTrack track records, 0 < n.2 := by
    intro n hn
    simp only [notesOfTrack, List.mem_map, List.mem_filter] at hn
    obtain ⟨rec, ⟨hmem, -⟩, rfl⟩ := hn
    exact hpos rec hmem
  have hstrict := timeline_strict track (notesOfTrack track records) hnotes 0
  have huniq : ∀ sorted, IsSortedEvents (timeline track 0 (notesOfTrack track records)) sorted →
      sorted = timeline track 0 (notesOfTrack track records) :=
    fun sorted h => eq_of_isSortedEvents_of_strict _ sorted hstrict h
  refine ⟨?_, huniq _ (sortEvents_isSorted _), huniq⟩
  simpa [collectEvents] using h1.1

/-- Witness of claim C18: two notes on track 1 with the durations 480 and 240, after the two
header lines; the sorted events are `[on@0, off@480, on@480, off@720]`. -/
theorem convertToMidi_timeline_witness :
    (∀ rec ∈ [((1 : Int), (60 : Int), (480 : Int)), (1, 62, 240)], 0 < rec.2.2) ∧
      (mapFind (collectEvents ["Track Note Duration", "---", "1 C4 480", "1 D4 240"]
          "").trackEvents 1
        = (if notesOfTrack 1 [(1, 60, 480), (1, 62, 240)] = [] then none
            else some (timeline 1 0 (notesOfTrack 1 [(1, 60, 480), (1, 62, 240)]))) ∧
      sortEvents (timeline 1 0 (notesOfTrack 1 [(1, 60, 480), (1, 62, 240)]))
        = timeline 1 0 (notesOfTrack 1 [(1, 60, 480), (1, 62, 240)]) ∧
      ∀ sorted,
        IsSortedEvents (timeline 1 0 (notesOfTrack 1 [(1, 60, 480), (1, 62, 240)])) sorted →
        sorted = timeline 1 0 (notesOfTrack 1 [(1, 60, 480), (1, 62, 240)])) ∧
      timeline 1 0 (notesOfTrack 1 [(1, 60, 480), (1, 62, 240)])
        = [⟨1, 60, 0, 480, true⟩, ⟨1, 60, 480, 0, false⟩, ⟨1, 62, 480, 240, true⟩,
            ⟨1, 62, 720, 0, false⟩] :=
  ⟨by decide,
    convertToMidi_timeline ["Track Note Duration", "---", "1 C4 480", "1 D4 240"]
      [(1, 60, 480), (1, 62, 240)] "" 1
      (List.Forall₂.cons ⟨"C4", by decide, by decide⟩
        (List.Forall₂.cons ⟨"D4", by decide, by decide⟩ List.Forall₂.nil))
      (by decide),
    by decide⟩

/-- Adding a note whose duration is not negative keeps the maps monotone. -/
theorem addNote_ticksMonotone (c : Collected) (track pitch d : Int) (h : TicksMonotone c)
    (hd : 0 ≤ d) : TicksMonotone (addNote c track pitch d) := by
  intro t
  obtain ⟨hp, he⟩ := h t
  simp only [addNote, mapFind_mapSet]
  by_cases ht : t = track
  · subst ht
    simp only [if_true, Option.getD_some, Option.some.injEq]
    refine ⟨by omega, ?_⟩
    intro evs hevs
    subst hevs
    have hold : (∀ e ∈ (mapFind c.trackEvents t).getD [],
        0 ≤ e.startTime ∧ e.startTime ≤ (mapFind c.trackPositions t).getD 0) ∧
        ((mapFind c.trackEvents t).getD []).Pairwise
          (fun a b => a.startTime ≤ b.startTime) := by
      cases hf : mapFind c.trackEvents t with
      | none => simp
      | some evs0 => simpa using he evs0 hf
    obtain ⟨h1, h2⟩ := hold
    constructor
    · intro e hmem
      simp only [List.append_assoc, List.mem_append, List.mem_singleton] at hmem
      rcases hmem with hmem | hmem | hmem
      · have := h1 e hmem
        omega
      · subst hmem
        simp
        omega
      · subst hmem
        simp
        omega
    · simp only [List.append_assoc, List.singleton_append]
      rw [List.pairwise_append]
      refine ⟨h2, ?_, ?_⟩
      · simp
        omega
      · intro a ha b hb
        have := h1 a ha
        simp only [List.mem_cons, List.mem_singleton, List.not_mem_nil, or_false] at hb
        rcases hb with hb | hb
        · subst hb
          simp
          omega
        · subst hb
          simp
          omega
  · simp only [ht, if_false]
    exact ⟨hp, he⟩

/-- The reading loop of `convertToMidi` keeps the maps monotone when no row it reads has a
negative duration. -/
theorem foldl_collectLine_ticksMonotone (lines : List String)
    (hd : ∀ line ∈ lines, ∀ t n d, readNoteLine line = some (t, n, d) → 0 ≤ d) :
    ∀ c : Collected, TicksMonotone c → TicksMonotone (lines.foldl collectLine c) := by
  induction lines with
  | nil => intro c h; exact h
  | cons line lines ih =>
    intro c h
    simp only [List.foldl_cons]
    apply ih (fun l hl => hd l (List.mem_cons_of_mem _ hl))
    cases h1 : readNoteLine line with
    | none =>
      simp only [collectLine, h1]
      exact h
    | some q =>
      obtain ⟨t, n, d⟩ := q
      have hd0 : 0 ≤ d := hd line (List.mem_cons_self _ _) t n d h1
      cases h2 : getNoteNumber n with
      | ok p =>
        simp only [collectLine, h1, h2]
        exact addNote_ticksMonotone c t p d h hd0
      | error e =>
        simp only [collectLine, h1, h2]
        exact h

/-- An event that `std::sort` may leave before another does not start later. -/
theorem startTime_le_of_eventLe (a b : MidiEvent) (h : eventLe a b) :
    a.startTime ≤ b.startTime := by
  by_contra hlt
  have h2 : eventLess b a = true := (eventLess_iff b a).mpr (Or.inl (by omega))
  rw [eventLe, h2] at h
  exact Bool.noConfusion h

/-- The delta times of events whose ticks do not decrease and do not lie before `lastTime`
are not negative. -/
theorem deltaTimes_nonneg (events : List MidiEvent) : ∀ lastTime : Int,
    (∀ e ∈ events, lastTime ≤ e.startTime) →
    events.Pairwise (fun a b => a.startTime ≤ b.startTime) →
    ∀ δ ∈ deltaTimes lastTime events, 0 ≤ δ := by
  induction events with
  | nil => intro lastTime _ _ δ hδ; simp [deltaTimes] at hδ
  | cons e rest ih =>
    intro lastTime h1 h2 δ hδ
    simp only [deltaTimes, List.mem_cons] at hδ
    rcases hδ with hδ | hδ
    · have := h1 e (List.mem_cons_self _ _)
      omega
    · exact ih e.startTime (List.pairwise_cons.mp h2).1 (List.pairwise_cons.mp h2).2 δ hδ

/-- The delta times computed from any result of `std::sort` on events at ticks that are not
negative are not negative. -/
theorem deltaTimes_sorted_nonneg (events sorted : List MidiEvent)
    (h0 : ∀ e ∈ events, 0 ≤ e.startTime) (hs : IsSortedEvents events sorted) :
    ∀ δ ∈ deltaTimes 0 sorted, 0 ≤ δ :=
  deltaTimes_nonneg sorted 0 (fun e he => h0 e (hs.1.subset he))
    (hs.2.imp (fun {a b} h => startTime_le_of_eventLe a b h))

/-- Counterexample to claim C19 as stated: `convertToMidi` parses the row `1 C4 -480`; the
note-off event of track 1 lies at the tick -480, before the note-on event at the tick 0 that
was pushed first, the position of the track goes back to -480, and the first delta time
computed from the sorted events is -480, for which the conversion loop writes no byte. -/
theorem convertToMidi_negative_duration :
    readNoteLine "1 C4 -480" = some (1, "C4", -480) ∧
      mapFind (collectEvents ["Track Note Duration", "---", "1 C4 -480"] "").trackEvents 1
        = some [⟨1, 60, 0, -480, true⟩, ⟨1, 60, -480, 0, false⟩] ∧
      mapFind (collectEvents ["Track Note Duration", "---", "1 C4 -480"] "").trackPositions 1
        = some (-480) ∧
      sortEvents [⟨1, 60, 0, -480, true⟩, ⟨1, 60, -480, 0, false⟩]
        = [⟨1, 60, -480, 0, false⟩, ⟨1, 60, 0, -480, true⟩] ∧
      deltaTimes 0 (sortEvents [⟨1, 60, 0, -480, true⟩, ⟨1, 60, -480, 0, false⟩])
        = [-480, 480] ∧
      encodeVlq (-480) = [] := by
  decide

/-- Claim C19, amended: for every sequence of rows that `convertToMidi` parses without a
negative duration, within each track the ticks of the events it creates are non-negative and
non-decreasing in processing order, and every delta time computed from the sorted events
(`event.startTime - lastTime`, starting from `lastTime = 0`) is non-negative, whatever
arrangement `std::sort` returns. -/
theorem convertToMidi_ticks_monotone (lines : List String) (msg : String) (track : Int)
    (events : List MidiEvent)
    (hd : ∀ line ∈ lines.drop 2, ∀ t n d, readNoteLine line = some (t, n, d) → 0 ≤ d)
    (h : mapFind (collectEvents lines msg).trackEvents track = some events) :
    (∀ e ∈ events, 0 ≤ e.startTime) ∧
      events.Pairwise (fun a b => a.startTime ≤ b.startTime) ∧
      (∀ sorted, IsSortedEvents events sorted → ∀ δ ∈ deltaTimes 0 sorted, 0 ≤ δ) ∧
      ∀ δ ∈ deltaTimes 0 (sortEvents events), 0 ≤ δ := by
  have h0 : TicksMonotone ⟨[], [], msg⟩ := by
    intro t
    simp [mapFind]
  have h1 := (foldl_collectLine_ticksMonotone (lines.drop 2) hd _ h0 track).2 events h
  have h2 : ∀ e ∈ events, 0 ≤ e.startTime := fun e he => (h1.1 e he).1
  exact ⟨h2, h1.2, fun sorted hs => deltaTimes_sorted_nonneg events sorted h2 hs,
    deltaTimes_sorted_nonneg events _ h2 (sortEvents_isSorted events)⟩

/-- Witness of claim C19: two rows on track 1, the second with the duration 0. -/
theorem convertToMidi_ticks_monotone_witness :
    mapFind (collectEvents ["Track Note Duration", "---", "1 C4 480", "1 D4 0"]
        "").trackEvents 1
      = some [⟨1, 60, 0, 480, true⟩, ⟨1, 60, 480, 0, false⟩, ⟨1, 62, 480, 0, true⟩,
          ⟨1, 62, 480, 0, false⟩] ∧
    ((∀ e ∈ [(⟨1, 60, 0, 480, true⟩ : MidiEvent), ⟨1, 60, 480, 0, false⟩,
          ⟨1, 62, 480, 0, true⟩, ⟨1, 62, 480, 0, false⟩], 0 ≤ e.startTime) ∧
      [(⟨1, 60, 0, 480, true⟩ : MidiEvent), ⟨1, 60, 480, 0, false⟩, ⟨1, 62, 480, 0, true⟩,
          ⟨1, 62, 480, 0, false⟩].Pairwise (fun a b => a.startTime ≤ b.startTime) ∧
      (∀ sorted, IsSortedEvents [(⟨1, 60, 0, 480, true⟩ : MidiEvent), ⟨1, 60, 480, 0, false⟩,
          ⟨1, 62, 480, 0, true⟩, ⟨1, 62, 480, 0, false⟩] sorted →
        ∀ δ ∈ deltaTimes 0 sorted, 0 ≤ δ) ∧
      ∀ δ ∈ deltaTimes 0 (sortEvents [(⟨1, 60, 0, 480, true⟩ : MidiEvent),
          ⟨1, 60, 480, 0, false⟩, ⟨1, 62, 480, 0, true⟩, ⟨1, 62, 480, 0, false⟩]), 0 ≤ δ) :=
  ⟨by decide,
    convertToMidi_ticks_monotone ["Track Note Duration", "---", "1 C4 480", "1 D4 0"] "" 1 _
      (by
        intro line hl t n d hr
        simp only [List.drop_succ_cons, List.drop_zero, List.mem_cons, List.mem_singleton,
          List.not_mem_nil, or_false] at hl
        rcases hl with hl | hl
        · subst hl
          have h1 : readNoteLine "1 C4 480" = some (1, "C4", 480) := by decide
          rw [h1] at hr
          injection hr with hr
          injection hr with _ hr
          injection hr with _ hr
          omega
        · subst hl
          have h1 : readNoteLine "1 D4 0" = some (1, "D4", 0) := by decide
          rw [h1] at hr
          injection hr with hr
          injection hr with _ hr
          injection hr with _ hr
          omega)
      (by decide)⟩

/-! ## Pattern generator: sub-durations, pitch sets, catalog and era -/

/-! ### The sub-durations a handler writes are sound -/

theorem soundDurations_handleMeterShortReg (p1 p2 p3 p4 d : Int)
    (meter : TimeMeter) (hd : 0 < d) :
    SoundDurations d (handleMeterShortReg [] p1 p2 p3 p4 d meter) := by
  have h4 : d.tdiv 4 = d / 4 := Int.tdiv_eq_ediv hd.le (by decide)
  have h6 : d.tdiv 6 = d / 6 := Int.tdiv_eq_ediv hd.le (by decide)
  have h8 : d.tdiv 8 = d / 8 := Int.tdiv_eq_ediv hd.le (by decide)
  have h12 : d.tdiv 12 = d / 12 := Int.tdiv_eq_ediv hd.le (by decide)
  have h16 : d.tdiv 16 = d / 16 := Int.tdiv_eq_ediv hd.le (by decide)
  cases meter <;>
    simp [SoundDurations, handleMeterShortReg, pushAlternating_eq, List.range_succ, h4, h6, h8, h12,
      h16] <;>
    omega

theorem soundDurations_handleMeterNormalReg (p1 p2 p3 p4 p5 p6 d : Int)
    (meter : TimeMeter) (hd : 0 < d) :
    SoundDurations d (handleMeterNormalReg [] p1 p2 p3 p4 p5 p6 d meter) := by
  have h4 : d.tdiv 4 = d / 4 := Int.tdiv_eq_ediv hd.le (by decide)
  have h6 : d.tdiv 6 = d / 6 := Int.tdiv_eq_ediv hd.le (by decide)
  have h8 : d.tdiv 8 = d / 8 := Int.tdiv_eq_ediv hd.le (by decide)
  have h12 : d.tdiv 12 = d / 12 := Int.tdiv_eq_ediv hd.le (by decide)
  have h16 : d.tdiv 16 = d / 16 := Int.tdiv_eq_ediv hd.le (by decide)
  cases meter <;>
    simp [SoundDurations, handleMeterNormalReg, pushAlternating_eq, List.range_succ, h4, h6, h8, h12,
      h16] <;>
    omega

theorem soundDurations_handleMeterLongReg (p1 p2 p3 p4 p5 p6 p7 p8 d : Int)
    (meter : TimeMeter) (hd : 0 < d) :
    SoundDurations d (handleMeterLongReg [] p1 p2 p3 p4 p5 p6 p7 p8 d meter) := by
  have h4 : d.tdiv 4 = d / 4 := Int.tdiv_eq_ediv hd.le (by decide)
  have h6 : d.tdiv 6 = d / 6 := Int.tdiv_eq_ediv hd.le (by decide)
  have h8 : d.tdiv 8 = d / 8 := Int.tdiv_eq_ediv hd.le (by decide)
  have h12 : d.tdiv 12 = d / 12 := Int.tdiv_eq_ediv hd.le (by decide)
  have h16 : d.tdiv 16 = d / 16 := Int.tdiv_eq_ediv hd.le (by decide)
  cases meter <;>
    simp [SoundDurations, handleMeterLongReg, pushAlternating_eq, List.range_succ, h4, h6, h8, h12,
      h16] <;>
    omega

theorem soundDurations_handleMeterDelayedNormal (p1 p2 p3 p4 p5 p6 d : Int)
    (meter : TimeMeter) (hd : 0 < d) :
    SoundDurations d (handleMeterDelayedNormal [] p1 p2 p3 p4 p5 p6 d meter) := by
  have h4 : d.tdiv 4 = d / 4 := Int.tdiv_eq_ediv hd.le (by decide)
  have h6 : d.tdiv 6 = d / 6 := Int.tdiv_eq_ediv hd.le (by decide)
  have h8 : d.tdiv 8 = d / 8 := Int.tdiv_eq_ediv hd.le (by decide)
  have h12 : d.tdiv 12 = d / 12 := Int.tdiv_eq_ediv hd.le (by decide)
  have h16 : d.tdiv 16 = d / 16 := Int.tdiv_eq_ediv hd.le (by decide)
  cases meter <;>
    simp [SoundDurations, handleMeterDelayedNormal, pushAlternating_eq, List.range_succ, h4, h6, h8, h12,
      h16] <;>
    omega

theorem soundDurations_handleMeterDelayedLong (p1 p2 p3 p4 p5 p6 d : Int)
    (meter : TimeMeter) (hd : 0 < d) :
    SoundDurations d (handleMeterDelayedLong [] p1 p2 p3 p4 p5 p6 d meter) := by
  have h4 : d.tdiv 4 = d / 4 := Int.tdiv_eq_ediv hd.le (by decide)
  have h6 : d.tdiv 6 = d / 6 := Int.tdiv_eq_ediv hd.le (by decide)
  have h8 : d.tdiv 8 = d / 8 := Int.tdiv_eq_ediv hd.le (by decide)
  have h12 : d.tdiv 12 = d / 12 := Int.tdiv_eq_ediv hd.le (by decide)
  have h16 : d.tdiv 16 = d / 16 := Int.tdiv_eq_ediv hd.le (by decide)
  cases meter <;>
    simp [SoundDurations, handleMeterDelayedLong, pushAlternating_eq, List.range_succ, h4, h6, h8, h12,
      h16] <;>
    omega

theorem soundDurations_handleMeterAscendingShort (p1 p2 p3 p4 p5 p6 d : Int)
    (meter : TimeMeter) (hd : 0 < d) :
    SoundDurations d (handleMeterAscendingShort [] p1 p2 p3 p4 p5 p6 d meter) := by
  have h4 : d.tdiv 4 = d / 4 := Int.tdiv_eq_ediv hd.le (by decide)
  have h6 : d.tdiv 6 = d / 6 := Int.tdiv_eq_ediv hd.le (by decide)
  have h8 : d.tdiv 8 = d / 8 := Int.tdiv_eq_ediv hd.le (by decide)
  have h12 : d.tdiv 12 = d / 12 := Int.tdiv_eq_ediv hd.le (by decide)
  have h16 : d.tdiv 16 = d / 16 := Int.tdiv_eq_ediv hd.le (by decide)
  cases meter <;>
    simp [SoundDurations, handleMeterAscendingShort, pushAlternating_eq, List.range_succ, h4, h6, h8, h12,
      h16] <;>
    omega

theorem soundDurations_handleMeterAscendingNormal (p1 p2 p3 p4 p5 p6 p7 p8 d : Int)
    (meter : TimeMeter) (hd : 0 < d) :
    SoundDurations d (handleMeterAscendingNormal [] p1 p2 p3 p4 p5 p6 p7 p8 d meter) := by
  have h4 : d.tdiv 4 = d / 4 := Int.tdiv_eq_ediv hd.le (by decide)
  have h6 : d.tdiv 6 = d / 6 := Int.tdiv_eq_ediv hd.le (by decide)
  have h8 : d.tdiv 8 = d / 8 := Int.tdiv_eq_ediv hd.le (by decide)
  have h12 : d.tdiv 12 = d / 12 := Int.tdiv_eq_ediv hd.le (by decide)
  have h16 : d.tdiv 16 = d / 16 := Int.tdiv_eq_ediv hd.le (by decide)
  cases meter <;>
    simp [SoundDurations, handleMeterAscendingNormal, pushAlternating_eq, List.range_succ, h4, h6, h8, h12,
      h16] <;>
    omega

theorem soundDurations_handleMeterTerminalShort (p1 p2 p3 p4 d : Int)
    (meter : TimeMeter) (hd : 0 < d) :
    SoundDurations d (handleMeterTerminalShort [] p1 p2 p3 p4 d meter) := by
  have h4 : d.tdiv 4 = d / 4 := Int.tdiv_eq_ediv hd.le (by decide)
  have h6 : d.tdiv 6 = d / 6 := Int.tdiv_eq_ediv hd.le (by decide)
  have h8 : d.tdiv 8 = d / 8 := Int.tdiv_eq_ediv hd.le (by decide)
  have h12 : d.tdiv 12 = d / 12 := Int.tdiv_eq_ediv hd.le (by decide)
  have h16 : d.tdiv 16 = d / 16 := Int.tdiv_eq_ediv hd.le (by decide)
  cases meter <;>
    simp [SoundDurations, handleMeterTerminalShort, pushAlternating_eq, List.range_succ, h4, h6, h8, h12,
      h16] <;>
    omega

theorem soundDurations_handleMeterAscendingLong (p1 p2 p3 p4 p5 p6 p7 p8 p9 p10 p11 p12 d : Int)
    (meter : TimeMeter) (hd : 0 < d) :
    SoundDurations d (handleMeterAscendingLong [] p1 p2 p3 p4 p5 p6 p7 p8 p9 p10 p11 p12 d meter) := by
  have h4 : d.tdiv 4 = d / 4 := Int.tdiv_eq_ediv hd.le (by decide)
  have h6 : d.tdiv 6 = d / 6 := Int.tdiv_eq_ediv hd.le (by decide)
  have h8 : d.tdiv 8 = d / 8 := Int.tdiv_eq_ediv hd.le (by decide)
  have h12 : d.tdiv 12 = d / 12 := Int.tdiv_eq_ediv hd.le (by decide)
  have h16 : d.tdiv 16 = d / 16 := Int.tdiv_eq_ediv hd.le (by decide)
  cases meter <;>
    simp [SoundDurations, handleMeterAscendingLong, pushAlternating_eq, List.range_succ, h4, h6, h8, h12,
      h16] <;>
    omega

theorem soundDurations_handleMeterTerminalNormal (p1 p2 p3 p4 p5 p6 p7 p8 d : Int)
    (meter : TimeMeter) (hd : 0 < d) :
    SoundDurations d (handleMeterTerminalNormal [] p1 p2 p3 p4 p5 p6 p7 p8 d meter) := by
  have h4 : d.tdiv 4 = d / 4 := Int.tdiv_eq_ediv hd.le (by decide)
  have h6 : d.tdiv 6 = d / 6 := Int.tdiv_eq_ediv hd.le (by decide)
  have h8 : d.tdiv 8 = d / 8 := Int.tdiv_eq_ediv hd.le (by decide)
  have h12 : d.tdiv 12 = d / 12 := Int.tdiv_eq_ediv hd.le (by decide)
  have h16 : d.tdiv 16 = d / 16 := Int.tdiv_eq_ediv hd.le (by decide)
  cases meter <;>
    simp [SoundDurations, handleMeterTerminalNormal, pushAlternating_eq, List.range_succ, h4, h6, h8, h12,
      h16] <;>
    omega

theorem soundDurations_handleMeterTerminalLong (p1 p2 p3 p4 p5 p6 p7 p8 p9 p10 p11 p12 p13 p14 p15 p16 d : Int)
    (meter : TimeMeter) (hd : 0 < d) :
    SoundDurations d (handleMeterTerminalLong [] p1 p2 p3 p4 p5 p6 p7 p8 p9 p10 p11 p12 p13 p14 p15 p16 d meter) := by
  have h4 : d.tdiv 4 = d / 4 := Int.tdiv_eq_ediv hd.le (by decide)
  have h6 : d.tdiv 6 = d / 6 := Int.tdiv_eq_ediv hd.le (by decide)
  have h8 : d.tdiv 8 = d / 8 := Int.tdiv_eq_ediv hd.le (by decide)
  have h12 : d.tdiv 12 = d / 12 := Int.tdiv_eq_ediv hd.le (by decide)
  have h16 : d.tdiv 16 = d / 16 := Int.tdiv_eq_ediv hd.le (by decide)
  cases meter <;>
    simp [SoundDurations, handleMeterTerminalLong, pushAlternating_eq, List.range_succ, h4, h6, h8, h12,
      h16] <;>
    omega

/-! ### The claims on sub-durations, pitch sets, the catalog and the era tag -/

/-- The pitches of the ornament of a catalog code are the source pitch and one auxiliary
pitch, 2 or 1 semitones below or 1, 2 or 5 semitones above. -/
theorem applyTrillDispatch_pitch_set (p d : Int) (meter : TimeMeter) (code : String)
    (hc : code ∈ catalogCodes) :
    ∃ k : Int, (k = -2 ∨ k = -1 ∨ k = 1 ∨ k = 2 ∨ k = 5) ∧
      ∀ x, x ∈ (applyTrillDispatch [] p d meter code).map Prod.fst ↔ x = p ∨ x = p + k := by
  rcases mem_catalogCodes code hc with
    h | h | h | h | h | h | h | h | h | h | h | h | h | h | h | h | h | h | h |
    h | h | h | h | h | h | h | h | h | h | h | h | h | h | h | h | h | h | h | h | h | h | h |
    h | h | h | h | h | h | h | h | h | h | h | h | h | h <;> subst h <;>
    simp only [applyTrillDispatch, String.reduceEq, ↓reduceIte,
      mem_map_fst_handleMeterShortReg, mem_map_fst_handleMeterNormalReg,
      mem_map_fst_handleMeterLongReg, mem_map_fst_handleMeterDelayedNormal,
      mem_map_fst_handleMeterDelayedLong, mem_map_fst_handleMeterAscendingShort,
      mem_map_fst_handleMeterAscendingNormal, mem_map_fst_handleMeterTerminalShort,
      mem_map_fst_handleMeterAscendingLong, mem_map_fst_handleMeterTerminalNormal,
      mem_map_fst_handleMeterTerminalLong] <;>
    first
    | exact ⟨2, by decide, fun x => by omega⟩
    | exact ⟨1, by decide, fun x => by omega⟩
    | exact ⟨5, by decide, fun x => by omega⟩
    | exact ⟨-2, by decide, fun x => by omega⟩
    | exact ⟨-1, by decide, fun x => by omega⟩

/-- Claim C29 (two-pitch ornaments): for every catalog variant, source pitch `p`, both meters
and every `d > 0`, the set of pitches occurring in the ornament returned by `applyTrill` is
exactly `{p, a}` for one auxiliary pitch `a` different from `p` with
`p - 2 <= a <= p + 5`; in particular the source pitch occurs in the ornament. -/
theorem applyTrill_two_pitches (p d : Int) (meter : TimeMeter) (code : String)
    (hc : code ∈ catalogCodes) (hd : 0 < d) :
    ∃ a orn, applyTrill p d meter code = .ok orn ∧ a ≠ p ∧ p - 2 ≤ a ∧ a ≤ p + 5 ∧
      ∀ x, x ∈ orn.map Prod.fst ↔ x = p ∨ x = a := by
  obtain ⟨k, hk, hx⟩ := applyTrillDispatch_pitch_set p d meter code hc
  exact ⟨p + k, _, applyTrill_of_pos p d meter code hd, by omega, by omega, by omega, hx⟩

/-- Witness of claim C29: the code `CTrDen1`, whose auxiliary pitch is five semitones up. -/
theorem applyTrill_two_pitches_witness :
    "CTrDen1" ∈ catalogCodes ∧ (0 : Int) < 481 ∧
      ∃ a orn, applyTrill 60 481 TRIPLE "CTrDen1" = .ok orn ∧ a ≠ 60 ∧ 60 - 2 ≤ a ∧
        a ≤ 60 + 5 ∧ ∀ x, x ∈ orn.map Prod.fst ↔ x = 60 ∨ x = a :=
  ⟨by decide, by decide,
    applyTrill_two_pitches 60 481 TRIPLE "CTrDen1" (by decide) (by decide)⟩

/-- Claim C27 (no negative or vanishing tail): for every catalog variant, both meters and
every duration `d > 0`, every sub-duration in the ornament returned by `applyTrill` is
`>= 0` and the final sub-duration is `> 0`; and whenever `d >= 16` every sub-duration is
`> 0`. -/
theorem applyTrill_soundDurations (p d : Int) (meter : TimeMeter) (code : String)
    (hc : code ∈ catalogCodes) (hd : 0 < d) :
    ∃ orn, applyTrill p d meter code = .ok orn ∧ (∀ e ∈ orn, 0 ≤ e.2) ∧
      (∃ last, orn.getLast? = some last ∧ 0 < last.2) ∧ (16 ≤ d → ∀ e ∈ orn, 0 < e.2) := by
  refine ⟨_, applyTrill_of_pos p d meter code hd, ?_⟩
  show SoundDurations d (applyTrillDispatch [] p d meter code)
  rcases mem_catalogCodes code hc with
    h | h | h | h | h | h | h | h | h | h | h | h | h | h | h | h | h | h | h |
    h | h | h | h | h | h | h | h | h | h | h | h | h | h | h | h | h | h | h | h | h | h | h |
    h | h | h | h | h | h | h | h | h | h | h | h | h | h <;> subst h <;>
    simp only [applyTrillDispatch, String.reduceEq, ↓reduceIte, hd,
      soundDurations_handleMeterShortReg, soundDurations_handleMeterNormalReg,
      soundDurations_handleMeterLongReg, soundDurations_handleMeterDelayedNormal,
      soundDurations_handleMeterDelayedLong, soundDurations_handleMeterAscendingShort,
      soundDurations_handleMeterAscendingNormal, soundDurations_handleMeterTerminalShort,
      soundDurations_handleMeterAscendingLong, soundDurations_handleMeterTerminalNormal,
      soundDurations_handleMeterTerminalLong]

/-- Witness of claim C27: the long ascending trill on the duration 17 in duple meter, with
fifteen sub-durations of 1 and a last one of 2. -/
theorem applyTrill_soundDurations_witness :
    "BTrAl1" ∈ catalogCodes ∧ (0 : Int) < 17 ∧
      ∃ orn, applyTrill 60 17 DUPLE "BTrAl1" = .ok orn ∧ (∀ e ∈ orn, 0 ≤ e.2) ∧
        (∃ last, orn.getLast? = some last ∧ 0 < last.2) ∧
        ((16 : Int) ≤ 17 → ∀ e ∈ orn, 0 < e.2) :=
  ⟨by decide, by decide,
    applyTrill_soundDurations 60 17 DUPLE "BTrAl1" (by decide) (by decide)⟩

/-- Claim C26 (catalog and dispatch agree): the catalog has 56 entries with pairwise distinct
codes, and for every duration `d > 0` and both meters `applyTrill` returns a non-empty
ornament if and only if the variant code is one of the 56 catalog codes. -/
theorem applyTrill_nonempty_iff_catalog (p d : Int) (meter : TimeMeter) (code : String)
    (hd : 0 < d) :
    allVariants.length = 56 ∧ catalogCodes.Nodup ∧
      ∃ orn, applyTrill p d meter code = .ok orn ∧ (orn ≠ [] ↔ code ∈ catalogCodes) := by
  refine ⟨by decide, by decide, _, applyTrill_of_pos p d meter code hd, ?_⟩
  constructor
  · intro hne
    by_contra hc
    exact hne (applyTrillDispatch_of_not_mem_catalog p d meter code hc)
  · intro hc hnil
    obtain ⟨k, -, hx⟩ := applyTrillDispatch_pitch_set p d meter code hc
    have hp := (hx p).mpr (Or.inl rfl)
    rw [hnil] at hp
    simp at hp

/-- Witness of claim C26: the sentinel `RANDOM`, which is no code of the catalog, in triple
meter on the duration 480. -/
theorem applyTrill_nonempty_iff_catalog_witness :
    (0 : Int) < 480 ∧ allVariants.length = 56 ∧ catalogCodes.Nodup ∧
      ∃ orn, applyTrill 60 480 TRIPLE "RANDOM" = .ok orn ∧
        (orn ≠ [] ↔ "RANDOM" ∈ catalogCodes) :=
  ⟨by decide, applyTrill_nonempty_iff_catalog 60 480 TRIPLE "RANDOM" (by decide)⟩

/-- Claim C30 (the era tag is inert in the ascending, descending and terminal-short
families): for every pitch `p`, duration `d > 0` and meter, `applyTrill` returns the same
ornament for the Baroque and the Classical code of the same shape and interval, because the
handlers read only their first two pitch arguments. -/
theorem applyTrill_era_inert (p d : Int) (meter : TimeMeter) (baroque classical : String)
    (hc : (baroque, classical) ∈ eraPairs) (hd : 0 < d) :
    ∃ orn, applyTrill p d meter baroque = .ok orn ∧
      applyTrill p d meter classical = .ok orn := by
  refine ⟨_, applyTrill_of_pos p d meter baroque hd, ?_⟩
  rw [applyTrill_of_pos p d meter classical hd]
  simp only [eraPairs, List.mem_cons, List.mem_singleton, List.not_mem_nil, or_false,
    Prod.mk.injEq] at hc
  rcases hc with h | h | h | h | h | h | h | h | h | h | h | h | h | h <;>
    obtain ⟨h1, h2⟩ := h <;> subst h1 <;> subst h2 <;>
    simp only [applyTrillDispatch, String.reduceEq, ↓reduceIte, handleMeterAscendingShort,
      handleMeterAscendingNormal, handleMeterAscendingLong, handleMeterTerminalShort]

/-- Witness of claim C30: `BTrDn5` and `CTrDn5` in triple meter. -/
theorem applyTrill_era_inert_witness :
    ("BTrDn5", "CTrDn5") ∈ eraPairs ∧ (0 : Int) < 481 ∧
      ∃ orn, applyTrill 60 481 TRIPLE "BTrDn5" = .ok orn ∧
        applyTrill 60 481 TRIPLE "CTrDn5" = .ok orn :=
  ⟨by decide, by decide,
    applyTrill_era_inert 60 481 TRIPLE "BTrDn5" "CTrDn5" (by decide) (by decide)⟩

/-! ## Transformation engine: statistics and meter -/

/-- The statement `variantUsageCount[key]++` raises the sum of the counts by one. -/
theorem usageTotal_mapIncrement (m : List (String × Int)) (key : String) :
    usageTotal (mapIncrement m key) = usageTotal m + 1 := by
  induction m with
  | nil => simp [mapIncrement, usageTotal]
  | cons kv rest ih =>
    obtain ⟨k, v⟩ := kv
    unfold usageTotal at ih ⊢
    by_cases h1 : key = k
    · simp [mapIncrement, h1]; ring
    · by_cases h2 : key < k
      · simp [mapIncrement, h1, h2]; ring
      · simp [mapIncrement, h1, h2, ih]; ring

/-- The `try` block of `processFile` raises the sum of the usage counts by one or leaves
it. -/
theorem transformNote_usage_le (o : Oracle) (r : Run) (track : Int) (noteName : String)
    (duration : Int) (label : String) :
    usageTotal (transformNote o r track noteName duration label).state.variantUsageCount
        = usageTotal r.state.variantUsageCount ∨
      usageTotal (transformNote o r track noteName duration label).state.variantUsageCount
        = usageTotal r.state.variantUsageCount + 1 := by
  cases h1 : getNoteNumber noteName with
  | error e => simp [transformNote, h1, catchException]
  | ok noteIndex =>
    simp only [transformNote, h1]
    split
    · left; simp [catchException, selectVariant_state]
    · right; simp [usageTotal_mapIncrement, selectVariant_state]

/-- When the note name parses and the duration is positive, the `try` block of `processFile`
counts the variant. -/
theorem transformNote_usage_of_ok (o : Oracle) (r : Run) (track : Int) (noteName : String)
    (duration : Int) (label : String) (p : Int) (h1 : getNoteNumber noteName = .ok p)
    (hd : 0 < duration) :
    usageTotal (transformNote o r track noteName duration label).state.variantUsageCount
      = usageTotal r.state.variantUsageCount + 1 := by
  simp [transformNote, h1, applyTrill_of_pos _ _ _ _ hd, usageTotal_mapIncrement,
    selectVariant_state]

/-- What the loop body of `processFile` does to the statistics: an eligible row adds one to
`totalEligibleNotes`, a chosen note adds one to `transformedNotes`, and the sum of the usage
counts rises by one for a chosen note whose name parses and whose duration is positive, by
one or not at all for another chosen note, and not at all otherwise. -/
theorem processLine_statistics (o : Oracle) (r : Run) (line : String) :
    (processLine o r line).state.totalEligibleNotes
        = r.state.totalEligibleNotes + (if isEligibleRow line then 1 else 0) ∧
      (processLine o r line).state.transformedNotes
        = r.state.transformedNotes + ((chosenNote o r line).toList.length : Int) ∧
      usageTotal r.state.variantUsageCount
        ≤ usageTotal (processLine o r line).state.variantUsageCount ∧
      usageTotal (processLine o r line).state.variantUsageCount
        ≤ usageTotal r.state.variantUsageCount + ((chosenNote o r line).toList.length : Int) ∧
      ((∀ row ∈ (chosenNote o r line).toList,
          (∃ p, getNoteNumber row.1 = .ok p) ∧ 0 < row.2) →
        usageTotal (processLine o r line).state.variantUsageCount
          = usageTotal r.state.variantUsageCount
            + ((chosenNote o r line).toList.length : Int)) := by
  cases hp : parseRow line with
  | none => simp [processLine, isEligibleRow, chosenNote, hp]
  | some q =>
    obtain ⟨track, noteName, duration, rest⟩ := q
    by_cases hl : trimLabel rest ∈ eligibleLabels
    · by_cases hs : shouldTransformLabel o.RAND_MAX (o.rand r.randCalls)
          r.state.transformationPercentage = true
      · rw [processLine_of_selected o r line track noteName duration rest hp hl hs]
        have hf := transformNote_frame o
          { state := { r.state with
              totalEligibleNotes := r.state.totalEligibleNotes + 1
              transformedNotes := r.state.transformedNotes + 1 }
            output := r.output
            randCalls := r.randCalls + 1
            shuffleCalls := r.shuffleCalls }
          track noteName duration (trimLabel rest)
        have hu := transformNote_usage_le o
          { state := { r.state with
              totalEligibleNotes := r.state.totalEligibleNotes + 1
              transformedNotes := r.state.transformedNotes + 1 }
            output := r.output
            randCalls := r.randCalls + 1
            shuffleCalls := r.shuffleCalls }
          track noteName duration (trimLabel rest)
        simp only [isEligibleRow, chosenNote, hp, hl, hs, and_self, if_true, decide_True,
          Option.toList_some, List.length_singleton, Nat.cast_one, hf.2.2.1, hf.2.2.2,
          List.mem_singleton, forall_eq]
        refine ⟨trivial, trivial, ?_, ?_, ?_⟩
        · rcases hu with hu | hu
          · rw [hu]
          · rw [hu]; simp
        · rcases hu with hu | hu
          · rw [hu]; simp
          · rw [hu]
        · rintro ⟨⟨p, h1⟩, hd⟩
          exact transformNote_usage_of_ok o _ track noteName duration (trimLabel rest) p h1 hd
      · have hs2 : shouldTransformLabel o.RAND_MAX (o.rand r.randCalls)
            r.state.transformationPercentage = false := by simpa using hs
        rw [processLine_of_not_selected o r line track noteName duration rest hp hl hs2]
        simp [isEligibleRow, chosenNote, hp, hl, hs2]
    · rw [processLine_of_not_eligible o r line track noteName duration rest hp hl]
      simp [isEligibleRow, chosenNote, hp, hl]

/-- A chosen note is the note of an eligible row. -/
theorem chosenNote_length_le (o : Oracle) (r : Run) (line : String) :
    ((chosenNote o r line).toList.length : Int) ≤ (if isEligibleRow line then 1 else 0) := by
  cases hp : parseRow line with
  | none => simp [isEligibleRow, chosenNote, hp]
  | some q =>
    obtain ⟨track, noteName, duration, rest⟩ := q
    by_cases hl : trimLabel rest ∈ eligibleLabels
    · by_cases hs : shouldTransformLabel o.RAND_MAX (o.rand r.randCalls)
          r.state.transformationPercentage = true
      · simp [isEligibleRow, chosenNote, hp, hl, hs]
      · simp [isEligibleRow, chosenNote, hp, hl, hs]
    · simp [isEligibleRow, chosenNote, hp, hl]

/-- The statistics after the loop of `processFile`, from any run. -/
theorem processLines_statistics (o : Oracle) (lines : List String) : ∀ r : Run,
    (processLines o r lines).state.totalEligibleNotes
        = r.state.totalEligibleNotes + ((lines.filter isEligibleRow).length : Int) ∧
      (processLines o r lines).state.transformedNotes
        = r.state.transformedNotes + ((transformedRows o r lines).length : Int) ∧
      ((transformedRows o r lines).length : Int) ≤ ((lines.filter isEligibleRow).length : Int) ∧
      usageTotal r.state.variantUsageCount
        ≤ usageTotal (processLines o r lines).state.variantUsageCount ∧
      usageTotal (processLines o r lines).state.variantUsageCount
        ≤ usageTotal r.state.variantUsageCount + ((transformedRows o r lines).length : Int) ∧
      ((∀ row ∈ transformedRows o r lines,
          (∃ p, getNoteNumber row.1 = .ok p) ∧ 0 < row.2) →
        usageTotal (processLines o r lines).state.variantUsageCount
          = usageTotal r.state.variantUsageCount
            + ((transformedRows o r lines).length : Int)) := by
  induction lines with
  | nil => intro r; simp [processLines, transformedRows]
  | cons l ls ih =>
    intro r
    obtain ⟨a1, a2, a3, a4, a5⟩ := processLine_statistics o r l
    have a6 := chosenNote_length_le o r l
    simp only [processLines, List.foldl_cons] at ih ⊢
    obtain ⟨b1, b2, b3, b4, b5, b6⟩ := ih (processLine o r l)
    have hf : (((l :: ls).filter isEligibleRow).length : Int)
        = (if isEligibleRow l then 1 else 0) + ((ls.filter isEligibleRow).length : Int) := by
      by_cases h : isEligibleRow l = true
      · simp [List.filter_cons, h]; ring
      · simp [List.filter_cons, h]
    have ht : ((transformedRows o r (l :: ls)).length : Int)
        = ((chosenNote o r l).toList.length : Int)
          + ((transformedRows o (processLine o r l) ls).length : Int) := by
      simp [transformedRows]
    rw [hf, ht]
    refine ⟨by omega, by omega, by omega, by omega, by omega, ?_⟩
    intro h
    have h1 := a5 (fun row hrow => h row (by simp [transformedRows, hrow]))
    have h2 := b6 (fun row hrow => h row (by simp [transformedRows, hrow]))
    omega

/-- Claim C28: after `processFile` has processed the rows of an input, whatever the random
draws, `transformedNotes` lies between 0 and `totalEligibleNotes`, `totalEligibleNotes` is
the number of well-formed rows with an eligible label, `transformedNotes` is the number of
notes chosen for a transformation, and the counts in `variantUsageCount` sum to at most
`transformedNotes`, to exactly `transformedNotes` when the name of every transformed note
parses and its duration is positive. -/
theorem processFile_statistics (o : Oracle) (lines : List String) (state : AppState) :
    0 ≤ (processFile o (some lines) true state).state.transformedNotes ∧
      (processFile o (some lines) true state).state.transformedNotes
        ≤ (processFile o (some lines) true state).state.totalEligibleNotes ∧
      (processFile o (some lines) true state).state.totalEligibleNotes
        = ((lines.filter isEligibleRow).length : Int) ∧
      (processFile o (some lines) true state).state.transformedNotes
        = ((transformedRows o (startRun state) lines).length : Int) ∧
      usageTotal (processFile o (some lines) true state).state.variantUsageCount
        ≤ (processFile o (some lines) true state).state.transformedNotes ∧
      ((∀ row ∈ transformedRows o (startRun state) lines,
          (∃ p, getNoteNumber row.1 = .ok p) ∧ 0 < row.2) →
        usageTotal (processFile o (some lines) true state).state.variantUsageCount
          = (processFile o (some lines) true state).state.transformedNotes) := by
  obtain ⟨b1, b2, b3, b4, b5, b6⟩ := processLines_statistics o lines (startRun state)
  have h0 : usageTotal (startRun state).state.variantUsageCount = 0 := rfl
  have h1 : (startRun state).state.totalEligibleNotes = 0 := rfl
  have h2 : (startRun state).state.transformedNotes = 0 := rfl
  rw [h0] at b4 b5 b6
  rw [h1] at b1
  rw [h2] at b2
  simp only [processFile]
  refine ⟨by omega, by omega, by omega, by omega, by omega, ?_⟩
  intro h
  have := b6 h
  omega

/-- The output of a run is not touched by the choice of the variant. -/
theorem selectVariant_output (o : Oracle) (r : Run) :
    (selectVariant o r).2.output = r.output := by
  unfold selectVariant
  split <;> rfl

/-- The ornament that the `try` block of `processFile` writes is the one of `applyTrill` in
duple meter, whatever the caller wanted: one row for each of its notes. -/
theorem transformNote_output (o : Oracle) (r : Run) (track : Int) (noteName : String)
    (duration : Int) (label : String) (p : Int) (orn : List (Int × Int))
    (h1 : getNoteNumber noteName = .ok p)
    (h2 : applyTrill p duration DUPLE (selectVariant o r).1 = .ok orn) :
    (transformNote o r track noteName duration label).output
      = r.output ++ orn.map (fun e =>
          renderRow track ((getNoteName e.1).getD "") e.2 label (selectVariant o r).1) := by
  simp [transformNote, h1, h2, selectVariant_output]

/-- The variant chosen depends on the selection and on the two call counters only. -/
theorem selectVariant_fst_congr (o : Oracle) (r r' : Run)
    (h1 : r.state.selectedVariants = r'.state.selectedVariants)
    (h2 : r.randCalls = r'.randCalls) (h3 : r.shuffleCalls = r'.shuffleCalls) :
    (selectVariant o r).1 = (selectVariant o r').1 := by
  unfold selectVariant
  rw [h1, h2, h3]
  split <;> rfl

/-- Claim C25, as the code has it: `processFile` takes no meter from its caller.  For a row
that is eligible and chosen, whose note name parses to the pitch `p`, the rows written are
those of the ornament `applyTrill(p, duration, DUPLE, selectedVariant)`, one row for each of
its notes, in duple meter always; `selectedVariant` is the variant chosen by the draw that
follows the one of `shouldTransformLabel`. -/
theorem processLine_ornament_in_duple (o : Oracle) (r : Run) (line : String) (track : Int)
    (noteName : String) (duration : Int) (rest : List Char) (p : Int)
    (orn : List (Int × Int))
    (hp : parseRow line = some (track, noteName, duration, rest))
    (hl : trimLabel rest ∈ eligibleLabels)
    (hs : shouldTransformLabel o.RAND_MAX (o.rand r.randCalls)
      r.state.transformationPercentage = true)
    (h1 : getNoteNumber noteName = .ok p)
    (h2 : applyTrill p duration DUPLE
      (selectVariant o { r with randCalls := r.randCalls + 1 }).1 = .ok orn) :
    (processLine o r line).output
      = r.output ++ orn.map (fun e =>
          renderRow track ((getNoteName e.1).getD "") e.2 (trimLabel rest)
            (selectVariant o { r with randCalls := r.randCalls + 1 }).1) := by
  rw [processLine_of_selected o r line track noteName duration rest hp hl hs]
  have hv := selectVariant_fst_congr o
    { state := { r.state with
        totalEligibleNotes := r.state.totalEligibleNotes + 1
        transformedNotes := r.state.transformedNotes + 1 }
      output := r.output
      randCalls := r.randCalls + 1
      shuffleCalls := r.shuffleCalls }
    { r with randCalls := r.randCalls + 1 } rfl rfl rfl
  rw [← hv] at h2 ⊢
  rw [transformNote_output o _ track noteName duration (trimLabel rest) p orn h1 h2]

/-- Witness of claim C25: the row `1 C4 480 RLN` at the start of a run with the percentage
100 and the selection `BTrRs1`; the four rows written are those of the duple ornament. -/
theorem processLine_ornament_in_duple_witness :
    (processLine (constOracle 32767 0) (startRun (initialState 100 ["BTrRs1"]))
        "1 C4 480 RLN").output
      = (startRun (initialState 100 ["BTrRs1"])).output
        ++ [((62 : Int), (120 : Int)), (60, 120), (62, 120), (60, 120)].map (fun e =>
          renderRow 1 ((getNoteName e.1).getD "") e.2 (trimLabel [' ', 'R', 'L', 'N'])
            (selectVariant (constOracle 32767 0)
              { startRun (initialState 100 ["BTrRs1"]) with
                randCalls := (startRun (initialState 100 ["BTrRs1"])).randCalls + 1 }).1) :=
  processLine_ornament_in_duple (constOracle 32767 0)
    (startRun (initialState 100 ["BTrRs1"])) "1 C4 480 RLN" 1 "C4" 480 [' ', 'R', 'L', 'N'] 60
    [(62, 120), (60, 120), (62, 120), (60, 120)] (by decide) (by decide)
    ((shouldTransformLabel_hundred 32767 0 (by decide) (by decide)).mpr (by decide))
    (by decide) (by decide)

/-- Claim C25, the code against the claim: a caller who wants the three-beat meter has no
way to say so.  For the row `1 C4 480 RLN` with the variant `BTrRs1`, the ornament in triple
meter has six notes of 80 ticks; `processFile` writes the four notes of 120 ticks of the
duple ornament. -/
theorem processFile_writes_duple_not_triple :
    applyTrill 60 480 TRIPLE "BTrRs1"
        = .ok [(62, 80), (60, 80), (62, 80), (60, 80), (62, 80), (60, 80)] ∧
      applyTrill 60 480 DUPLE "BTrRs1" = .ok [(62, 120), (60, 120), (62, 120), (60, 120)] ∧
      (processFile (constOracle 32767 0) (some ["1 C4 480 RLN"]) true
        (initialState 100 ["BTrRs1"])).output
        = headerRows ++ [renderRow 1 "D4" 120 "RLN" "BTrRs1", renderRow 1 "C4" 120 "RLN" "BTrRs1",
            renderRow 1 "D4" 120 "RLN" "BTrRs1", renderRow 1 "C4" 120 "RLN" "BTrRs1"] ∧
      (processFile (constOracle 32767 0) (some ["1 C4 480 RLN"]) true
        (initialState 100 ["BTrRs1"])).output
        ≠ headerRows ++ [renderRow 1 "D4" 80 "RLN" "BTrRs1", renderRow 1 "C4" 80 "RLN" "BTrRs1",
            renderRow 1 "D4" 80 "RLN" "BTrRs1", renderRow 1 "C4" 80 "RLN" "BTrRs1",
            renderRow 1 "D4" 80 "RLN" "BTrRs1", renderRow 1 "C4" 80 "RLN" "BTrRs1"] := by
  have hs : shouldTransformLabel 32767 0 100 = true :=
    (shouldTransformLabel_hundred 32767 0 (by decide) (by decide)).mpr (by decide)
  have hout : (processFile (constOracle 32767 0) (some ["1 C4 480 RLN"]) true
        (initialState 100 ["BTrRs1"])).output
        = headerRows ++ [renderRow 1 "D4" 120 "RLN" "BTrRs1", renderRow 1 "C4" 120 "RLN" "BTrRs1",
            renderRow 1 "D4" 120 "RLN" "BTrRs1", renderRow 1 "C4" 120 "RLN" "BTrRs1"] := by
    simp only [processFile, processLines, List.foldl_cons, List.foldl_nil]
    rw [processLine_of_selected (constOracle 32767 0) (startRun (initialState 100 ["BTrRs1"]))
        "1 C4 480 RLN" 1 "C4" 480 [' ', 'R', 'L', 'N'] (by decide) (by decide) hs,
      transformNote_output (constOracle 32767 0) _ 1 "C4" 480 _ 60
        [(62, 120), (60, 120), (62, 120), (60, 120)] (by decide) (by decide)]
    decide
  refine ⟨by decide, by decide, hout, ?_⟩
  rw [hout]
  decide

/-! ## Sequence encoder: the bytes of the file -/

/-- A right shift followed by the mask `0xFF` takes one base-256 digit. -/
theorem shiftRight_and_255 (n k : Nat) : (n >>> k) &&& 0xFF = n / 2 ^ k % 256 := by
  rw [Nat.shiftRight_eq_div_pow]
  exact Nat.and_pow_two_sub_one_eq_mod _ 8

/-- The mask `0xFF` takes the lowest base-256 digit. -/
theorem and_255 (n : Nat) : n &&& 0xFF = n % 256 :=
  Nat.and_pow_two_sub_one_eq_mod _ 8

/-- Overwriting a segment of a file by one of the same length. -/
theorem seekWrite_append (a old new b : List Nat) (h : old.length = new.length) :
    seekWrite (a ++ old ++ b) a.length new = a ++ new ++ b := by
  simp [seekWrite, List.take_append_eq_append_take, List.drop_append_eq_append_drop, ← h]

/-- The loop over the sorted events appends the bytes of the events, each with the delta
time from the event before it. -/
theorem foldl_writeEvent (events : List MidiEvent) : ∀ (file : List Nat) (lastTime : Int),
    (events.foldl writeEvent (file, lastTime)).1
      = file ++ (List.zipWith eventBytes (deltaTimes lastTime events) events).flatten := by
  induction events with
  | nil => intro file lastTime; simp [deltaTimes]
  | cons e rest ih =>
    intro file lastTime
    by_cases h : e.isNoteOn = true
    · simp [List.foldl_cons, writeEvent, h, ih, deltaTimes, eventBytes]
    · simp [List.foldl_cons, writeEvent, h, ih, deltaTimes, eventBytes]

/-- The four bytes that `convertToMidi` writes for a track length. -/
theorem beValue_length_bytes (n : Nat) :
    beValue [(n >>> 24) &&& 0xFF, (n >>> 16) &&& 0xFF, (n >>> 8) &&& 0xFF, n &&& 0xFF]
      = n % 2 ^ 32 := by
  simp only [shiftRight_and_255, and_255, beValue, List.foldl_cons, List.foldl_nil]
  omega

/-- The two bytes that `convertToMidi` writes for the number of tracks. -/
theorem beValue_count_bytes (n : Nat) :
    beValue [(n >>> 8) &&& 0xFF, n &&& 0xFF] = n % 2 ^ 16 := by
  simp only [shiftRight_and_255, and_255, beValue, List.foldl_cons, List.foldl_nil]
  omega

/-- The chunk of a track: the type `MTrk`, the four bytes of the length of the body, and the
body, appended to the file. -/
theorem writeTrack_eq (sort : List MidiEvent → List MidiEvent) (file : List Nat)
    (events : List MidiEvent) :
    writeTrack sort file events
      = file ++ asciiBytes "MTrk"
        ++ [((trackBody (sort events)).length >>> 24) &&& 0xFF,
            ((trackBody (sort events)).length >>> 16) &&& 0xFF,
            ((trackBody (sort events)).length >>> 8) &&& 0xFF,
            (trackBody (sort events)).length &&& 0xFF]
        ++ trackBody (sort events) := by
  have hbody : (List.foldl writeEvent
        (file ++ asciiBytes "MTrk" ++ [0, 0, 0, 0] ++ [0x00, 0xC0, 0x00], (0 : Int))
        (sort events)).1 ++ [0x00, 0xFF, 0x2F, 0x00]
      = (file ++ asciiBytes "MTrk") ++ [0, 0, 0, 0] ++ trackBody (sort events) := by
    rw [foldl_writeEvent]
    simp [trackBody]
  have hlen : ((file ++ asciiBytes "MTrk") ++ [0, 0, 0, 0] ++ trackBody (sort events)).length
      - (file ++ asciiBytes "MTrk" ++ [0, 0, 0, 0]).length
      = (trackBody (sort events)).length := by
    simp only [List.length_append]
    omega
  simp only [writeTrack]
  rw [hbody, hlen, seekWrite_append _ _ _ _ (by simp)]

/-- The length of the body of a chunk. -/
theorem trackBody_length (sorted : List MidiEvent) :
    (trackBody sorted).length
      = 3 + ((deltaTimes 0 sorted).map (fun δ => (encodeVlq δ).length + 3)).sum + 4 := by
  have h : ∀ (events : List MidiEvent) (lastTime : Int),
      (List.zipWith eventBytes (deltaTimes lastTime events) events).flatten.length
        = ((deltaTimes lastTime events).map (fun δ => (encodeVlq δ).length + 3)).sum := by
    intro events
    induction events with
    | nil => intro lastTime; simp [deltaTimes]
    | cons e rest ih =>
      intro lastTime
      have he : (if e.isNoteOn = true then [0x90, toByte e.noteNumber, 0x64]
          else [0x80, toByte e.noteNumber, 0x00]).length = 3 := by
        split <;> rfl
      simp only [deltaTimes, List.zipWith_cons_cons, List.flatten_cons, List.length_append,
        ih, eventBytes, he, List.map_cons, List.sum_cons]
  simp only [trackBody, List.length_append, h, List.length_cons, List.length_nil]

/-- The chunks of the tracks follow what is already in the file, one after the other. -/
theorem foldl_writeTrack (sort : List MidiEvent → List MidiEvent)
    (trackEvents : List (Int × List MidiEvent)) : ∀ file : List Nat,
    trackEvents.foldl (fun file entry => writeTrack sort file entry.2) file
      = file ++ (trackEvents.map (fun entry => writeTrack sort [] entry.2)).flatten := by
  induction trackEvents with
  | nil => intro file; simp
  | cons entry rest ih =>
    intro file
    rw [List.foldl_cons, ih, writeTrack_eq sort file, List.map_cons, List.flatten_cons,
      writeTrack_eq sort []]
    simp


/-! ### Rows with a written track number -/

/-- The character of a decimal digit. -/
theorem digitChar_digit (d : Nat) (h : d < 10) :
    (Nat.digitChar d).isDigit = true ∧ ((Nat.digitChar d).toNat : Int) - 48 = d := by
  interval_cases d <;> exact ⟨by decide, by decide⟩

/-- The digits that `std::to_string` writes for a natural number: a non-empty run of decimal
digits whose value is the number. -/
theorem toDigitsCore_value : ∀ (fuel n : Nat) (ds : List Char), n < fuel →
    ∃ l, Nat.toDigitsCore 10 fuel n ds = l ++ ds ∧ l ≠ [] ∧ (∀ c ∈ l, c.isDigit = true) ∧
      ∀ acc : Int, l.foldl (fun acc c => 10 * acc + ((c.toNat : Int) - 48)) acc
        = acc * 10 ^ l.length + n := by
  intro fuel
  induction fuel with
  | zero => intro n ds h; omega
  | succ fuel ih =>
    intro n ds h
    obtain ⟨hd1, hd2⟩ := digitChar_digit (n % 10) (Nat.mod_lt _ (by decide))
    by_cases hq : n / 10 = 0
    · refine ⟨[Nat.digitChar (n % 10)], by simp [Nat.toDigitsCore, hq], by simp, ?_, ?_⟩
      · intro c hc
        rw [List.mem_singleton.mp hc]
        exact hd1
      · intro acc
        simp only [List.foldl_cons, List.foldl_nil, hd2, List.length_singleton, pow_one]
        have : (n : Int) = ((n % 10 : Nat) : Int) := by omega
        omega
    · obtain ⟨l, h1, h2, h3, h4⟩ := ih (n / 10) (Nat.digitChar (n % 10) :: ds) (by omega)
      refine ⟨l ++ [Nat.digitChar (n % 10)], by simp [Nat.toDigitsCore, hq, h1], by simp, ?_, ?_⟩
      · intro c hc
        rcases List.mem_append.mp hc with hc | hc
        · exact h3 c hc
        · rw [List.mem_singleton.mp hc]
          exact hd1
      · intro acc
        have hn : (n : Int) = 10 * ((n / 10 : Nat) : Int) + ((n % 10 : Nat) : Int) := by omega
        simp only [List.foldl_append, List.foldl_cons, List.foldl_nil, h4, hd2,
          List.length_append, List.length_singleton, pow_succ]
        linear_combination (-1 : Int) * hn

/-- The text of a natural number as `std::to_string` writes it. -/
theorem to_string_natCast (t : Nat) :
    ∃ l, (to_string (t : Int)).data = l ∧ l ≠ [] ∧ (∀ c ∈ l, c.isDigit = true) ∧
      digitsValue l = t := by
  obtain ⟨l, h1, h2, h3, h4⟩ := toDigitsCore_value (t + 1) t [] (by omega)
  refine ⟨l, ?_, h2, h3, ?_⟩
  · rw [List.append_nil] at h1
    rw [← h1]
    rfl
  · rw [digitsValue, h4 0]
    simp

/-- A decimal digit is no white space. -/
theorem isspace_of_isDigit (c : Char) (h : c.isDigit = true) : isspace c = false := by
  obtain ⟨h1, h2⟩ := isDigit_bounds c h
  simp only [isspace, decide_eq_false_iff_not, not_or]
  refine ⟨?_, ?_, ?_, ?_, ?_, ?_⟩ <;>
    · rintro rfl
      revert h1 h2
      decide

/-- A run of digits before a blank is all that `takeWhile` and `dropWhile` see of a text. -/
theorem takeWhile_dropWhile_digits (l rest : List Char) (hd : ∀ c ∈ l, c.isDigit = true) :
    (l ++ ' ' :: rest).takeWhile Char.isDigit = l ∧
      (l ++ ' ' :: rest).dropWhile Char.isDigit = ' ' :: rest := by
  induction l with
  | nil =>
    have : Char.isDigit ' ' = false := by decide
    simp [List.takeWhile, List.dropWhile, this]
  | cons c tl ih =>
    obtain ⟨i1, i2⟩ := ih (fun x hx => hd x (List.mem_cons_of_mem _ hx))
    have hc := hd c (List.mem_cons_self _ _)
    simp [List.takeWhile, List.dropWhile, hc, i1, i2]

/-- The extraction `stream >> int` on a run of digits before a blank. -/
theorem readInt_digits (l rest : List Char) (hl : l ≠ []) (hd : ∀ c ∈ l, c.isDigit = true)
    (h0 : 0 ≤ digitsValue l) (h1 : digitsValue l ≤ 2 ^ 31 - 1) :
    readInt (l ++ ' ' :: rest) = some (digitsValue l, ' ' :: rest) := by
  obtain ⟨c, tl, rfl⟩ := List.exists_cons_of_ne_nil hl
  have hc := hd c (List.mem_cons_self _ _)
  obtain ⟨hb1, hb2⟩ := isDigit_bounds c hc
  have hs : isspace c = false := isspace_of_isDigit c hc
  have hsign : readSign (c :: tl ++ ' ' :: rest) = (false, c :: tl ++ ' ' :: rest) := by
    have h7 : c ≠ '-' := by
      rintro rfl
      revert hb1
      decide
    have h8 : c ≠ '+' := by
      rintro rfl
      revert hb1
      decide
    simp only [List.cons_append]
    unfold readSign
    split <;> simp_all
  obtain ⟨t1, t2⟩ := takeWhile_dropWhile_digits (c :: tl) rest hd
  have hdrop : (c :: tl ++ ' ' :: rest).dropWhile isspace = c :: tl ++ ' ' :: rest := by
    simp [List.dropWhile, hs]
  have hrange : ¬ (digitsValue (c :: tl) < -(2 ^ 31) ∨ digitsValue (c :: tl) > 2 ^ 31 - 1) := by
    omega
  simp only [readInt, hdrop, hsign, t1, t2, hrange]
  simp
  omega

/-- A text that starts with decimal digits holds `MIDI File Analyzed` only after them. -/
theorem containsText_digits (l rest : List Char) (hd : ∀ c ∈ l, c.isDigit = true) :
    containsText ⟨l ++ rest⟩ "MIDI File Analyzed" = containsText ⟨rest⟩ "MIDI File Analyzed" := by
  induction l with
  | nil => rfl
  | cons c tl ih =>
    have hc := hd c (List.mem_cons_self _ _)
    obtain ⟨hb1, hb2⟩ := isDigit_bounds c hc
    have hM : ('M' == c) = false := by
      rw [beq_eq_false_iff_ne]
      rintro rfl
      revert hb2
      decide
    have ih2 := ih (fun x hx => hd x (List.mem_cons_of_mem _ hx))
    simp only [containsText] at ih2 ⊢
    rw [List.cons_append, List.tails_cons, List.any_cons, ih2]
    have : ("MIDI File Analyzed".data).isPrefixOf (c :: (tl ++ rest)) = false := by
      show ('M' :: "IDI File Analyzed".data).isPrefixOf (c :: (tl ++ rest)) = false
      simp [List.isPrefixOf, hM]
    rw [this, Bool.false_or]

/-- The row `t C4 480`, with the track number as `std::to_string` writes it, is accepted by
`convertToMidi` as a note of the track `t`. -/
theorem noteOfLine_written (t : Nat) (ht : t < 2 ^ 31) :
    noteOfLine (to_string (t : Int) ++ " C4 480") = some ((t : Int), 60, 480) := by
  obtain ⟨l, h1, h2, h3, h4⟩ := to_string_natCast t
  obtain ⟨c, tl, hctl⟩ := List.exists_cons_of_ne_nil h2
  have hc := h3 c (by rw [hctl]; exact List.mem_cons_self _ _)
  obtain ⟨hb1, hb2⟩ := isDigit_bounds c hc
  have hdata : (to_string (t : Int) ++ " C4 480").data = l ++ ' ' :: ['C', '4', ' ', '4', '8', '0'] := by
    rw [String.data_append, h1]
  have hline : to_string (t : Int) ++ " C4 480" = ⟨l ++ ' ' :: ['C', '4', ' ', '4', '8', '0']⟩ := by
    rw [← hdata]
  have hint : readInt (l ++ ' ' :: ['C', '4', ' ', '4', '8', '0'])
      = some ((t : Int), ' ' :: ['C', '4', ' ', '4', '8', '0']) := by
    rw [readInt_digits l _ h2 h3 (by rw [h4]; omega) (by rw [h4]; omega), h4]
  have hrow : parseRow (to_string (t : Int) ++ " C4 480") = some ((t : Int), "C4", 480, []) := by
    have hr1 : readToken (' ' :: ['C', '4', ' ', '4', '8', '0']) = some ("C4", [' ', '4', '8', '0']) := by
      decide
    have hr2 : readInt [' ', '4', '8', '0'] = some (480, []) := by decide
    simp only [parseRow, hdata, hint, hr1, hr2]
  have hcontains : containsText (to_string (t : Int) ++ " C4 480") "MIDI File Analyzed" = false := by
    rw [hline, containsText_digits l _ h3]
    decide
  have hhead : (to_string (t : Int) ++ " C4 480").data.head? ≠ some '-' := by
    rw [hdata, hctl]
    simp only [List.cons_append, List.head?_cons, ne_eq, Option.some.injEq]
    rintro rfl
    revert hb1
    decide
  have hne : (to_string (t : Int) ++ " C4 480").data ≠ [] := by
    rw [hdata, hctl]
    simp
  have hnote : getNoteNumber "C4" = .ok 60 := by decide
  have hread : readNoteLine (to_string (t : Int) ++ " C4 480") = some ((t : Int), "C4", 480) := by
    have hname : ¬ (("C4" : String) = "Note" ∨ ("C4" : String) = "Track") := by decide
    simp only [readNoteLine, hne, hhead, hcontains, hrow, hname]
    simp
  simp only [noteOfLine, hread, hnote]


/-! ### The tracks of the file -/

/-- The keys of a map after `m[key] = value`. -/
theorem mem_keys_mapSet {α : Type} (m : List (Int × α)) (key : Int) (value : α) (x : Int) :
    x ∈ (mapSet m key value).map Prod.fst ↔ x = key ∨ x ∈ m.map Prod.fst := by
  induction m with
  | nil => simp [mapSet]
  | cons kv rest ih =>
    obtain ⟨k, v⟩ := kv
    by_cases h1 : key = k
    · subst h1
      simp [mapSet]
    · by_cases h2 : key < k
      · simp [mapSet, h1, h2]
      · simp only [mapSet, h1, h2, if_false, List.map_cons, List.mem_cons, ih]
        tauto

/-- The keys of a map stay in ascending order under `m[key] = value`. -/
theorem pairwise_keys_mapSet {α : Type} (m : List (Int × α)) (key : Int) (value : α)
    (h : (m.map Prod.fst).Pairwise (fun a b => a < b)) :
    ((mapSet m key value).map Prod.fst).Pairwise (fun a b => a < b) := by
  induction m with
  | nil => simp [mapSet]
  | cons kv rest ih =>
    obtain ⟨k, v⟩ := kv
    simp only [List.map_cons, List.pairwise_cons] at h
    obtain ⟨hk, hrest⟩ := h
    by_cases h1 : key = k
    · subst h1
      simp only [mapSet, if_true, List.map_cons, List.pairwise_cons]
      exact ⟨hk, hrest⟩
    · by_cases h2 : key < k
      · simp only [mapSet, h1, h2, if_false, if_true, List.map_cons, List.pairwise_cons,
          List.mem_cons]
        refine ⟨?_, hk, hrest⟩
        rintro x (rfl | hx)
        · exact h2
        · exact lt_trans h2 (hk x hx)
      · simp only [mapSet, h1, h2, if_false, List.map_cons, List.pairwise_cons]
        refine ⟨?_, ih hrest⟩
        intro x hx
        rcases (mem_keys_mapSet rest key value x).mp hx with rfl | hx
        · omega
        · exact hk x hx

/-- In a map with ascending keys, an entry is what `find` returns for its key. -/
theorem mapFind_of_mem {α : Type} (m : List (Int × α))
    (h : (m.map Prod.fst).Pairwise (fun a b => a < b)) (kv : Int × α) (hm : kv ∈ m) :
    mapFind m kv.1 = some kv.2 := by
  induction m with
  | nil => simp at hm
  | cons e rest ih =>
    obtain ⟨k, v⟩ := e
    simp only [List.map_cons, List.pairwise_cons] at h
    rcases List.mem_cons.mp hm with rfl | hm
    · simp [mapFind]
    · have hlt : k < kv.1 := h.1 kv.1 (List.mem_map_of_mem _ hm)
      have hne : ¬ kv.1 = k := by omega
      simp only [mapFind, hne, if_false]
      exact ih h.2 hm

/-- What the loop body of the reading loop does to the keys of `trackEvents`. -/
theorem keys_collectLine (c : Collected) (line : String) :
    ((c.trackEvents.map Prod.fst).Pairwise (fun a b => a < b) →
        ((collectLine c line).trackEvents.map Prod.fst).Pairwise (fun a b => a < b)) ∧
      ∀ t, t ∈ (collectLine c line).trackEvents.map Prod.fst
        ↔ t ∈ c.trackEvents.map Prod.fst ∨ t ∈ (noteOfLine line).toList.map (fun rec => rec.1) := by
  cases h1 : readNoteLine line with
  | none => simp [collectLine, noteOfLine, h1]
  | some r =>
    obtain ⟨track, noteName, duration⟩ := r
    cases h2 : getNoteNumber noteName with
    | error e => simp [collectLine, noteOfLine, h1, h2]
    | ok noteNumber =>
      simp only [collectLine, noteOfLine, h1, h2, addNote, Option.toList_some, List.map_cons,
        List.map_nil, List.mem_singleton]
      refine ⟨pairwise_keys_mapSet _ _ _, ?_⟩
      intro t
      rw [mem_keys_mapSet]
      tauto

/-- The keys of `trackEvents` after the reading loop: in ascending order, and the tracks of
the rows that were accepted on top of the keys from before. -/
theorem keys_foldl_collectLine (lines : List String) : ∀ c : Collected,
    ((c.trackEvents.map Prod.fst).Pairwise (fun a b => a < b) →
        (((lines.foldl collectLine c).trackEvents).map Prod.fst).Pairwise
          (fun a b => a < b)) ∧
      ∀ t, t ∈ ((lines.foldl collectLine c).trackEvents).map Prod.fst
        ↔ t ∈ c.trackEvents.map Prod.fst
          ∨ t ∈ (lines.filterMap noteOfLine).map (fun rec => rec.1) := by
  induction lines with
  | nil => intro c; simp
  | cons line rest ih =>
    intro c
    obtain ⟨a1, a2⟩ := keys_collectLine c line
    obtain ⟨b1, b2⟩ := ih (collectLine c line)
    refine ⟨fun h => b1 (a1 h), ?_⟩
    intro t
    rw [List.foldl_cons, b2, a2]
    cases hn : noteOfLine line with
    | none => simp [List.filterMap_cons, hn]
    | some rec =>
      simp only [List.filterMap_cons, hn, Option.toList_some, List.map_cons, List.map_nil,
        List.mem_singleton, List.mem_cons]
      tauto

/-- The file that `convertToMidi` writes: the header with the size of the map `trackEvents`,
then the chunks of its entries. -/
theorem convertToMidi_file (sort : List MidiEvent → List MidiEvent)
    (inputFile outputFile : String) (lines : List String) (msg : String) :
    (convertToMidi sort inputFile outputFile (some lines) true msg).1
      = some (writeHeader (collectEvents lines msg).trackEvents.length
          ++ ((collectEvents lines msg).trackEvents.map
              (fun entry => writeTrack sort [] entry.2)).flatten) := by
  simp only [convertToMidi, if_true, writeMidi, foldl_writeTrack]

/-- The keys of `trackEvents` after the reading part of `convertToMidi`: in ascending order,
and the tracks of the parseable rows. -/
theorem keys_collectEvents (lines : List String) (msg : String) :
    (((collectEvents lines msg).trackEvents).map Prod.fst).Pairwise (fun a b => a < b) ∧
      ∀ t, t ∈ ((collectEvents lines msg).trackEvents).map Prod.fst
        ↔ ∃ rec ∈ parsedRecords lines, rec.1 = t := by
  obtain ⟨k1, k2⟩ := keys_foldl_collectLine (lines.drop 2) ⟨[], [], msg⟩
  refine ⟨k1 (by simp), ?_⟩
  intro t
  have := k2 t
  simp only [List.map_nil, List.not_mem_nil, false_or] at this
  rw [collectEvents, this, parsedRecords]
  simp

/-- The size of `trackEvents` after the reading part of `convertToMidi`: the number of
distinct tracks among the parseable rows. -/
theorem length_trackEvents (lines : List String) (msg : String) :
    (collectEvents lines msg).trackEvents.length
      = ((parsedRecords lines).map (fun rec => rec.1)).dedup.length := by
  obtain ⟨hsorted, hmem⟩ := keys_collectEvents lines msg
  have hnodup : (((collectEvents lines msg).trackEvents).map Prod.fst).Nodup :=
    hsorted.imp (fun {a b} h => ne_of_lt h)
  rw [← List.length_map (collectEvents lines msg).trackEvents Prod.fst]
  refine List.Perm.length_eq ((List.perm_ext_iff_of_nodup hnodup (List.nodup_dedup _)).mpr ?_)
  intro t
  rw [hmem t, List.mem_dedup]
  simp

/-- The rows `t C4 480` for the numbers `t` of a list are all accepted. -/
theorem filterMap_noteOfLine_written (l : List Nat) (h : ∀ t ∈ l, t < 2 ^ 31) :
    (l.map (fun (t : Nat) => to_string (t : Int) ++ " C4 480")).filterMap noteOfLine
      = l.map (fun (t : Nat) => ((t : Int), (60 : Int), (480 : Int))) := by
  induction l with
  | nil => rfl
  | cons t rest ih =>
    rw [List.map_cons, List.filterMap_cons,
      noteOfLine_written t (h t (List.mem_cons_self _ _)),
      ih (fun x hx => h x (List.mem_cons_of_mem _ hx)), List.map_cons]

/-- A table with one row `t C4 480` for each track `t` below `n` has `n` distinct tracks. -/
theorem tracks_of_written_rows (n : Nat) (hn : n ≤ 2 ^ 31) :
    ((parsedRecords ("Track Note Duration" :: "---"
        :: (List.range n).map (fun (t : Nat) => to_string (t : Int) ++ " C4 480"))).map
      (fun rec => rec.1)).dedup.length = n := by
  have hrec : parsedRecords ("Track Note Duration" :: "---"
        :: (List.range n).map (fun (t : Nat) => to_string (t : Int) ++ " C4 480"))
      = (List.range n).map (fun (t : Nat) => ((t : Int), (60 : Int), (480 : Int))) :=
    filterMap_noteOfLine_written (List.range n)
      (fun t ht => lt_of_lt_of_le (List.mem_range.mp ht) hn)
  have hmap : ((List.range n).map (fun (t : Nat) => ((t : Int), (60 : Int), (480 : Int)))).map
      (fun rec => rec.1) = (List.range n).map (fun (t : Nat) => (t : Int)) := by
    rw [List.map_map]
    rfl
  have hnodup : ((List.range n).map (fun (t : Nat) => (t : Int))).Nodup :=
    (List.nodup_range n).map (fun a b hab => Int.ofNat.inj hab)
  rw [hrec, hmap, hnodup.dedup, List.length_map, List.length_range]

/-- The reading loop of `convertToMidi` on the row `1 C4 1`. -/
theorem collectLine_unit_row (c : Collected) : collectLine c "1 C4 1" = addNote c 1 60 1 := by
  have h1 : readNoteLine "1 C4 1" = some (1, "C4", 1) := by decide
  have h2 : getNoteNumber "C4" = .ok 60 := by decide
  simp only [collectLine, h1, h2]

/-- The reading loop of `convertToMidi` on `n` rows `1 C4 1`, once the track 1 is there. -/
theorem foldl_collectLine_unit_rows (n : Nat) : ∀ (evs : List MidiEvent) (pos : Int)
    (msg : String),
    ((List.replicate n "1 C4 1").foldl collectLine ⟨[(1, evs)], [(1, pos)], msg⟩).trackEvents
      = [(1, evs ++ timeline 1 pos (List.replicate n (60, 1)))] := by
  induction n with
  | zero => intro evs pos msg; simp [timeline]
  | succ n ih =>
    intro evs pos msg
    have hstep : addNote ⟨[(1, evs)], [(1, pos)], msg⟩ 1 60 1
        = ⟨[(1, evs ++ [⟨1, 60, pos, 1, true⟩] ++ [⟨1, 60, pos + 1, 0, false⟩])],
            [(1, pos + 1)], msg⟩ := by
      simp [addNote, mapFind, mapSet]
    rw [List.replicate_succ, List.foldl_cons, collectLine_unit_row, hstep, ih,
      List.replicate_succ, timeline]
    simp

/-- The map `trackEvents` that `convertToMidi` builds from a table of `n` rows `1 C4 1`. -/
theorem collectEvents_unit_rows (n : Nat) (hn : 0 < n) (msg : String) :
    (collectEvents ("Track Note Duration" :: "---" :: List.replicate n "1 C4 1")
        msg).trackEvents
      = [(1, timeline 1 0 (List.replicate n (60, 1)))] := by
  obtain ⟨m, rfl⟩ : ∃ m, n = m + 1 := ⟨n - 1, by omega⟩
  have hstep : addNote ⟨[], [], msg⟩ 1 60 1
      = ⟨[(1, [⟨1, 60, 0, 1, true⟩, ⟨1, 60, 0 + 1, 0, false⟩])], [(1, 0 + 1)], msg⟩ := by
    simp [addNote, mapFind, mapSet]
  show ((List.replicate (m + 1) "1 C4 1").foldl collectLine ⟨[], [], msg⟩).trackEvents = _
  rw [List.replicate_succ, List.foldl_cons, collectLine_unit_row, hstep,
    foldl_collectLine_unit_rows, List.replicate_succ, timeline]
  rfl

/-- Claim C22, as the code has it: the file that `convertToMidi` writes starts with the 14
bytes `MThd`, `00 00 00 06`, the format `00 01`, a track count of two bytes and the division
`04 00`, 1024 ticks per quarter note.  The tracks are the distinct track numbers that have
at least one parseable note row, in ascending order; one `MTrk` chunk follows for each of
them, in that order, made of the events of the track.  The track count, read big end first,
is the number of the tracks modulo 65536, so it is exactly that number whenever there are
fewer than 65536 tracks. -/
theorem convertToMidi_header (sort : List MidiEvent → List MidiEvent)
    (inputFile outputFile : String) (lines : List String) (msg : String) :
    ∃ count chunks tracks,
      (convertToMidi sort inputFile outputFile (some lines) true msg).1
        = some (asciiBytes "MThd" ++ [0, 0, 0, 6] ++ [0, 1] ++ count ++ [0x04, 0x00]
            ++ chunks.flatten) ∧
      (asciiBytes "MThd" ++ [0, 0, 0, 6] ++ [0, 1] ++ count ++ [0x04, 0x00]).length = 14 ∧
      beValue [0x04, 0x00] = 1024 ∧
      count.length = 2 ∧
      beValue count = tracks.length % 65536 ∧
      (tracks.length < 65536 → beValue count = tracks.length) ∧
      tracks.Pairwise (fun a b => a < b) ∧
      (∀ t, t ∈ tracks ↔ ∃ rec ∈ parsedRecords lines, rec.1 = t) ∧
      tracks.length = ((parsedRecords lines).map (fun rec => rec.1)).dedup.length ∧
      List.Forall₂ (fun t chunk => ∃ events,
          mapFind (collectEvents lines msg).trackEvents t = some events ∧
          chunk = writeTrack sort [] events ∧ chunk.take 4 = asciiBytes "MTrk")
        tracks chunks := by
  obtain ⟨hsorted, hmem⟩ := keys_collectEvents lines msg
  have hcount : beValue [((collectEvents lines msg).trackEvents.length >>> 8) &&& 0xFF,
      (collectEvents lines msg).trackEvents.length &&& 0xFF]
      = (collectEvents lines msg).trackEvents.length % 65536 := beValue_count_bytes _
  refine ⟨[((collectEvents lines msg).trackEvents.length >>> 8) &&& 0xFF,
      (collectEvents lines msg).trackEvents.length &&& 0xFF],
    (collectEvents lines msg).trackEvents.map (fun entry => writeTrack sort [] entry.2),
    (collectEvents lines msg).trackEvents.map Prod.fst, ?_, rfl, by decide, rfl,
    ?_, ?_, hsorted, hmem, ?_, ?_⟩
  · rw [convertToMidi_file]
    rfl
  · rw [hcount, List.length_map]
  · intro h
    rw [hcount, List.length_map]
    rw [List.length_map] at h
    exact Nat.mod_eq_of_lt h
  · rw [List.length_map, length_trackEvents]
  · rw [List.forall₂_map_left_iff, List.forall₂_map_right_iff, List.forall₂_same]
    intro entry he
    refine ⟨entry.2, mapFind_of_mem _ hsorted entry he, rfl, ?_⟩
    rw [writeTrack_eq]
    rfl

/-- Claim C22, the code against the claim: for the table with the rows `0 C4 480` to
`65535 C4 480`, one note on each of 65536 tracks, `convertToMidi` writes the track count
`00 00` in the header, and 65536 chunks after it. -/
theorem convertToMidi_track_count_wraps :
    ((parsedRecords ("Track Note Duration" :: "---"
        :: (List.range 65536).map (fun (t : Nat) => to_string (t : Int) ++ " C4 480"))).map
      (fun rec => rec.1)).dedup.length = 65536 ∧
    ∃ chunks : List (List Nat), chunks.length = 65536 ∧
      (convertToMidi sortEvents "notes.txt" "notes.mid"
        (some ("Track Note Duration" :: "---"
          :: (List.range 65536).map (fun (t : Nat) => to_string (t : Int) ++ " C4 480")))
        true "").1
        = some (asciiBytes "MThd" ++ [0, 0, 0, 6] ++ [0, 1] ++ [0, 0] ++ [0x04, 0x00]
            ++ chunks.flatten) := by
  have hn := tracks_of_written_rows 65536 (by decide)
  have hlen := length_trackEvents ("Track Note Duration" :: "---"
    :: (List.range 65536).map (fun (t : Nat) => to_string (t : Int) ++ " C4 480")) ""
  rw [hn] at hlen
  have hh : writeHeader 65536
      = asciiBytes "MThd" ++ [0, 0, 0, 6] ++ [0, 1] ++ [0, 0] ++ [0x04, 0x00] := by decide
  refine ⟨hn, (collectEvents ("Track Note Duration" :: "---"
      :: (List.range 65536).map (fun (t : Nat) => to_string (t : Int) ++ " C4 480"))
      "").trackEvents.map (fun entry => writeTrack sortEvents [] entry.2), ?_, ?_⟩
  · rw [List.length_map, hlen]
  · rw [convertToMidi_file, hlen, hh]


/-- A delta time from 0 to 127 is written as one byte. -/
theorem encodeVlq_length_of_lt (δ : Int) (h0 : 0 ≤ δ) (h1 : δ < 128) :
    (encodeVlq δ).length = 1 := by
  by_cases hz : δ = 0
  · subst hz; rfl
  · have hpos : δ > 0 := by omega
    obtain ⟨f, hf⟩ : ∃ f, δ.toNat = f + 1 := ⟨δ.toNat - 1, by omega⟩
    have hq : δ / 128 = 0 := by omega
    have hstop : ∀ l : List Nat, vlqLoop f 0 l = l := by
      intro l
      cases f <;> simp [vlqLoop]
    simp [encodeVlq, hz, hf, vlqLoop, hpos, hq, hstop]

/-- The bytes of the events of a timeline whose durations are all from 0 to 127: eight for
each note. -/
theorem sum_vlq_timeline (track : Int) (notes : List (Int × Int))
    (h : ∀ n ∈ notes, 0 ≤ n.2 ∧ n.2 < 128) : ∀ start,
    ((deltaTimes start (timeline track start notes)).map
      (fun δ => (encodeVlq δ).length + 3)).sum = 8 * notes.length := by
  induction notes with
  | nil => intro start; simp [timeline, deltaTimes]
  | cons n rest ih =>
    intro start
    obtain ⟨p, d⟩ := n
    obtain ⟨h0, h1⟩ := h (p, d) (List.mem_cons_self _ _)
    have hr := ih (fun n hn => h n (List.mem_cons_of_mem _ hn)) (start + d)
    have e1 : (encodeVlq (start - start)).length = 1 := by
      rw [sub_self]; rfl
    have e2 : (encodeVlq (start + d - start)).length = 1 := by
      rw [add_sub_cancel_left]
      exact encodeVlq_length_of_lt d h0 h1
    simp only [timeline, deltaTimes, List.map_cons, List.sum_cons, e1, e2, hr,
      List.length_cons]
    omega

/-- The chunk of a track of `n` notes of one tick each has a body of `8 * n + 7` bytes. -/
theorem writeTrack_unit_notes (n : Nat) :
    writeTrack sortEvents [] (timeline 1 0 (List.replicate n (60, 1)))
      = asciiBytes "MTrk"
        ++ [((3 + 8 * n + 4) >>> 24) &&& 0xFF, ((3 + 8 * n + 4) >>> 16) &&& 0xFF,
            ((3 + 8 * n + 4) >>> 8) &&& 0xFF, (3 + 8 * n + 4) &&& 0xFF]
        ++ trackBody (timeline 1 0 (List.replicate n (60, 1))) ∧
      (trackBody (timeline 1 0 (List.replicate n (60, 1)))).length = 3 + 8 * n + 4 := by
  have hmem : ∀ x ∈ List.replicate n ((60 : Int), (1 : Int)), x = (60, 1) :=
    fun x hx => List.eq_of_mem_replicate hx
  have hpos : ∀ x ∈ List.replicate n ((60 : Int), (1 : Int)), 0 < x.2 := by
    intro x hx
    rw [hmem x hx]
    decide
  have hsmall : ∀ x ∈ List.replicate n ((60 : Int), (1 : Int)), 0 ≤ x.2 ∧ x.2 < 128 := by
    intro x hx
    rw [hmem x hx]
    decide
  have hsort : sortEvents (timeline 1 0 (List.replicate n (60, 1)))
      = timeline 1 0 (List.replicate n (60, 1)) :=
    eq_of_isSortedEvents_of_strict _ _ (timeline_strict 1 _ hpos 0) (sortEvents_isSorted _)
  have hlen : (trackBody (timeline 1 0 (List.replicate n (60, 1)))).length = 3 + 8 * n + 4 := by
    rw [trackBody_length, sum_vlq_timeline 1 _ hsmall 0, List.length_replicate]
  refine ⟨?_, hlen⟩
  rw [writeTrack_eq, hsort, hlen, List.nil_append]

/-- Claim C21, the code against the claim: for the table of `2 ^ 29` rows `1 C4 1`, a track
of `2 ^ 29` notes of one tick each, the chunk body has `2 ^ 32 + 7` bytes, from the
instrument-select event through the end-of-track marker; the length field that
`convertToMidi` writes after `MTrk` is `00 00 00 07`. -/
theorem convertToMidi_length_field_wraps :
    (convertToMidi sortEvents "notes.txt" "notes.mid"
        (some ("Track Note Duration" :: "---" :: List.replicate (2 ^ 29) "1 C4 1")) true "").1
      = some (writeHeader 1 ++ (asciiBytes "MTrk" ++ [0, 0, 0, 7]
          ++ trackBody (timeline 1 0 (List.replicate (2 ^ 29) (60, 1))))) ∧
      (trackBody (timeline 1 0 (List.replicate (2 ^ 29) (60, 1)))).length = 2 ^ 32 + 7 := by
  obtain ⟨h1, h2⟩ := writeTrack_unit_notes (2 ^ 29)
  have hf : [((3 + 8 * 2 ^ 29 + 4) >>> 24) &&& 0xFF, ((3 + 8 * 2 ^ 29 + 4) >>> 16) &&& 0xFF,
      ((3 + 8 * 2 ^ 29 + 4) >>> 8) &&& 0xFF, (3 + 8 * 2 ^ 29 + 4) &&& 0xFF]
      = [0, 0, 0, 7] := by decide
  rw [hf] at h1
  refine ⟨?_, ?_⟩
  · rw [convertToMidi_file, collectEvents_unit_rows (2 ^ 29) (by decide) "", List.map_cons,
      List.map_nil, List.flatten_cons, List.flatten_nil, List.append_nil, h1]
    rfl
  · rw [h2]
    norm_num

/-- Claim C21, as the code has it: in every track chunk that `convertToMidi` writes, the type
`MTrk` is followed by a field of four bytes and the chunk body, which runs from the first
event byte (the instrument-select event) through the end-of-track marker and has
`3 + sum over the events of (VLQ length of the delta + 3) + 4` bytes; the field, read big end
first, is the number of bytes of the body modulo `2 ^ 32`, so it is exactly that number
whenever the body is shorter than `2 ^ 32` bytes. -/
theorem writeTrack_length_field (sort : List MidiEvent → List MidiEvent) (file : List Nat)
    (events : List MidiEvent) :
    ∃ field body,
      writeTrack sort file events = file ++ asciiBytes "MTrk" ++ field ++ body ∧
      field.length = 4 ∧
      (∃ mid, body = [0x00, 0xC0, 0x00] ++ mid ++ [0x00, 0xFF, 0x2F, 0x00]) ∧
      body.length
        = 3 + ((deltaTimes 0 (sort events)).map (fun δ => (encodeVlq δ).length + 3)).sum + 4 ∧
      beValue field = body.length % 2 ^ 32 ∧
      (body.length < 2 ^ 32 → beValue field = body.length) := by
  refine ⟨_, trackBody (sort events), writeTrack_eq sort file events, rfl, ⟨_, rfl⟩,
    trackBody_length _, beValue_length_bytes _, ?_⟩
  intro h
  rw [beValue_length_bytes, Nat.mod_eq_of_lt h]

/-- Claim C23: for every track, the bytes that `convertToMidi` writes after the length field
are the instrument-select event `00 C0 00`; then, for each event of the sorted list in order,
the variable-length quantity of its delta time since the event before it, the first one
measured from tick 0, followed by `90 pitch 64` for a note-on and by `80 pitch 00` for a
note-off; then the end-of-track marker `00 FF 2F 00`.  The pitch byte is the note number of
the event, for every note number from 0 to 255. -/
theorem writeTrack_body_layout (sort : List MidiEvent → List MidiEvent) (file : List Nat)
    (events : List MidiEvent) (hsort : IsSortedEvents events (sort events)) :
    ∃ field sorted,
      IsSortedEvents events sorted ∧ field.length = 4 ∧
      writeTrack sort file events
        = file ++ asciiBytes "MTrk" ++ field
          ++ ([0x00, 0xC0, 0x00]
            ++ (List.zipWith (fun δ event => encodeVlq δ
                ++ (if event.isNoteOn then [0x90, toByte event.noteNumber, 0x64]
                    else [0x80, toByte event.noteNumber, 0x00]))
                (deltaTimes 0 sorted) sorted).flatten
            ++ [0x00, 0xFF, 0x2F, 0x00]) ∧
      ∀ event ∈ sorted, 0 ≤ event.noteNumber → event.noteNumber < 256 →
        (toByte event.noteNumber : Int) = event.noteNumber := by
  refine ⟨_, sort events, hsort, ?_, writeTrack_eq sort file events, ?_⟩
  · rfl
  · intro event _ h0 h1
    simp only [toByte]
    omega

/-- Witness of claim C23: the track of the rows `1 C4 480` and `1 D4 240`, written after a
header of one track. -/
theorem writeTrack_body_layout_witness :
    ∃ field sorted,
      IsSortedEvents (timeline 1 0 [(60, 480), (62, 240)]) sorted ∧ field.length = 4 ∧
      writeTrack sortEvents (writeHeader 1) (timeline 1 0 [(60, 480), (62, 240)])
        = writeHeader 1 ++ asciiBytes "MTrk" ++ field
          ++ ([0x00, 0xC0, 0x00]
            ++ (List.zipWith (fun δ event => encodeVlq δ
                ++ (if event.isNoteOn then [0x90, toByte event.noteNumber, 0x64]
                    else [0x80, toByte event.noteNumber, 0x00]))
                (deltaTimes 0 sorted) sorted).flatten
            ++ [0x00, 0xFF, 0x2F, 0x00]) ∧
      ∀ event ∈ sorted, 0 ≤ event.noteNumber → event.noteNumber < 256 →
        (toByte event.noteNumber : Int) = event.noteNumber :=
  writeTrack_body_layout sortEvents (writeHeader 1) (timeline 1 0 [(60, 480), (62, 240)])
    (sortEvents_isSorted _)


/-! ### The pitch byte -/

/-- The ten decimal digits. -/
theorem isDigit_cases (c : Char) (h : c.isDigit = true) :
    c ∈ ['0', '1', '2', '3', '4', '5', '6', '7', '8', '9'] := by
  obtain ⟨h1, h2⟩ := isDigit_bounds c h
  have hc : c = Char.ofNat c.toNat := (Char.ofNat_toNat c).symm
  generalize c.toNat = n at h1 h2 hc
  subst hc
  interval_cases n <;> decide

/-- The note numbers above 127 that `getNoteNumber` returns are those of four names. -/
theorem getNoteNumber_le_127_iff (noteName : String) (noteNumber : Int)
    (hlen : noteName.length < 2 ^ SIZE_WIDTH) (h : getNoteNumber noteName = .ok noteNumber) :
    noteNumber ≤ 127 ↔ noteName ∉ ["G#9", "A9", "A#9", "B9"] := by
  obtain ⟨base, c, rfl, hd, hm, rfl⟩ := (getNoteNumber_eq_ok_iff noteName noteNumber hlen).mp h
  have hc := isDigit_cases c hd
  have hb : base ∈ noteNames.map String.data := by
    have := List.mem_map_of_mem String.data hm
    simpa using this
  simp only [noteNames, List.map_cons, List.map_nil, List.mem_cons, List.mem_singleton,
    List.not_mem_nil, or_false] at hb hc
  rcases hb with rfl | rfl | rfl | rfl | rfl | rfl | rfl | rfl | rfl | rfl | rfl | rfl <;>
    rcases hc with rfl | rfl | rfl | rfl | rfl | rfl | rfl | rfl | rfl | rfl <;>
    decide

/-- Claim C24, the code against the claim: `getNoteNumber` accepts the name `B9` with the
note number 131, and for the row `1 B9 480` `convertToMidi` writes the pitch byte 131 (`83`)
in the note-on event and in the note-off event, above 127. -/
theorem convertToMidi_pitch_byte_above_127 :
    getNoteNumber "B9" = .ok 131 ∧
      (convertToMidi sortEvents "notes.txt" "notes.mid"
        (some ["Track Note Duration", "---", "1 B9 480"]) true "").1
        = some [77, 84, 104, 100, 0, 0, 0, 6, 0, 1, 0, 1, 4, 0,
            77, 84, 114, 107, 0, 0, 0, 16,
            0x00, 0xC0, 0x00,
            0x00, 0x90, 131, 0x64,
            0x83, 0x60, 0x80, 131, 0x00,
            0x00, 0xFF, 0x2F, 0x00] := by
  decide

/-- Claim C24, as the code has it: for every note name that `getNoteNumber` accepts, the
note number lies between 12 and 131; the pitch byte that `convertToMidi` writes in the
note-on and in the note-off event is that number; and it is at most 127 exactly when the
name is none of `G#9`, `A9`, `A#9` and `B9`, whose bytes are 128, 129, 130 and 131. -/
theorem convertToMidi_pitch_byte (noteName : String) (noteNumber : Int)
    (hlen : noteName.length < 2 ^ SIZE_WIDTH) (h : getNoteNumber noteName = .ok noteNumber) :
    12 ≤ noteNumber ∧ noteNumber ≤ 131 ∧
      (∀ (w : List Nat × Int) (track start duration : Int),
        (writeEvent w ⟨track, noteNumber, start, duration, true⟩).1
            = w.1 ++ encodeVlq (start - w.2) ++ [0x90, noteNumber.toNat, 0x64] ∧
          (writeEvent w ⟨track, noteNumber, start, duration, false⟩).1
            = w.1 ++ encodeVlq (start - w.2) ++ [0x80, noteNumber.toNat, 0x00]) ∧
      (noteNumber ≤ 127 ↔ noteName ∉ ["G#9", "A9", "A#9", "B9"]) ∧
      getNoteNumber "G#9" = .ok 128 ∧ getNoteNumber "A9" = .ok 129 ∧
      getNoteNumber "A#9" = .ok 130 ∧ getNoteNumber "B9" = .ok 131 := by
  obtain ⟨h1, h2⟩ := getNoteNumber_range noteName noteNumber hlen h
  have hb : toByte noteNumber = noteNumber.toNat := by
    simp only [toByte]
    omega
  refine ⟨h1, h2, ?_, getNoteNumber_le_127_iff noteName noteNumber hlen h,
    by decide, by decide, by decide, by decide⟩
  intro w track start duration
  simp [writeEvent, hb]

/-- Witness of claim C24: the name `G9`, with the note number 127. -/
theorem convertToMidi_pitch_byte_witness :
    12 ≤ (127 : Int) ∧ (127 : Int) ≤ 131 ∧
      (∀ (w : List Nat × Int) (track start duration : Int),
        (writeEvent w ⟨track, 127, start, duration, true⟩).1
            = w.1 ++ encodeVlq (start - w.2) ++ [0x90, (127 : Int).toNat, 0x64] ∧
          (writeEvent w ⟨track, 127, start, duration, false⟩).1
            = w.1 ++ encodeVlq (start - w.2) ++ [0x80, (127 : Int).toNat, 0x00]) ∧
      ((127 : Int) ≤ 127 ↔ "G9" ∉ ["G#9", "A9", "A#9", "B9"]) ∧
      getNoteNumber "G#9" = .ok 128 ∧ getNoteNumber "A9" = .ok 129 ∧
      getNoteNumber "A#9" = .ok 130 ∧ getNoteNumber "B9" = .ok 131 :=
  convertToMidi_pitch_byte "G9" 127 (by decide) (by decide)

end TrillTransformation
